import Mathlib

/-!
# Craw: a cache-aside layer with request coalescing

A shallow embedding of `craw.go`.  The Go methods of `*Craw` are modelled over an
explicit state.  `GetData`, `HitRate` and `ResetHitRate` are given as small-step
threads (one step per shared-memory action of the source) so that concurrent
interleavings can be stated; the sequential meaning of a call is the run of a
single thread to completion.  The two collaborators (the data source adapter
`CrawInterface` and the `lrucache.LruCache` store) are parameters.
-/

namespace CrawModel

/-- Keys are Go strings. -/
abbrev Key := String

/-- A Go error value, represented by its message; `none` is the nil error. -/
abbrev Err := String

/-- Go `time.Duration`, a signed number of nanoseconds. -/
abbrev Duration := Int

/-- The error built by `errors.New` in every disabled-guard of `craw.go`. -/
def destroyedErr : Err := "this craw has been destroyed."

/-- Size of the `uint64` range. -/
def u64 : Nat := 2 ^ 64

/-- The data source adapter (`CrawInterface`), with its own state `A`.
Data of type `interface{}` is `Option V`, `none` being the nil interface. -/
structure CrawInterface (V A : Type) where
  Init : A → Option Err × A
  CustomGet : A → Key → (Option V × Duration × Option Err) × A
  CustomSet : A → Key → Option V → Option Err × A
  Destroy : A → A

/-- The operations of `lrucache.LruCache` used by `craw.go`, over a store state `S`.
Every operation may change the store (recency order, lazy expiry). -/
structure LruCache (V S : Type) where
  GetEx : S → Key → (Option V × Bool) × S
  Put : S → Key → Option V → Duration → S
  Delete : S → Key → Option Err × S
  DelayDelete : S → Key → Duration → Option Err × S
  IsExist : S → Key → Bool × S
  ClearAll : S → S
  ClearPrefixKeys : S → String → S
  Destroy : S → S

/-- Record of one collaborator invocation (ghost log kept in the state). -/
inductive Call (V : Type) where
  | adapterInit
  | customGet (key : Key)
  | customSet (key : Key) (data : Option V)
  | adapterDestroy
  | cacheGetEx (key : Key)
  | cachePut (key : Key) (data : Option V) (expired : Duration)
  | cacheDelete (key : Key)
  | cacheDelayDelete (key : Key) (delay : Duration)
  | cacheIsExist (key : Key)
  | cacheClearAll
  | cacheClearPrefixKeys (pre : String)
  | cacheDestroy
  deriving DecidableEq, Repr

/-- The Go struct `customValue`: one pending fetch.  `wait` is `true` once the
channel has been closed. -/
structure customValue (V : Type) where
  data : Option V
  err : Option Err
  wait : Bool

/-- The Go struct `Craw`.  `keyMap` maps a key to the address of its `customValue`
in `heap`; `next` is the next fresh address; `mu` is the embedded mutex
(`true` = locked); `calls` logs collaborator invocations. -/
structure Craw (V A S : Type) where
  dispose : A
  keyMap : Key → Option Nat
  craw : S
  enable : Bool
  mu : Bool
  totalAccess : Nat
  staggerAccess : Nat
  heap : Nat → customValue V
  next : Nat
  calls : List (Call V)

/-- Program points of `GetData` (line numbers of `craw.go`). -/
inductive GPc where
  | checkEnable   -- 75
  | addTotal      -- 79
  | getEx         -- 82
  | lock          -- 87
  | lookup        -- 88
  | addStagger    -- 91
  | insert        -- 93, 94
  | unlock        -- 95
  | customGet     -- 99
  | put           -- 100 to 104
  | relock        -- 105
  | delete        -- 106
  | reunlock      -- 107
  | close         -- 108
  | retOwner      -- 109
  | unlockW       -- 111
  | wait          -- 113
  | retWaiter     -- 115
  | doneDestroyed -- returned at 76
  | doneHit       -- returned at 84
  | doneOwner     -- returned at 109
  | doneWaiter    -- returned at 115
  deriving DecidableEq, Repr

/-- Local variables of one `GetData` call. `value` is the pointer held in
`value` / `valueOpt`; `data`, `err` hold the returned pair once the call is done. -/
structure GetFrame (V : Type) where
  pc : GPc
  key : Key
  data : Option V
  err : Option Err
  value : Nat
  expired : Duration

/-- Program points of `HitRate` and `ResetHitRate`. -/
inductive RPc where
  | readStagger  -- 189 / 201
  | readTotal    -- 190 / 202
  | compute      -- 191 to 194 / 203 to 206
  | done
  deriving DecidableEq, Repr

/-- Round to the nearest integer, ties to the even one. -/
def nearestEven (y : ℚ) : ℤ :=
  if y - ⌊y⌋ < 1 / 2 then ⌊y⌋ else if 1 / 2 < y - ⌊y⌋ then ⌊y⌋ + 1
  else if ⌊y⌋ % 2 = 0 then ⌊y⌋ else ⌊y⌋ + 1

/-- IEEE 754 binary64 rounding of a non-negative real: the nearest number with a
53-bit significand, ties to even.  A finite non-negative `float64` is represented
by its value in `ℚ`.  The exponent range is not bounded: the values `HitRate`
computes are `0` or lie between `2^-64` and `2^71`, far from overflow and
underflow. -/
def roundNearestEven (x : ℚ) : ℚ :=
  if x ≤ 0 then 0
  else (nearestEven (x / (2 : ℚ) ^ (Int.log 2 x - 52)) : ℚ) * (2 : ℚ) ^ (Int.log 2 x - 52)

/-- Go conversion `float64(n)` of a `uint64`. -/
def f64OfUint64 (n : Nat) : ℚ := roundNearestEven n

/-- Go `float64` division of non-negative finite values. -/
def f64Div (x y : ℚ) : ℚ := roundNearestEven (x / y)

/-- Go `float64` multiplication of non-negative finite values. -/
def f64Mul (x y : ℚ) : ℚ := roundNearestEven (x * y)

/-- The expression `float64(total-custom) / float64(total) * 100` guarded by
`total == 0` (lines 191 to 194 and 203 to 206); the subtraction is `uint64`. -/
def rateOf (custom total : Nat) : ℚ :=
  if total = 0 then 0
  else f64Mul (f64Div (f64OfUint64 ((total + u64 - custom % u64) % u64)) (f64OfUint64 total)) 100


variable {V A S : Type}

/-- Add 1 to a `uint64` (`atomic.AddUint64(p, 1)`). -/
def addU64 (n : Nat) : Nat := (n + 1) % u64

/-- Append one invocation to the log. -/
def Craw.log (c : Craw V A S) (e : Call V) : Craw V A S :=
  { c with calls := c.calls ++ [e] }

/-- Initial locals of a call `GetData(key)`. -/
def GetFrame.init (key : Key) : GetFrame V :=
  { pc := GPc.checkEnable, key := key, data := none, err := none, value := 0, expired := 0 }

/-- One step of a `GetData` call on the shared state; `none` when the call
cannot move (waiting for the mutex or for the channel, or already returned). -/
def GetFrame.step (I : CrawInterface V A) (L : LruCache V S)
    (c : Craw V A S) (f : GetFrame V) : Option (Craw V A S × GetFrame V) :=
  match f.pc with
  | GPc.checkEnable =>
      if c.enable then some (c, { f with pc := GPc.addTotal })
      else some (c, { f with pc := GPc.doneDestroyed, data := none, err := some destroyedErr })
  | GPc.addTotal =>
      some ({ c with totalAccess := addU64 c.totalAccess }, { f with pc := GPc.getEx })
  | GPc.getEx =>
      let r := L.GetEx c.craw f.key
      let c1 := ({ c with craw := r.2 } : Craw V A S).log (Call.cacheGetEx f.key)
      if r.1.2 then some (c1, { f with pc := GPc.doneHit, data := r.1.1, err := none })
      else some (c1, { f with pc := GPc.lock, data := r.1.1 })
  | GPc.lock =>
      if c.mu then none else some ({ c with mu := true }, { f with pc := GPc.lookup })
  | GPc.lookup =>
      match c.keyMap f.key with
      | some p => some (c, { f with pc := GPc.unlockW, value := p })
      | none => some (c, { f with pc := GPc.addStagger })
  | GPc.addStagger =>
      some ({ c with staggerAccess := addU64 c.staggerAccess }, { f with pc := GPc.insert })
  | GPc.insert =>
      some ({ c with
                heap := Function.update c.heap c.next { data := none, err := none, wait := false }
                next := c.next + 1
                keyMap := Function.update c.keyMap f.key (some c.next) },
            { f with pc := GPc.unlock, value := c.next })
  | GPc.unlock =>
      some ({ c with mu := false }, { f with pc := GPc.customGet })
  | GPc.customGet =>
      let r := I.CustomGet c.dispose f.key
      let cell := c.heap f.value
      let c1 := ({ c with
                    dispose := r.2
                    heap := Function.update c.heap f.value
                      { cell with data := r.1.1, err := r.1.2.2 } } : Craw V A S).log
                  (Call.customGet f.key)
      some (c1, { f with pc := GPc.put, expired := r.1.2.1 })
  | GPc.put =>
      let cell := c.heap f.value
      if cell.err = none then
        some (({ c with craw := L.Put c.craw f.key cell.data f.expired } : Craw V A S).log
                (Call.cachePut f.key cell.data f.expired),
              { f with pc := GPc.relock })
      else some (c, { f with pc := GPc.relock })
  | GPc.relock =>
      if c.mu then none else some ({ c with mu := true }, { f with pc := GPc.delete })
  | GPc.delete =>
      some ({ c with keyMap := Function.update c.keyMap f.key none }, { f with pc := GPc.reunlock })
  | GPc.reunlock =>
      some ({ c with mu := false }, { f with pc := GPc.close })
  | GPc.close =>
      let cell := c.heap f.value
      some ({ c with heap := Function.update c.heap f.value { cell with wait := true } },
            { f with pc := GPc.retOwner })
  | GPc.retOwner =>
      let cell := c.heap f.value
      some (c, { f with pc := GPc.doneOwner, data := cell.data, err := cell.err })
  | GPc.unlockW =>
      some ({ c with mu := false }, { f with pc := GPc.wait })
  | GPc.wait =>
      if (c.heap f.value).wait then some (c, { f with pc := GPc.retWaiter }) else none
  | GPc.retWaiter =>
      let cell := c.heap f.value
      some (c, { f with pc := GPc.doneWaiter, data := cell.data, err := cell.err })
  | GPc.doneDestroyed => none
  | GPc.doneHit => none
  | GPc.doneOwner => none
  | GPc.doneWaiter => none

/-- Whether a `GetData` call has returned. -/
def GPc.returned : GPc → Bool
  | GPc.doneDestroyed => true
  | GPc.doneHit => true
  | GPc.doneOwner => true
  | GPc.doneWaiter => true
  | _ => false

/-- Run one `GetData` call alone until it returns; `none` if it blocks or the
fuel runs out. -/
def GetFrame.run (I : CrawInterface V A) (L : LruCache V S) :
    Nat → Craw V A S → GetFrame V → Option (Craw V A S × GetFrame V)
  | 0, c, f => if f.pc.returned then some (c, f) else none
  | n + 1, c, f =>
      if f.pc.returned then some (c, f)
      else match f.step I L c with
        | none => none
        | some (c1, f1) => GetFrame.run I L n c1 f1

/-- The method `GetData` called by a single goroutine: the returned pair and
the state afterwards (`none` if the call never returns). -/
def GetData (I : CrawInterface V A) (L : LruCache V S) (c : Craw V A S) (key : Key) :
    Option ((Option V × Option Err) × Craw V A S) :=
  match GetFrame.run I L 16 c (GetFrame.init key) with
  | none => none
  | some (c1, f) => some ((f.data, f.err), c1)

/-- The constructor `NewCraw`; `a0` is the adapter before `Init` and `store0`
the store returned by `lrucache.NewLruCache`. -/
def NewCraw (I : CrawInterface V A) (a0 : A) (store0 : S) : Craw V A S :=
  let r := I.Init a0
  { dispose := r.2
    keyMap := fun _ => none
    craw := store0
    enable := r.1.isNone
    mu := false
    totalAccess := 0
    staggerAccess := 0
    heap := fun _ => { data := none, err := none, wait := false }
    next := 0
    calls := [Call.adapterInit] }

/-- The method `Destroy`. -/
def Destroy (I : CrawInterface V A) (L : LruCache V S) (c : Craw V A S) : Craw V A S :=
  { c with
    enable := false
    craw := L.Destroy c.craw
    dispose := I.Destroy c.dispose
    calls := c.calls ++ [Call.cacheDestroy, Call.adapterDestroy] }

/-- The method `UpdateData`. -/
def UpdateData (I : CrawInterface V A) (L : LruCache V S) (c : Craw V A S) (key : Key) :
    (Option V × Option Err) × Craw V A S :=
  if c.enable = false then ((none, some destroyedErr), c)
  else
    let r := I.CustomGet c.dispose key
    let c1 := ({ c with dispose := r.2 } : Craw V A S).log (Call.customGet key)
    if r.1.2.2.isNone ∧ r.1.1.isSome then
      ((r.1.1, r.1.2.2),
        ({ c1 with craw := L.Put c1.craw key r.1.1 r.1.2.1 } : Craw V A S).log
          (Call.cachePut key r.1.1 r.1.2.1))
    else ((r.1.1, r.1.2.2), c1)

/-- The method `DeleteData`; `delay` is the variadic argument. -/
def DeleteData (L : LruCache V S) (c : Craw V A S) (key : Key) (delay : List Duration) :
    Option Err × Craw V A S :=
  if c.enable = false then (some destroyedErr, c)
  else match delay with
    | d :: _ =>
        let r := L.DelayDelete c.craw key d
        (r.1, ({ c with craw := r.2 } : Craw V A S).log (Call.cacheDelayDelete key d))
    | [] =>
        let r := L.Delete c.craw key
        (r.1, ({ c with craw := r.2 } : Craw V A S).log (Call.cacheDelete key))

/-- The method `SetData`. -/
def SetData (I : CrawInterface V A) (L : LruCache V S) (c : Craw V A S) (key : Key)
    (data : Option V) : Option Err × Craw V A S :=
  if c.enable = false then (some destroyedErr, c)
  else
    let r := I.CustomSet c.dispose key data
    let c1 := ({ c with dispose := r.2 } : Craw V A S).log (Call.customSet key data)
    if r.1.isSome then
      (r.1, ({ c1 with craw := (L.Delete c1.craw key).2 } : Craw V A S).log (Call.cacheDelete key))
    else (r.1, c1)

/-- The method `ClearAll`. -/
def ClearAll (L : LruCache V S) (c : Craw V A S) : Option Err × Craw V A S :=
  if c.enable = false then (some destroyedErr, c)
  else (none, ({ c with craw := L.ClearAll c.craw } : Craw V A S).log Call.cacheClearAll)

/-- The method `ClearPrefixKeys`. -/
def ClearPrefixKeys (L : LruCache V S) (c : Craw V A S) (Prefix : String) :
    Option Err × Craw V A S :=
  if c.enable = false then (some destroyedErr, c)
  else (none, ({ c with craw := L.ClearPrefixKeys c.craw Prefix } : Craw V A S).log
                (Call.cacheClearPrefixKeys Prefix))

/-- The method `HitRate` called by a single goroutine. -/
def HitRate (c : Craw V A S) : ℚ :=
  rateOf c.staggerAccess c.totalAccess

/-- The method `ResetHitRate` called by a single goroutine. -/
def ResetHitRate (c : Craw V A S) : ℚ × Craw V A S :=
  (rateOf c.staggerAccess c.totalAccess, { c with staggerAccess := 0, totalAccess := 0 })

/-- The method `SetCraw`. -/
def SetCraw (L : LruCache V S) (c : Craw V A S) (key : Key) (data : Option V)
    (expired : Duration) : Option Err × Craw V A S :=
  if c.enable = false then (some destroyedErr, c)
  else (none, ({ c with craw := L.Put c.craw key data expired } : Craw V A S).log
                (Call.cachePut key data expired))

/-- The method `IsExist`. -/
def IsExist (L : LruCache V S) (c : Craw V A S) (key : Key) :
    (Bool × Option Err) × Craw V A S :=
  if c.enable = false then ((false, some destroyedErr), c)
  else
    let r := L.IsExist c.craw key
    ((r.1, none), ({ c with craw := r.2 } : Craw V A S).log (Call.cacheIsExist key))

/-- Local variables of one `HitRate` or `ResetHitRate` call. -/
structure RateFrame where
  pc : RPc
  custom : Nat
  total : Nat
  result : ℚ

/-- Initial locals of a `HitRate` / `ResetHitRate` call. -/
def RateFrame.init : RateFrame :=
  { pc := RPc.readStagger, custom := 0, total := 0, result := 0 }

/-- One step of a `HitRate` call: two atomic loads, then the computation. -/
def RateFrame.stepHit (c : Craw V A S) (f : RateFrame) : Option (Craw V A S × RateFrame) :=
  match f.pc with
  | RPc.readStagger => some (c, { f with pc := RPc.readTotal, custom := c.staggerAccess })
  | RPc.readTotal => some (c, { f with pc := RPc.compute, total := c.totalAccess })
  | RPc.compute => some (c, { f with pc := RPc.done, result := rateOf f.custom f.total })
  | RPc.done => none

/-- One step of a `ResetHitRate` call: two atomic swaps, then the computation. -/
def RateFrame.stepReset (c : Craw V A S) (f : RateFrame) : Option (Craw V A S × RateFrame) :=
  match f.pc with
  | RPc.readStagger =>
      some ({ c with staggerAccess := 0 }, { f with pc := RPc.readTotal, custom := c.staggerAccess })
  | RPc.readTotal =>
      some ({ c with totalAccess := 0 }, { f with pc := RPc.compute, total := c.totalAccess })
  | RPc.compute => some (c, { f with pc := RPc.done, result := rateOf f.custom f.total })
  | RPc.done => none

/-- A goroutine executing one call on the shared `Craw`. -/
inductive Thread (V : Type) where
  | getData (f : GetFrame V)
  | hitRate (f : RateFrame)
  | resetHitRate (f : RateFrame)

/-- One step of a goroutine. -/
def Thread.step (I : CrawInterface V A) (L : LruCache V S) (c : Craw V A S) :
    Thread V → Option (Craw V A S × Thread V)
  | Thread.getData f =>
      match f.step I L c with
      | none => none
      | some (c1, f1) => some (c1, Thread.getData f1)
  | Thread.hitRate f =>
      match f.stepHit c with
      | none => none
      | some (c1, f1) => some (c1, Thread.hitRate f1)
  | Thread.resetHitRate f =>
      match f.stepReset c with
      | none => none
      | some (c1, f1) => some (c1, Thread.resetHitRate f1)

/-- The shared `Craw` together with the goroutines calling into it. -/
structure Sys (V A S : Type) where
  shared : Craw V A S
  threads : List (Thread V)

/-- Goroutine number `t` takes one step. -/
def Sys.step (I : CrawInterface V A) (L : LruCache V S) (t : Nat) (s : Sys V A S) :
    Option (Sys V A S) :=
  match s.threads[t]? with
  | none => none
  | some th =>
      match th.step I L s.shared with
      | none => none
      | some (c1, th1) => some { shared := c1, threads := s.threads.set t th1 }

/-- The scheduler picks goroutine `t`: it takes one step if it can move, and
nothing happens otherwise. -/
def Sys.next (I : CrawInterface V A) (L : LruCache V S) (s : Sys V A S) (t : Nat) :
    Sys V A S :=
  match s.step I L t with
  | none => s
  | some s1 => s1

/-- Execute a schedule: the list of goroutines picked, in order.  The states
`Sys.exec I L sched s0`, over all schedules, are the states reachable from `s0`
by interleaving. -/
def Sys.exec (I : CrawInterface V A) (L : LruCache V S) (sched : List Nat) (s0 : Sys V A S) :
    Sys V A S :=
  sched.foldl (Sys.next I L) s0

/-- The goroutine is a `GetData` call holding the mutex (between `Lock` and `Unlock`). -/
def GPc.holdsLock : GPc → Bool
  | GPc.lookup => true
  | GPc.addStagger => true
  | GPc.insert => true
  | GPc.unlock => true
  | GPc.delete => true
  | GPc.reunlock => true
  | GPc.unlockW => true
  | _ => false

/-- The call found the key absent from the registry and has not inserted yet. -/
def GPc.sawAbsent : GPc → Bool
  | GPc.addStagger => true
  | GPc.insert => true
  | _ => false

/-- The call is between its registry insert (line 94) and its registry delete
(line 106): its fetch is in flight. -/
def GPc.inFlight : GPc → Bool
  | GPc.unlock => true
  | GPc.customGet => true
  | GPc.put => true
  | GPc.relock => true
  | GPc.delete => true
  | _ => false

/-- The call created a `customValue` (first-caller branch, after line 93). -/
def GPc.ownerPath : GPc → Bool
  | GPc.unlock => true
  | GPc.customGet => true
  | GPc.put => true
  | GPc.relock => true
  | GPc.delete => true
  | GPc.reunlock => true
  | GPc.close => true
  | GPc.retOwner => true
  | GPc.doneOwner => true
  | _ => false

/-- The call found a pending fetch in the registry (branch of line 110). -/
def GPc.waiterPath : GPc → Bool
  | GPc.unlockW => true
  | GPc.wait => true
  | GPc.retWaiter => true
  | GPc.doneWaiter => true
  | _ => false

/-- The frame of goroutine `t` when it is a `GetData` call. -/
def Sys.frame (s : Sys V A S) (t : Nat) : Option (GetFrame V) :=
  match s.threads[t]? with
  | some (Thread.getData f) => some f
  | _ => none

/-- Goroutine `t` is a `GetData(key)` call whose fetch is in flight. -/
def Thread.inFlightFor (key : Key) : Thread V → Bool
  | Thread.getData f => f.pc.inFlight && decide (f.key = key)
  | _ => false

/-- Number of `GetData(key)` calls whose fetch is in flight. -/
def Sys.inFlightCount (s : Sys V A S) (key : Key) : Nat :=
  s.threads.countP (Thread.inFlightFor key)

/-- A goroutine that has not started executing its call. -/
def Thread.atStart : Thread V → Bool
  | Thread.getData f => decide (f.pc = GPc.checkEnable)
  | Thread.hitRate f => decide (f.pc = RPc.readStagger)
  | Thread.resetHitRate f => decide (f.pc = RPc.readStagger)

/-- Initial states: the mutex is free, the registry is empty, both counters are in
the `uint64` range and no goroutine has started. -/
def Sys.Initial (s : Sys V A S) : Prop :=
  s.shared.mu = false ∧ (∀ k, s.shared.keyMap k = none) ∧
  s.shared.totalAccess < u64 ∧ s.shared.staggerAccess < u64 ∧
  ∀ th ∈ s.threads, th.atStart = true

/-- The pair returned by a goroutine's `GetData` call, once it has returned. -/
def Thread.returnedPair : Thread V → Option (Option V × Option Err)
  | Thread.getData f => if f.pc.returned then some (f.data, f.err) else none
  | _ => none

/-! ## Fixtures: the adapters of the test files and a reference store -/

/-- Values stored by the tests: Go `int` and `string` held in `interface{}`. -/
inductive Val where
  | int (n : Int)
  | str (s : String)
  deriving DecidableEq, Repr

/-- The adapter `cacheGet` of `craw_test.go`; its state is the field `testV`. -/
def cacheGet : CrawInterface Val Int where
  Init := fun _ => (none, 0)
  CustomGet := fun testV _ => ((some (Val.int (testV + 1)), 0, none), testV + 1)
  CustomSet := fun testV _ _ => (none, testV)
  Destroy := fun testV => testV

/-- The adapter `benchCraw` of `batchget_test.go` (no state). -/
def benchCraw : CrawInterface Val Unit where
  Init := fun _ => (none, ())
  CustomGet := fun _ key => ((some (Val.str key), -1, none), ())
  CustomSet := fun _ _ _ => (none, ())
  Destroy := fun _ => ()

/-- An adapter whose remote source is unreachable once initialised: every
`CustomGet` and `CustomSet` fails. -/
def offlineSource : CrawInterface Val Unit where
  Init := fun _ => (none, ())
  CustomGet := fun _ _ => ((none, 0, some "source unavailable"), ())
  CustomSet := fun _ _ _ => (some "source unavailable", ())
  Destroy := fun _ => ()

/-- A reference store for the parameter `LruCache`: a map from keys to values
with no capacity limit and no expiry. -/
def mapStore : LruCache Val (Key → Option (Option Val)) where
  GetEx := fun s key =>
    match s key with
    | some d => ((d, true), s)
    | none => ((none, false), s)
  Put := fun s key d _ => Function.update s key (some d)
  Delete := fun s key => (none, Function.update s key none)
  DelayDelete := fun s key _ => (none, Function.update s key none)
  IsExist := fun s key => ((s key).isSome, s)
  ClearAll := fun _ _ => none
  ClearPrefixKeys := fun s pre key => if pre.isPrefixOf key then none else s key
  Destroy := fun _ _ => none

/-- The empty reference store. -/
def emptyStore : Key → Option (Option Val) := fun _ => none

/-- The public operations of a `Craw`. -/
inductive Op (V : Type) where
  | getData (key : Key)
  | updateData (key : Key)
  | setData (key : Key) (data : Option V)
  | setCraw (key : Key) (data : Option V) (expired : Duration)
  | deleteData (key : Key) (delay : List Duration)
  | isExist (key : Key)
  | clearAll
  | clearPrefixKeys (pre : String)
  | hitRate
  | resetHitRate

/-- Run one public operation alone: the error it returns and the state afterwards.
The error is `none` for a nil error, and for `HitRate` and `ResetHitRate`, whose
Go signatures return a `float64` only. The outer `none` is a call that never returns. -/
def Op.run (I : CrawInterface V A) (L : LruCache V S) (c : Craw V A S) :
    Op V → Option (Option Err × Craw V A S)
  | Op.getData key =>
      match GetData I L c key with
      | none => none
      | some r => some (r.1.2, r.2)
  | Op.updateData key => some ((UpdateData I L c key).1.2, (UpdateData I L c key).2)
  | Op.setData key data => some (SetData I L c key data)
  | Op.setCraw key data expired => some (SetCraw L c key data expired)
  | Op.deleteData key delay => some (DeleteData L c key delay)
  | Op.isExist key => some ((IsExist L c key).1.2, (IsExist L c key).2)
  | Op.clearAll => some (ClearAll L c)
  | Op.clearPrefixKeys pre => some (ClearPrefixKeys L c pre)
  | Op.hitRate => some (none, c)
  | Op.resetHitRate => some (none, (ResetHitRate c).2)

/-- Whether the Go method behind an operation has an `error` result. -/
def Op.hasErrorResult : Op V → Bool
  | Op.hitRate => false
  | Op.resetHitRate => false
  | _ => true

/-- Run a `HitRate` or `ResetHitRate` frame alone for at most `n` steps. -/
def RateFrame.run (step : Craw V A S → RateFrame → Option (Craw V A S × RateFrame)) :
    Nat → Craw V A S → RateFrame → Craw V A S × RateFrame
  | 0, c, f => (c, f)
  | n + 1, c, f =>
      match step c f with
      | none => (c, f)
      | some (c1, f1) => RateFrame.run step n c1 f1

/-! ### The disabled state -/

/-- A destroyed `Craw` over the reference store, with some accesses counted. -/
def destroyedCraw : Craw Val Int (Key → Option (Option Val)) :=
  Destroy cacheGet mapStore
    { NewCraw cacheGet 0 emptyStore with totalAccess := 2, staggerAccess := 1 }

/-- An enabled `Craw` over the reference store in which `"k"` is cached, as left by
`NewCraw` followed by `SetCraw("k", "old", -1)`. -/
def cachedCraw (I : CrawInterface Val A) (a0 : A) : Craw Val A (Key → Option (Option Val)) :=
  (SetCraw mapStore (NewCraw I a0 emptyStore) "k" (some (Val.str "old")) (-1)).2

/-- Two goroutines call `GetData("k")` on a fresh `Craw` with the adapter `cacheGet`
and the reference store; `"k"` is in neither the store nor the registry. -/
def twoGetters : Sys Val Int (Key → Option (Option Val)) :=
  { shared := NewCraw cacheGet 0 emptyStore
    threads := [Thread.getData (GetFrame.init "k"), Thread.getData (GetFrame.init "k")] }

/-- Goroutine 1 misses the store and stops before `Lock`; goroutine 0 then runs up to
its second `Unlock` (line 107); goroutine 1 then takes the mutex, finds the
registry empty and fetches again. -/
def racePrefix : List Nat :=
  [1, 1, 1,
   0, 0, 0, 0, 0, 0, 0, 0, 0, 0, 0, 0, 0,
   1, 1, 1, 1, 1, 1]

/-- The schedule `racePrefix` followed by both goroutines running to their return. -/
def raceSchedule : List Nat :=
  racePrefix ++ [0, 0, 1, 1, 1, 1, 1, 1]

/-- One goroutine calls `GetData("k")` while another calls `ResetHitRate`. -/
def getterAndReset : Sys Val Int (Key → Option (Option Val)) :=
  { shared := NewCraw cacheGet 0 emptyStore
    threads := [Thread.getData (GetFrame.init "k"), Thread.resetHitRate RateFrame.init] }

/-- `GetData` adds to `totalAccess`, `ResetHitRate` swaps both counters, then
`GetData` misses and adds to `staggerAccess`. -/
def resetSchedule : List Nat := [0, 0, 1, 1, 0, 0, 0, 0]

/-- The call has a `customValue` whose channel it has not closed yet. -/
def GPc.beforeClose : GPc → Bool
  | GPc.unlock => true
  | GPc.customGet => true
  | GPc.put => true
  | GPc.relock => true
  | GPc.delete => true
  | GPc.reunlock => true
  | GPc.close => true
  | _ => false

/-- The call has passed the close of the channel it is bound to. -/
def GPc.afterClose : GPc → Bool
  | GPc.retOwner => true
  | GPc.doneOwner => true
  | GPc.retWaiter => true
  | GPc.doneWaiter => true
  | _ => false

/-- The call has returned through the registry (first caller or waiter). -/
def GPc.returnedFetch : GPc → Bool
  | GPc.doneOwner => true
  | GPc.doneWaiter => true
  | _ => false

/-- The invariant of the coalescing protocol, over the shared state `c` and the
frames `g` of the `GetData` goroutines. -/
structure Inv (c : Craw V A S) (g : Nat → Option (GetFrame V)) : Prop where
  lockHeld : ∀ t f, g t = some f → f.pc.holdsLock = true → c.mu = true
  lockUnique : ∀ t1 t2 f1 f2, g t1 = some f1 → g t2 = some f2 →
    f1.pc.holdsLock = true → f2.pc.holdsLock = true → t1 = t2
  absent : ∀ t f, g t = some f → f.pc.sawAbsent = true → c.keyMap f.key = none
  registered : ∀ t f, g t = some f → f.pc.inFlight = true → c.keyMap f.key = some f.value
  ownerFresh : ∀ t f, g t = some f → f.pc.ownerPath = true → f.value < c.next
  ownerUnique : ∀ t1 t2 f1 f2, g t1 = some f1 → g t2 = some f2 →
    f1.pc.ownerPath = true → f2.pc.ownerPath = true → f1.value = f2.value → t1 = t2
  mapFresh : ∀ k p, c.keyMap k = some p → p < c.next
  waiterFresh : ∀ t f, g t = some f → f.pc.waiterPath = true → f.value < c.next

/-- Every registry entry belongs to a call whose fetch is in flight. -/
def Owned (c : Craw V A S) (g : Nat → Option (GetFrame V)) : Prop :=
  ∀ k p, c.keyMap k = some p →
    ∃ t f, g t = some f ∧ f.pc.inFlight = true ∧ f.key = k ∧ f.value = p


/-- The invariant of the pending fetches: a channel is open until its creator
closes it, closed for every call that has passed it, and a call that returned
through the registry returned the pair stored in its `customValue`. -/
structure HeapInv (c : Craw V A S) (g : Nat → Option (GetFrame V)) : Prop where
  isOpen : ∀ t f, g t = some f → f.pc.beforeClose = true → (c.heap f.value).wait = false
  isClosed : ∀ t f, g t = some f → f.pc.afterClose = true → (c.heap f.value).wait = true
  result : ∀ t f, g t = some f → f.pc.returnedFetch = true →
    (c.heap f.value).data = f.data ∧ (c.heap f.value).err = f.err

/-- The call has received the result of `CustomGet` (first-caller branch, after
line 99). -/
def GPc.fetched : GPc → Bool
  | GPc.put => true
  | GPc.relock => true
  | GPc.delete => true
  | GPc.reunlock => true
  | GPc.close => true
  | GPc.retOwner => true
  | GPc.doneOwner => true
  | _ => false

/-- Every call on the waiter branch is bound to the `customValue` of a call on the
first-caller branch for the same key. -/
def Bound (g : Nat → Option (GetFrame V)) : Prop :=
  ∀ t f, g t = some f → f.pc.waiterPath = true →
    ∃ t0 f0, g t0 = some f0 ∧ f0.pc.ownerPath = true ∧ f0.value = f.value ∧ f0.key = f.key

/-- Goroutine `t0` fetched the pair `(d, e)` for key `k` into the `customValue` at `p`. -/
def Fetched (t0 p : Nat) (k : Key) (d : Option V) (e : Option Err) (c : Craw V A S)
    (g : Nat → Option (GetFrame V)) : Prop :=
  (c.heap p).data = d ∧ (c.heap p).err = e ∧
    ∃ f, g t0 = some f ∧ f.value = p ∧ f.key = k ∧ f.pc.fetched = true

/-- The full invariant of the interleaved executions. -/
def Good (c : Craw V A S) (g : Nat → Option (GetFrame V)) : Prop :=
  Inv c g ∧ Owned c g ∧ HeapInv c g ∧ Bound g

/-- Goroutine 0 has inserted its pending fetch for `"k"` and is about to call
`CustomGet`; goroutine 1 has found that entry and is about to wait on it. -/
def waitingSchedule : List Nat := [0, 0, 0, 0, 0, 0, 0, 0, 1, 1, 1, 1, 1, 1]

/-- After `waitingSchedule`, goroutine 0 fetches, publishes and returns, then
goroutine 1 wakes up and returns. -/
def sharedSchedule : List Nat := waitingSchedule ++ [0, 0, 0, 0, 0, 0, 0, 1, 1]

/-- The frame of goroutine 0 at the end of `sharedSchedule`. -/
def sharedOwnerFrame : GetFrame Val :=
  { pc := GPc.doneOwner, key := "k", data := some (Val.int 1), err := none, value := 0,
    expired := 0 }

/-- The frame of goroutine 1 at the end of `sharedSchedule`. -/
def sharedWaiterFrame : GetFrame Val :=
  { pc := GPc.doneWaiter, key := "k", data := some (Val.int 1), err := none, value := 0,
    expired := 0 }

/-- Two goroutines call `GetData("k")` while the remote source is unreachable. -/
def offlineGetters : Sys Val Unit (Key → Option (Option Val)) :=
  { shared := NewCraw offlineSource () emptyStore
    threads := [Thread.getData (GetFrame.init "k"), Thread.getData (GetFrame.init "k")] }

/-- The frame of goroutine 0 of `offlineGetters` after `waitingSchedule`. -/
def offlineOwnerFrame : GetFrame Val :=
  { pc := GPc.customGet, key := "k", data := none, err := none, value := 0, expired := 0 }

/-- The frame of goroutine 1 of `offlineGetters` once it has returned. -/
def offlineWaiterFrame : GetFrame Val :=
  { pc := GPc.doneWaiter, key := "k", data := none, err := some "source unavailable",
    value := 0, expired := 0 }

/-- After the failed fetch, goroutine 0 runs to its return, then goroutine 1. -/
def offlineRest : List Nat := [0, 0, 0, 0, 0, 0, 1, 1]

/-- 1 when the call has executed the increment of `totalAccess` (line 79). -/
def GPc.countedTotal : GPc → Nat
  | GPc.checkEnable => 0
  | GPc.addTotal => 0
  | GPc.doneDestroyed => 0
  | _ => 1

/-- 1 when the call has executed the increment of `staggerAccess` (line 91). -/
def GPc.countedStagger : GPc → Nat
  | GPc.insert => 1
  | GPc.unlock => 1
  | GPc.customGet => 1
  | GPc.put => 1
  | GPc.relock => 1
  | GPc.delete => 1
  | GPc.reunlock => 1
  | GPc.close => 1
  | GPc.retOwner => 1
  | GPc.doneOwner => 1
  | _ => 0

/-- Contribution of a goroutine to `totalAccess`. -/
def Thread.countedTotal : Thread V → Nat
  | Thread.getData f => f.pc.countedTotal
  | _ => 0

/-- Contribution of a goroutine to `staggerAccess`. -/
def Thread.countedStagger : Thread V → Nat
  | Thread.getData f => f.pc.countedStagger
  | _ => 0

/-- The goroutine is a `ResetHitRate` call. -/
def Thread.isReset : Thread V → Bool
  | Thread.resetHitRate _ => true
  | _ => false

/-- Without `ResetHitRate`, each counter is the number of `GetData` calls that have
executed its increment. -/
def Counted (s : Sys V A S) : Prop :=
  s.shared.totalAccess = (s.threads.map Thread.countedTotal).sum ∧
  s.shared.staggerAccess = (s.threads.map Thread.countedStagger).sum ∧
  ∀ th ∈ s.threads, th.isReset = false

/-- Two goroutines call `GetData` while a third calls `HitRate`. -/
def gettersAndHitRate : Sys Val Int (Key → Option (Option Val)) :=
  { shared := NewCraw cacheGet 0 emptyStore
    threads := [Thread.getData (GetFrame.init "k"), Thread.getData (GetFrame.init "j"),
      Thread.hitRate RateFrame.init] }

/-- Goroutine 0 counts its access and misses, `HitRate` loads `staggerAccess`,
goroutine 1 counts its access, `HitRate` loads `totalAccess`. -/
def hitRateSchedule : List Nat := [0, 0, 0, 0, 0, 0, 2, 1, 1, 2, 0, 1, 2]

/-- The calls of a sequential run: `GetData` and `SetCraw`. -/
inductive SeqOp (V : Type) where
  | getData (key : Key)
  | setCraw (key : Key) (data : Option V) (expired : Duration)

/-- Whether the call is a `GetData`. -/
def SeqOp.isGetData : SeqOp V → Bool
  | SeqOp.getData _ => true
  | SeqOp.setCraw _ _ _ => false

/-- Run the calls one after the other.  The result is the final state, the number
of `GetData` calls and the number of those whose store lookup missed; `none` if
a call never returns. -/
def runOps (I : CrawInterface V A) (L : LruCache V S) :
    List (SeqOp V) → Craw V A S → Option (Craw V A S × Nat × Nat)
  | [], c => some (c, 0, 0)
  | SeqOp.getData key :: ops, c =>
      match GetData I L c key with
      | none => none
      | some r =>
          match runOps I L ops r.2 with
          | none => none
          | some (c2, m, k) =>
              some (c2, m + 1, k + (if (L.GetEx c.craw key).1.2 then 0 else 1))
  | SeqOp.setCraw key data expired :: ops, c =>
      runOps I L ops (SetCraw L c key data expired).2

/-- An enabled `Craw` with no call in progress: free mutex, empty registry. -/
def Craw.Quiescent (c : Craw V A S) : Prop :=
  c.enable = true ∧ c.mu = false ∧ ∀ k, c.keyMap k = none

/-- The key of index `i` in the tests: `fmt.Sprintf("key%d", i)`. -/
def sampleKey (i : Nat) : Key := "key" ++ toString i

/-- The number a list of decimal digits stands for. -/
def decimalValue : List Char → Nat
  | [] => 0
  | d :: ds => (d.toNat - 48) * 10 ^ ds.length + decimalValue ds

/-- Number of indices below `n` whose key was not stored beforehand
(`i % 10 ≥ hit`). -/
def missCount (hit : Nat) : Nat → Nat
  | 0 => 0
  | n + 1 => missCount hit n + (if n % 10 < hit then 0 else 1)

/-- Body of the first loop of `ExecStatisticsTestGet`: key `i` is stored with
`SetCraw(key, key, -1)` when `i % 10 < hit`. -/
def sampleFill (L : LruCache Val S) (hit : Nat) (c : Craw Val Unit S) (i : Nat) :
    Craw Val Unit S :=
  if i % 10 < hit then (SetCraw L c (sampleKey i) (some (Val.str (sampleKey i))) (-1)).2
  else c

/-- Body of the second loop of `ExecStatisticsTestGet`: `GetData` on key `i`
(`none` once a call never returns). -/
def sampleGet (L : LruCache Val S) (oc : Option (Craw Val Unit S)) (i : Nat) :
    Option (Craw Val Unit S) :=
  match oc with
  | none => none
  | some c =>
      match GetData benchCraw L c (sampleKey i) with
      | none => none
      | some r => some r.2

/-- `ExecStatisticsTestGet(total, hit)` of `batchget_test.go`, up to the value of
`handler.HitRate()` it compares: a fresh `Craw` over the adapter `benchCraw` and
a store `store0`; the keys `i` with `i % 10 < hit` are stored with `SetCraw`,
then `GetData` is called once on each of the `total` keys. -/
def ExecStatisticsTestGet (L : LruCache Val S) (store0 : S) (total hit : Nat) : Option ℚ :=
  match (List.range total).foldl (sampleGet L)
      (some ((List.range total).foldl (sampleFill L hit) (NewCraw benchCraw () store0))) with
  | none => none
  | some c => some (HitRate c)

/-- Three sequential calls of which the second hits: `GetData("a")`, `GetData("a")`,
`GetData("b")`. -/
def thirdOps : List (SeqOp Val) :=
  [SeqOp.getData "a", SeqOp.getData "a", SeqOp.getData "b"]

/-- Upper bound on the number of steps a `GetData` call at this program point still takes. -/
def GPc.remaining : GPc → Nat
  | GPc.checkEnable => 15
  | GPc.addTotal => 14
  | GPc.getEx => 13
  | GPc.lock => 12
  | GPc.lookup => 11
  | GPc.addStagger => 10
  | GPc.insert => 9
  | GPc.unlock => 8
  | GPc.customGet => 7
  | GPc.put => 6
  | GPc.relock => 5
  | GPc.delete => 4
  | GPc.reunlock => 3
  | GPc.close => 2
  | GPc.retOwner => 1
  | GPc.unlockW => 3
  | GPc.wait => 2
  | GPc.retWaiter => 1
  | _ => 0

/-- Number of steps a `HitRate` / `ResetHitRate` call still takes. -/
def RPc.remaining : RPc → Nat
  | RPc.readStagger => 3
  | RPc.readTotal => 2
  | RPc.compute => 1
  | RPc.done => 0

/-- Upper bound on the number of steps a goroutine still takes. -/
def Thread.remaining : Thread V → Nat
  | Thread.getData f => f.pc.remaining
  | Thread.hitRate f => f.pc.remaining
  | Thread.resetHitRate f => f.pc.remaining

/-- Upper bound on the number of steps left in the whole system. -/
def Sys.remaining (s : Sys V A S) : Nat :=
  (s.threads.map Thread.remaining).sum

/-- The goroutine's call has returned. -/
def Thread.finished : Thread V → Bool
  | Thread.getData f => f.pc.returned
  | Thread.hitRate f => decide (f.pc = RPc.done)
  | Thread.resetHitRate f => decide (f.pc = RPc.done)

/-- Every pick of the schedule is a goroutine that can move (the Go scheduler
only runs goroutines that are not blocked). -/
def Sys.runnable (I : CrawInterface V A) (L : LruCache V S) : List Nat → Sys V A S → Bool
  | [], _ => true
  | t :: ts, s =>
      match s.step I L t with
      | none => false
      | some s1 => Sys.runnable I L ts s1

/-- No goroutine can move: the execution has ended. -/
def Sys.halted (I : CrawInterface V A) (L : LruCache V S) (s : Sys V A S) : Bool :=
  (List.range s.threads.length).all (fun t => (s.step I L t).isNone)

/-- A locked mutex is held by some `GetData` call. -/
def LockOwned (c : Craw V A S) (g : Nat → Option (GetFrame V)) : Prop :=
  c.mu = true → ∃ t f, g t = some f ∧ f.pc.holdsLock = true

/-- Goroutine `t` is on the waiter branch, bound to the `customValue` at `p`. -/
def Waiting (t p : Nat) (_c : Craw V A S) (g : Nat → Option (GetFrame V)) : Prop :=
  ∃ f, g t = some f ∧ f.value = p ∧ f.pc.waiterPath = true

/-- The frame of goroutine 1 of `offlineGetters` after `waitingSchedule`: blocked on
the channel of the pending fetch created by goroutine 0. -/
def offlineBlockedFrame : GetFrame Val :=
  { pc := GPc.wait, key := "k", data := none, err := none, value := 0, expired := 0 }

/-- A fresh `Craw` over the adapter `cacheGet` and the reference store whose counters
read `totalAccess = t` and `staggerAccess = m`. -/
def countersCraw (t m : Nat) : Craw Val Int (Key → Option (Option Val)) :=
  { NewCraw cacheGet 0 emptyStore with totalAccess := t, staggerAccess := m }

/-- Two goroutines call `GetData` on different keys while a third calls `ResetHitRate`. -/
def skewedGetters : Sys Val Int (Key → Option (Option Val)) :=
  { shared := NewCraw cacheGet 0 emptyStore
    threads := [Thread.getData (GetFrame.init "k"), Thread.resetHitRate RateFrame.init,
      Thread.getData (GetFrame.init "j")] }

/-- Goroutine 0 counts its access (line 79); `ResetHitRate` runs; goroutine 0 misses,
counts the miss (line 91) and runs to its return; goroutine 2 then runs its whole
call, which misses too.  Every call has returned at the end. -/
def skewSchedule : List Nat :=
  [0, 0, 1, 1, 1] ++ List.replicate 13 0 ++ List.replicate 15 2

/-! ## Theorems -/

/-! ### Sequential behaviour of `GetData` -/

theorem getData_disabled (I : CrawInterface V A) (L : LruCache V S) (c : Craw V A S)
    (key : Key) (h : c.enable = false) :
    GetData I L c key = some ((none, some destroyedErr), c) := by
  simp [GetData, GetFrame.run, GetFrame.step, GetFrame.init, GPc.returned, h]

theorem getData_hit (I : CrawInterface V A) (L : LruCache V S) (c : Craw V A S)
    (key : Key) (he : c.enable = true) (hx : (L.GetEx c.craw key).1.2 = true) :
    GetData I L c key =
      some (((L.GetEx c.craw key).1.1, none),
        { c with
          totalAccess := addU64 c.totalAccess
          craw := (L.GetEx c.craw key).2
          calls := c.calls ++ [Call.cacheGetEx key] }) := by
  simp [GetData, GetFrame.run, GetFrame.step, GetFrame.init, GPc.returned, he, hx, Craw.log]

theorem getData_miss (I : CrawInterface V A) (L : LruCache V S) (c : Craw V A S)
    (key : Key) (he : c.enable = true) (hx : (L.GetEx c.craw key).1.2 = false)
    (hmu : c.mu = false) (hk : c.keyMap key = none) :
    ∃ c1, GetData I L c key =
        some (((I.CustomGet c.dispose key).1.1, (I.CustomGet c.dispose key).1.2.2), c1) ∧
      c1.dispose = (I.CustomGet c.dispose key).2 ∧
      c1.keyMap = c.keyMap ∧
      c1.craw = (if (I.CustomGet c.dispose key).1.2.2 = none then
          L.Put (L.GetEx c.craw key).2 key (I.CustomGet c.dispose key).1.1
            (I.CustomGet c.dispose key).1.2.1
        else (L.GetEx c.craw key).2) ∧
      c1.enable = true ∧ c1.mu = false ∧
      c1.totalAccess = addU64 c.totalAccess ∧
      c1.staggerAccess = addU64 c.staggerAccess ∧
      c1.next = c.next + 1 ∧
      c1.calls = c.calls ++ [Call.cacheGetEx key, Call.customGet key] ++
        (if (I.CustomGet c.dispose key).1.2.2 = none then
          [Call.cachePut key (I.CustomGet c.dispose key).1.1 (I.CustomGet c.dispose key).1.2.1]
        else []) := by
  have hkm : Function.update (Function.update c.keyMap key (some c.next)) key none = c.keyMap := by
    funext k
    by_cases hkk : k = key
    · subst hkk; simp [hk]
    · simp [Function.update_noteq hkk]
  by_cases herr : (I.CustomGet c.dispose key).1.2.2 = none
  · simp [GetData, GetFrame.run, GetFrame.step, GetFrame.init, GPc.returned, he, hx, hmu, hk,
      Craw.log, herr, hkm]
  · simp [GetData, GetFrame.run, GetFrame.step, GetFrame.init, GPc.returned, he, hx, hmu, hk,
      Craw.log, herr, hkm]

/-! ### The rate operations -/

theorem hitRate_run (c : Craw V A S) :
    RateFrame.run RateFrame.stepHit 4 c RateFrame.init =
      (c, ⟨RPc.done, c.staggerAccess, c.totalAccess, HitRate c⟩) := by
  simp [RateFrame.run, RateFrame.stepHit, RateFrame.init, HitRate]

theorem resetHitRate_run (c : Craw V A S) :
    RateFrame.run RateFrame.stepReset 4 c RateFrame.init =
      ((ResetHitRate c).2, ⟨RPc.done, c.staggerAccess, c.totalAccess, (ResetHitRate c).1⟩) := by
  simp [RateFrame.run, RateFrame.stepReset, RateFrame.init, ResetHitRate]

/-! ### The disabled state -/

/-- C2 as stated fails: on a destroyed `Craw`, `HitRate` and `ResetHitRate` do not
fail with the destroyed error (they have no error result), and `ResetHitRate`
still resets the counters. -/
theorem C2_counterexample :
    destroyedCraw.enable = false ∧
    (Op.run cacheGet mapStore destroyedCraw Op.hitRate).map Prod.fst = some none ∧
    (Op.run cacheGet mapStore destroyedCraw Op.resetHitRate).map Prod.fst = some none ∧
    destroyedCraw.totalAccess = 2 ∧
    ((Op.run cacheGet mapStore destroyedCraw Op.resetHitRate).map
      (fun r => r.2.totalAccess)) = some 0 := by
  refine ⟨rfl, rfl, rfl, rfl, rfl⟩

/-! ### `SetData` -/

/-- C6: on an enabled `Craw`, `SetData(K, V)` invokes `CustomSet(K, V)` exactly once
and returns its error unchanged.  When the error is non-nil the only further
collaborator call is one `Delete(K)` on the store, so that (for a store whose
`Delete` removes the key and keeps the others, `hdel` and `hkeep`) `K` is absent
afterwards and every other key reads as before.  When the error is nil the store
is exactly as it was.  Registry, mutex, pending fetches and both counters are
unchanged in either case. -/
theorem C6_setData (I : CrawInterface V A) (L : LruCache V S) (c : Craw V A S)
    (key : Key) (data : Option V) (he : c.enable = true)
    (hdel : ∀ s k, (L.IsExist (L.Delete s k).2 k).1 = false)
    (hkeep : ∀ s k k1, k1 ≠ k → (L.GetEx (L.Delete s k).2 k1).1 = (L.GetEx s k1).1) :
    (SetData I L c key data).1 = (I.CustomSet c.dispose key data).1 ∧
    (SetData I L c key data).2.dispose = (I.CustomSet c.dispose key data).2 ∧
    ((I.CustomSet c.dispose key data).1 ≠ none →
      (SetData I L c key data).2.calls =
        c.calls ++ [Call.customSet key data, Call.cacheDelete key] ∧
      (SetData I L c key data).2.craw = (L.Delete c.craw key).2 ∧
      (L.IsExist (SetData I L c key data).2.craw key).1 = false ∧
      ∀ k1, k1 ≠ key →
        (L.GetEx (SetData I L c key data).2.craw k1).1 = (L.GetEx c.craw k1).1) ∧
    ((I.CustomSet c.dispose key data).1 = none →
      (SetData I L c key data).2.calls = c.calls ++ [Call.customSet key data] ∧
      (SetData I L c key data).2.craw = c.craw) ∧
    (SetData I L c key data).2.keyMap = c.keyMap ∧
    (SetData I L c key data).2.totalAccess = c.totalAccess ∧
    (SetData I L c key data).2.staggerAccess = c.staggerAccess ∧
    (SetData I L c key data).2.mu = c.mu ∧
    (SetData I L c key data).2.next = c.next ∧
    (SetData I L c key data).2.enable = true := by
  cases hr : (I.CustomSet c.dispose key data).1 with
  | none => simp [SetData, he, hr, Craw.log]
  | some e =>
      simp only [SetData, he, hr, Craw.log]
      simp
      exact ⟨hdel _ _, fun k1 hk1 => hkeep _ _ _ hk1⟩

theorem C6_setData_witness :
    (SetData offlineSource mapStore (cachedCraw offlineSource ()) "k" (some (Val.str "new"))).1
        = some "source unavailable" ∧
      (mapStore.IsExist (cachedCraw offlineSource ()).craw "k").1 = true ∧
      (mapStore.IsExist
        (SetData offlineSource mapStore (cachedCraw offlineSource ()) "k"
          (some (Val.str "new"))).2.craw "k").1 = false :=
  ⟨by decide, by decide,
    ((C6_setData offlineSource mapStore (cachedCraw offlineSource ()) "k" (some (Val.str "new"))
      (by decide) (by intro s k; simp [mapStore])
      (by intro s k k1 h; simp only [mapStore, Function.update_noteq h]; cases s k1 <;> rfl)).2.2.1 (by decide)).2.2.1⟩

/-- C7 (evaluation at the failing input): with `"k"` cached and an adapter whose
`CustomSet` succeeds, `SetData("k", "new")` returns nil and `"k"` is still cached
with its old value; no `Delete` reaches the store. -/
theorem C7_setData_success_keeps_cached_value :
    (IsExist mapStore (cachedCraw benchCraw ()) "k").1 = (true, none) ∧
    (SetData benchCraw mapStore (cachedCraw benchCraw ()) "k" (some (Val.str "new"))).1 = none ∧
    (IsExist mapStore
      (SetData benchCraw mapStore (cachedCraw benchCraw ()) "k" (some (Val.str "new"))).2
      "k").1 = (true, none) ∧
    ((GetData benchCraw mapStore
      (SetData benchCraw mapStore (cachedCraw benchCraw ()) "k" (some (Val.str "new"))).2
      "k").map Prod.fst) = some (some (Val.str "old"), none) ∧
    (SetData benchCraw mapStore (cachedCraw benchCraw ()) "k" (some (Val.str "new"))).2.calls =
      [Call.adapterInit, Call.cachePut "k" (some (Val.str "old")) (-1),
        Call.customSet "k" (some (Val.str "new"))] := by
  refine ⟨by decide, by decide, by decide, by decide, by decide⟩

/-! ### A hit after a miss -/

/-- C3: let `K` be absent from the store and the registry of an enabled, quiescent
`Craw`, and let `CustomGet(K)` return `(v, ttl, nil)`.  Then `GetData(K)` returns
`(v, nil)`, and provided the store returns `v` for `K` after the `Put` (`hstore`),
the next `GetData(K)` returns `(v, nil)` again, invokes only the store lookup (no
`CustomGet`), adds 1 to `totalAccess` (as a `uint64`) and leaves `staggerAccess`,
the registry and the adapter unchanged. -/
theorem C3_hit_after_miss (I : CrawInterface V A) (L : LruCache V S) (c : Craw V A S)
    (key : Key) (v : Option V) (ttl : Duration) (a1 : A)
    (he : c.enable = true) (hmu : c.mu = false) (hk : c.keyMap key = none)
    (hmiss : (L.GetEx c.craw key).1.2 = false)
    (hget : I.CustomGet c.dispose key = ((v, ttl, none), a1))
    (hstore : (L.GetEx (L.Put (L.GetEx c.craw key).2 key v ttl) key).1 = (v, true)) :
    ∃ c1 c2,
      GetData I L c key = some ((v, none), c1) ∧
      c1.calls = c.calls ++ [Call.cacheGetEx key, Call.customGet key, Call.cachePut key v ttl] ∧
      GetData I L c1 key = some ((v, none), c2) ∧
      c2.calls = c1.calls ++ [Call.cacheGetEx key] ∧
      c2.dispose = c1.dispose ∧
      c2.totalAccess = (c1.totalAccess + 1) % 2 ^ 64 ∧
      (c1.totalAccess + 1 < 2 ^ 64 → c2.totalAccess = c1.totalAccess + 1) ∧
      c2.staggerAccess = c1.staggerAccess ∧
      c2.keyMap = c1.keyMap ∧
      c2.keyMap key = none ∧
      c2.mu = false := by
  obtain ⟨c1, h1, hd, hkm, hcraw, hen, hmu1, -, -, -, hcalls⟩ :=
    getData_miss I L c key he hmiss hmu hk
  simp only [hget] at h1 hd hcraw hcalls
  simp only [if_true] at hcraw hcalls
  have hx1 : (L.GetEx c1.craw key).1.2 = true := by rw [hcraw, hstore]
  have hv1 : (L.GetEx c1.craw key).1.1 = v := by rw [hcraw, hstore]
  refine ⟨c1, { c1 with
      totalAccess := addU64 c1.totalAccess
      craw := (L.GetEx c1.craw key).2
      calls := c1.calls ++ [Call.cacheGetEx key] }, h1, ?_, ?_, rfl, rfl, rfl, ?_, rfl, rfl, ?_, ?_⟩
  · simpa using hcalls
  · rw [getData_hit I L c1 key hen hx1, hv1]
  · intro hlt; exact Nat.mod_eq_of_lt hlt
  · simp [hkm, hk]
  · exact hmu1

theorem C3_hit_after_miss_witness :
    ∃ c1 c2,
      GetData cacheGet mapStore (NewCraw cacheGet 0 emptyStore) "k1"
        = some ((some (Val.int 1), none), c1) ∧
      c1.calls = (NewCraw cacheGet 0 emptyStore).calls ++
        [Call.cacheGetEx "k1", Call.customGet "k1", Call.cachePut "k1" (some (Val.int 1)) 0] ∧
      GetData cacheGet mapStore c1 "k1" = some ((some (Val.int 1), none), c2) ∧
      c2.calls = c1.calls ++ [Call.cacheGetEx "k1"] ∧
      c2.dispose = c1.dispose ∧
      c2.totalAccess = (c1.totalAccess + 1) % 2 ^ 64 ∧
      (c1.totalAccess + 1 < 2 ^ 64 → c2.totalAccess = c1.totalAccess + 1) ∧
      c2.staggerAccess = c1.staggerAccess ∧
      c2.keyMap = c1.keyMap ∧
      c2.keyMap "k1" = none ∧
      c2.mu = false :=
  C3_hit_after_miss cacheGet mapStore (NewCraw cacheGet 0 emptyStore) "k1"
    (some (Val.int 1)) 0 1 rfl rfl rfl rfl rfl (by simp [mapStore])

/-! ### Interleavings: two counterexamples -/

set_option maxRecDepth 100000

/-- C1 as stated fails: two callers of `GetData("k")`, both started while `"k"` is in
neither the store nor the registry.  Under `racePrefix` the adapter's `CustomGet`
has been invoked twice while no caller has returned; at the end of `raceSchedule`
both have returned, with different pairs. -/
theorem C1_counterexample :
    twoGetters.shared.keyMap "k" = none ∧
    (mapStore.GetEx twoGetters.shared.craw "k").1.2 = false ∧
    (Sys.exec cacheGet mapStore racePrefix twoGetters).threads.map Thread.returnedPair
      = [none, none] ∧
    (Sys.exec cacheGet mapStore racePrefix twoGetters).shared.calls.count (Call.customGet "k")
      = 2 ∧
    (Sys.exec cacheGet mapStore raceSchedule twoGetters).threads.map Thread.returnedPair
      = [some (some (Val.int 1), none), some (some (Val.int 2), none)] := by
  refine ⟨rfl, rfl, by decide, by decide, by decide⟩

/-- C9 as stated fails: after `resetSchedule` the counters are `staggerAccess = 1`
and `totalAccess = 0`. -/
theorem C9_counterexample :
    getterAndReset.shared.totalAccess = 0 ∧
    getterAndReset.shared.staggerAccess = 0 ∧
    (Sys.exec cacheGet mapStore resetSchedule getterAndReset).shared.staggerAccess = 1 ∧
    (Sys.exec cacheGet mapStore resetSchedule getterAndReset).shared.totalAccess = 0 ∧
    ¬ ((Sys.exec cacheGet mapStore resetSchedule getterAndReset).shared.staggerAccess ≤
        (Sys.exec cacheGet mapStore resetSchedule getterAndReset).shared.totalAccess) := by
  refine ⟨rfl, rfl, by decide, by decide, by decide⟩

/-! ### The protocol invariant -/

theorem Inv.step_lockHeld {I : CrawInterface V A} {L : LruCache V S} {c c1 : Craw V A S}
    {g : Nat → Option (GetFrame V)} {t : Nat} {f f1 : GetFrame V}
    (h : Inv c g) (hg : g t = some f) (hs : f.step I L c = some (c1, f1)) :
    ∀ t1 f2, Function.update g t (some f1) t1 = some f2 → f2.pc.holdsLock = true →
      c1.mu = true := by
  intro t1 f2 hg2 hl
  have hL := h.lockHeld t f hg
  by_cases ht : t1 = t
  · subst ht
    simp only [Function.update_same, Option.some.injEq] at hg2
    subst hg2
    obtain ⟨pc, key, data, err, value, expired⟩ := f
    cases pc <;> simp only [GetFrame.step] at hs <;> (try split at hs) <;> cases hs <;>
      simp_all [GPc.holdsLock, Craw.log]
  · rw [Function.update_noteq ht] at hg2
    have h1 := h.lockHeld t1 f2 hg2 hl
    have h2 := h.lockUnique t1 t f2 f hg2 hg hl
    obtain ⟨pc, key, data, err, value, expired⟩ := f
    cases pc <;> simp only [GetFrame.step] at hs <;> (try split at hs) <;> cases hs <;>
      simp_all [GPc.holdsLock, Craw.log]

theorem Inv.step_lockUnique {I : CrawInterface V A} {L : LruCache V S} {c c1 : Craw V A S}
    {g : Nat → Option (GetFrame V)} {t : Nat} {f f1 : GetFrame V}
    (h : Inv c g) (hg : g t = some f) (hs : f.step I L c = some (c1, f1)) :
    ∀ t1 t2 f2 f3, Function.update g t (some f1) t1 = some f2 →
      Function.update g t (some f1) t2 = some f3 →
      f2.pc.holdsLock = true → f3.pc.holdsLock = true → t1 = t2 := by
  intro t1 t2 f2 f3 hg2 hg3 hl2 hl3
  by_cases ht1 : t1 = t <;> by_cases ht2 : t2 = t
  · rw [ht1, ht2]
  · subst ht1
    simp only [Function.update_same, Option.some.injEq] at hg2
    subst hg2
    rw [Function.update_noteq ht2] at hg3
    have h1 := h.lockHeld t2 f3 hg3 hl3
    have h2 := h.lockUnique t2 t1 f3 f hg3 hg hl3
    obtain ⟨pc, key, data, err, value, expired⟩ := f
    cases pc <;> simp only [GetFrame.step] at hs <;> (try split at hs) <;> cases hs <;>
      simp_all [GPc.holdsLock, Craw.log]
  · subst ht2
    simp only [Function.update_same, Option.some.injEq] at hg3
    subst hg3
    rw [Function.update_noteq ht1] at hg2
    have h1 := h.lockHeld t1 f2 hg2 hl2
    have h2 := h.lockUnique t1 t2 f2 f hg2 hg hl2
    obtain ⟨pc, key, data, err, value, expired⟩ := f
    cases pc <;> simp only [GetFrame.step] at hs <;> (try split at hs) <;> cases hs <;>
      simp_all [GPc.holdsLock, Craw.log]
  · rw [Function.update_noteq ht1] at hg2
    rw [Function.update_noteq ht2] at hg3
    exact h.lockUnique t1 t2 f2 f3 hg2 hg3 hl2 hl3

theorem GPc.holdsLock_of_sawAbsent {pc : GPc} (h : pc.sawAbsent = true) : pc.holdsLock = true := by
  cases pc <;> simp_all [GPc.sawAbsent, GPc.holdsLock]

theorem GPc.ownerPath_of_inFlight {pc : GPc} (h : pc.inFlight = true) : pc.ownerPath = true := by
  cases pc <;> simp_all [GPc.inFlight, GPc.ownerPath]

theorem Inv.step_registered {I : CrawInterface V A} {L : LruCache V S} {c c1 : Craw V A S}
    {g : Nat → Option (GetFrame V)} {t : Nat} {f f1 : GetFrame V}
    (h : Inv c g) (hg : g t = some f) (hs : f.step I L c = some (c1, f1)) :
    ∀ t1 f2, Function.update g t (some f1) t1 = some f2 → f2.pc.inFlight = true →
      c1.keyMap f2.key = some f2.value := by
  intro t1 f2 hg2 hl
  by_cases ht : t1 = t
  · subst ht
    simp only [Function.update_same, Option.some.injEq] at hg2
    subst hg2
    have h0 := h.registered t1 f hg
    obtain ⟨pc, key, data, err, value, expired⟩ := f
    cases pc <;> simp only [GetFrame.step] at hs <;> (try split at hs) <;> cases hs <;>
      simp_all [GPc.inFlight, Craw.log]
  · rw [Function.update_noteq ht] at hg2
    have h1 := h.registered t1 f2 hg2 hl
    have h2 := h.absent t f hg
    have h3 := h.registered t f hg
    have h4 := h.ownerUnique t1 t f2 f hg2 hg (GPc.ownerPath_of_inFlight hl)
    obtain ⟨pc, key, data, err, value, expired⟩ := f
    cases pc <;> simp only [GetFrame.step] at hs <;> (try split at hs) <;> cases hs <;>
      simp_all [GPc.inFlight, GPc.sawAbsent, GPc.ownerPath, Craw.log]
    · by_cases hk : f2.key = key
      · rw [hk] at h1; simp_all
      · simp [Function.update_noteq hk, h1]
    · by_cases hk : f2.key = key
      · rw [hk] at h1; simp_all
      · simp [Function.update_noteq hk, h1]

theorem Inv.step_mapFresh {I : CrawInterface V A} {L : LruCache V S} {c c1 : Craw V A S}
    {g : Nat → Option (GetFrame V)} {f f1 : GetFrame V}
    (h : Inv c g) (hs : f.step I L c = some (c1, f1)) :
    ∀ k p, c1.keyMap k = some p → p < c1.next := by
  intro k p hk
  have h0 := h.mapFresh k p
  obtain ⟨pc, key, data, err, value, expired⟩ := f
  cases pc <;> simp only [GetFrame.step] at hs <;> (try split at hs) <;> cases hs <;>
    simp_all [Craw.log]
  · by_cases hkk : k = key
    · subst hkk; simp at hk; omega
    · rw [Function.update_noteq hkk] at hk; have := h.mapFresh k p hk; omega
  · by_cases hkk : k = key
    · subst hkk; simp at hk
    · rw [Function.update_noteq hkk] at hk; exact h.mapFresh k p hk

theorem Inv.step_ownerFresh {I : CrawInterface V A} {L : LruCache V S} {c c1 : Craw V A S}
    {g : Nat → Option (GetFrame V)} {t : Nat} {f f1 : GetFrame V}
    (h : Inv c g) (hg : g t = some f) (hs : f.step I L c = some (c1, f1)) :
    ∀ t1 f2, Function.update g t (some f1) t1 = some f2 → f2.pc.ownerPath = true →
      f2.value < c1.next := by
  intro t1 f2 hg2 hl
  by_cases ht : t1 = t
  · subst ht
    simp only [Function.update_same, Option.some.injEq] at hg2
    subst hg2
    have h0 := h.ownerFresh t1 f hg
    obtain ⟨pc, key, data, err, value, expired⟩ := f
    cases pc <;> simp only [GetFrame.step] at hs <;> (try split at hs) <;> cases hs <;>
      simp_all [GPc.ownerPath, Craw.log]
  · rw [Function.update_noteq ht] at hg2
    have h1 := h.ownerFresh t1 f2 hg2 hl
    obtain ⟨pc, key, data, err, value, expired⟩ := f
    cases pc <;> simp only [GetFrame.step] at hs <;> (try split at hs) <;> cases hs <;>
      simp_all [Craw.log]
    omega

theorem Inv.step_waiterFresh {I : CrawInterface V A} {L : LruCache V S} {c c1 : Craw V A S}
    {g : Nat → Option (GetFrame V)} {t : Nat} {f f1 : GetFrame V}
    (h : Inv c g) (hg : g t = some f) (hs : f.step I L c = some (c1, f1)) :
    ∀ t1 f2, Function.update g t (some f1) t1 = some f2 → f2.pc.waiterPath = true →
      f2.value < c1.next := by
  intro t1 f2 hg2 hl
  by_cases ht : t1 = t
  · subst ht
    simp only [Function.update_same, Option.some.injEq] at hg2
    subst hg2
    have h0 := h.waiterFresh t1 f hg
    have h1 := h.mapFresh f.key
    obtain ⟨pc, key, data, err, value, expired⟩ := f
    cases pc <;> simp only [GetFrame.step] at hs <;> (try split at hs) <;> cases hs <;>
      simp_all [GPc.waiterPath, Craw.log]
  · rw [Function.update_noteq ht] at hg2
    have h1 := h.waiterFresh t1 f2 hg2 hl
    obtain ⟨pc, key, data, err, value, expired⟩ := f
    cases pc <;> simp only [GetFrame.step] at hs <;> (try split at hs) <;> cases hs <;>
      simp_all [Craw.log]
    omega

theorem Inv.step_ownerUnique {I : CrawInterface V A} {L : LruCache V S} {c c1 : Craw V A S}
    {g : Nat → Option (GetFrame V)} {t : Nat} {f f1 : GetFrame V}
    (h : Inv c g) (hg : g t = some f) (hs : f.step I L c = some (c1, f1)) :
    ∀ t1 t2 f2 f3, Function.update g t (some f1) t1 = some f2 →
      Function.update g t (some f1) t2 = some f3 →
      f2.pc.ownerPath = true → f3.pc.ownerPath = true → f2.value = f3.value → t1 = t2 := by
  intro t1 t2 f2 f3 hg2 hg3 hl2 hl3 hv
  by_cases ht1 : t1 = t <;> by_cases ht2 : t2 = t
  · rw [ht1, ht2]
  · subst ht1
    simp only [Function.update_same, Option.some.injEq] at hg2
    subst hg2
    rw [Function.update_noteq ht2] at hg3
    have h1 := h.ownerFresh t2 f3 hg3 hl3
    have h2 := h.ownerUnique t2 t1 f3 f hg3 hg hl3
    obtain ⟨pc, key, data, err, value, expired⟩ := f
    cases pc <;> simp only [GetFrame.step] at hs <;> (try split at hs) <;> cases hs <;>
      simp_all [GPc.ownerPath, Craw.log]
  · subst ht2
    simp only [Function.update_same, Option.some.injEq] at hg3
    subst hg3
    rw [Function.update_noteq ht1] at hg2
    have h1 := h.ownerFresh t1 f2 hg2 hl2
    have h2 := h.ownerUnique t1 t2 f2 f hg2 hg hl2
    obtain ⟨pc, key, data, err, value, expired⟩ := f
    cases pc <;> simp only [GetFrame.step] at hs <;> (try split at hs) <;> cases hs <;>
      simp_all [GPc.ownerPath, Craw.log]
  · rw [Function.update_noteq ht1] at hg2
    rw [Function.update_noteq ht2] at hg3
    exact h.ownerUnique t1 t2 f2 f3 hg2 hg3 hl2 hl3 hv

theorem Inv.step_absent {I : CrawInterface V A} {L : LruCache V S} {c c1 : Craw V A S}
    {g : Nat → Option (GetFrame V)} {t : Nat} {f f1 : GetFrame V}
    (h : Inv c g) (hg : g t = some f) (hs : f.step I L c = some (c1, f1)) :
    ∀ t1 f2, Function.update g t (some f1) t1 = some f2 → f2.pc.sawAbsent = true →
      c1.keyMap f2.key = none := by
  intro t1 f2 hg2 hl
  by_cases ht : t1 = t
  · subst ht
    simp only [Function.update_same, Option.some.injEq] at hg2
    subst hg2
    have h0 := h.absent t1 f hg
    obtain ⟨pc, key, data, err, value, expired⟩ := f
    cases pc <;> simp only [GetFrame.step] at hs <;> (try split at hs) <;> cases hs <;>
      simp_all [GPc.sawAbsent, Craw.log]
  · rw [Function.update_noteq ht] at hg2
    have h1 := h.absent t1 f2 hg2 hl
    have h2 := h.lockUnique t1 t f2 f hg2 hg (GPc.holdsLock_of_sawAbsent hl)
    obtain ⟨pc, key, data, err, value, expired⟩ := f
    cases pc <;> simp only [GetFrame.step] at hs <;> (try split at hs) <;> cases hs <;>
      simp_all [GPc.holdsLock, Craw.log]

theorem Inv.invStep {I : CrawInterface V A} {L : LruCache V S} {c c1 : Craw V A S}
    {g : Nat → Option (GetFrame V)} {t : Nat} {f f1 : GetFrame V}
    (h : Inv c g) (hg : g t = some f) (hs : f.step I L c = some (c1, f1)) :
    Inv c1 (Function.update g t (some f1)) :=
  { lockHeld := h.step_lockHeld hg hs
    lockUnique := h.step_lockUnique hg hs
    absent := h.step_absent hg hs
    registered := h.step_registered hg hs
    ownerFresh := h.step_ownerFresh hg hs
    ownerUnique := h.step_ownerUnique hg hs
    mapFresh := h.step_mapFresh hs
    waiterFresh := h.step_waiterFresh hg hs }

theorem Owned.ownedStep {I : CrawInterface V A} {L : LruCache V S} {c c1 : Craw V A S}
    {g : Nat → Option (GetFrame V)} {t : Nat} {f f1 : GetFrame V}
    (h : Inv c g) (ho : Owned c g) (hg : g t = some f) (hs : f.step I L c = some (c1, f1)) :
    Owned c1 (Function.update g t (some f1)) := by
  intro k p hk
  have hreg := h.registered t f hg
  have keep : ∀ t0 f0, t0 ≠ t → g t0 = some f0 → f0.pc.inFlight = true → f0.key = k →
      f0.value = p →
      ∃ t2 f2, Function.update g t (some f1) t2 = some f2 ∧ f2.pc.inFlight = true ∧
        f2.key = k ∧ f2.value = p := by
    intro t0 f0 hne hg0 h1 h2 h3
    exact ⟨t0, f0, by rw [Function.update_noteq hne]; exact hg0, h1, h2, h3⟩
  have self : f1.pc.inFlight = true → f1.key = k → f1.value = p →
      ∃ t2 f2, Function.update g t (some f1) t2 = some f2 ∧ f2.pc.inFlight = true ∧
        f2.key = k ∧ f2.value = p := by
    intro h1 h2 h3
    exact ⟨t, f1, by simp, h1, h2, h3⟩
  obtain ⟨pc, key, data, err, value, expired⟩ := f
  cases pc <;> simp only [GetFrame.step] at hs <;> (try split at hs) <;> cases hs <;>
    (try simp only [Craw.log] at hk)
  case mk.insert.refl =>
    by_cases hkk : k = key
    · subst hkk
      simp only [Function.update_same, Option.some.injEq] at hk
      exact self rfl rfl hk
    · rw [Function.update_noteq hkk] at hk
      obtain ⟨t0, f0, hg0, h1, h2, h3⟩ := ho k p hk
      refine keep t0 f0 ?_ hg0 h1 h2 h3
      rintro rfl
      rw [hg] at hg0; cases hg0; simp [GPc.inFlight] at h1
  case mk.delete.refl =>
    by_cases hkk : k = key
    · subst hkk
      simp at hk
    · rw [Function.update_noteq hkk] at hk
      obtain ⟨t0, f0, hg0, h1, h2, h3⟩ := ho k p hk
      refine keep t0 f0 ?_ hg0 h1 h2 h3
      rintro rfl
      rw [hg] at hg0; cases hg0; exact hkk h2.symm
  all_goals
    obtain ⟨t0, f0, hg0, h1, h2, h3⟩ := ho k p hk
    by_cases ht0 : t0 = t
    · subst ht0
      rw [hg] at hg0; cases hg0
      first
        | exact self rfl h2 h3
        | (simp [GPc.inFlight] at h1)
    · exact keep t0 f0 ht0 hg0 h1 h2 h3


theorem GPc.ownerPath_of_beforeClose {pc : GPc} (h : pc.beforeClose = true) :
    pc.ownerPath = true := by
  cases pc <;> simp_all [GPc.beforeClose, GPc.ownerPath]

theorem GPc.afterClose_of_returnedFetch {pc : GPc} (h : pc.returnedFetch = true) :
    pc.afterClose = true := by
  cases pc <;> simp_all [GPc.returnedFetch, GPc.afterClose]

theorem GPc.path_of_afterClose {pc : GPc} (h : pc.afterClose = true) :
    pc.ownerPath = true ∨ pc.waiterPath = true := by
  cases pc <;> simp_all [GPc.afterClose, GPc.ownerPath, GPc.waiterPath]

theorem Inv.fresh_of_afterClose {c : Craw V A S} {g : Nat → Option (GetFrame V)}
    (h : Inv c g) (t : Nat) (f : GetFrame V) (hg : g t = some f)
    (hp : f.pc.afterClose = true) : f.value < c.next := by
  rcases GPc.path_of_afterClose hp with h1 | h1
  · exact h.ownerFresh t f hg h1
  · exact h.waiterFresh t f hg h1

theorem HeapInv.step_isOpen {I : CrawInterface V A} {L : LruCache V S} {c c1 : Craw V A S}
    {g : Nat → Option (GetFrame V)} {t : Nat} {f f1 : GetFrame V}
    (h : Inv c g) (hh : HeapInv c g) (hg : g t = some f)
    (hs : f.step I L c = some (c1, f1)) :
    ∀ t1 f2, Function.update g t (some f1) t1 = some f2 → f2.pc.beforeClose = true →
      (c1.heap f2.value).wait = false := by
  intro t1 f2 hg2 hl
  by_cases ht : t1 = t
  · subst ht
    simp only [Function.update_same, Option.some.injEq] at hg2
    subst hg2
    have h0 := hh.isOpen t1 f hg
    obtain ⟨pc, key, data, err, value, expired⟩ := f
    cases pc <;> simp only [GetFrame.step] at hs <;> (try split at hs) <;> cases hs <;>
      simp_all [GPc.beforeClose, Craw.log]
  · rw [Function.update_noteq ht] at hg2
    have h1 := hh.isOpen t1 f2 hg2 hl
    have h2 := h.ownerFresh t1 f2 hg2 (GPc.ownerPath_of_beforeClose hl)
    have h3 := h.ownerUnique t1 t f2 f hg2 hg (GPc.ownerPath_of_beforeClose hl)
    obtain ⟨pc, key, data, err, value, expired⟩ := f
    cases pc <;> simp only [GetFrame.step] at hs <;> (try split at hs) <;> cases hs <;>
      simp_all [GPc.ownerPath, Craw.log, Function.update_apply]
    all_goals (try split) <;> simp_all

theorem HeapInv.step_isClosed {I : CrawInterface V A} {L : LruCache V S} {c c1 : Craw V A S}
    {g : Nat → Option (GetFrame V)} {t : Nat} {f f1 : GetFrame V}
    (h : Inv c g) (hh : HeapInv c g) (hg : g t = some f)
    (hs : f.step I L c = some (c1, f1)) :
    ∀ t1 f2, Function.update g t (some f1) t1 = some f2 → f2.pc.afterClose = true →
      (c1.heap f2.value).wait = true := by
  intro t1 f2 hg2 hl
  by_cases ht : t1 = t
  · subst ht
    simp only [Function.update_same, Option.some.injEq] at hg2
    subst hg2
    have h0 := hh.isClosed t1 f hg
    obtain ⟨pc, key, data, err, value, expired⟩ := f
    cases pc <;> simp only [GetFrame.step] at hs <;> (try split at hs) <;> cases hs <;>
      simp_all [GPc.afterClose, Craw.log]
  · rw [Function.update_noteq ht] at hg2
    have h1 := hh.isClosed t1 f2 hg2 hl
    have h2 := h.fresh_of_afterClose t1 f2 hg2 hl
    obtain ⟨pc, key, data, err, value, expired⟩ := f
    cases pc <;> simp only [GetFrame.step] at hs <;> (try split at hs) <;> cases hs <;>
      simp_all [Craw.log, Function.update_apply]
    all_goals (try split) <;> simp_all

theorem HeapInv.step_result {I : CrawInterface V A} {L : LruCache V S} {c c1 : Craw V A S}
    {g : Nat → Option (GetFrame V)} {t : Nat} {f f1 : GetFrame V}
    (h : Inv c g) (hh : HeapInv c g) (hg : g t = some f)
    (hs : f.step I L c = some (c1, f1)) :
    ∀ t1 f2, Function.update g t (some f1) t1 = some f2 → f2.pc.returnedFetch = true →
      (c1.heap f2.value).data = f2.data ∧ (c1.heap f2.value).err = f2.err := by
  intro t1 f2 hg2 hl
  by_cases ht : t1 = t
  · subst ht
    simp only [Function.update_same, Option.some.injEq] at hg2
    subst hg2
    have h0 := hh.result t1 f hg
    obtain ⟨pc, key, data, err, value, expired⟩ := f
    cases pc <;> simp only [GetFrame.step] at hs <;> (try split at hs) <;> cases hs <;>
      simp_all [GPc.returnedFetch, Craw.log]
  · rw [Function.update_noteq ht] at hg2
    have h1 := hh.result t1 f2 hg2 hl
    have h2 := h.fresh_of_afterClose t1 f2 hg2 (GPc.afterClose_of_returnedFetch hl)
    have h3 := hh.isClosed t1 f2 hg2 (GPc.afterClose_of_returnedFetch hl)
    have h4 := hh.isOpen t f hg
    obtain ⟨pc, key, data, err, value, expired⟩ := f
    cases pc <;> simp only [GetFrame.step] at hs <;> (try split at hs) <;> cases hs <;>
      simp_all [GPc.beforeClose, Craw.log, Function.update_apply]
    all_goals (try split) <;> simp_all


/-- Changing the two counters does not affect the protocol invariant. -/
theorem Inv.countersIrrelevant {c : Craw V A S} {g : Nat → Option (GetFrame V)} (h : Inv c g)
    (n m : Nat) : Inv { c with totalAccess := n, staggerAccess := m } g :=
  { lockHeld := h.lockHeld
    lockUnique := h.lockUnique
    absent := h.absent
    registered := h.registered
    ownerFresh := h.ownerFresh
    ownerUnique := h.ownerUnique
    mapFresh := h.mapFresh
    waiterFresh := h.waiterFresh }

theorem GPc.ownerPath_of_fetched {pc : GPc} (h : pc.fetched = true) : pc.ownerPath = true := by
  cases pc <;> simp_all [GPc.fetched, GPc.ownerPath]

theorem Bound.boundStep {I : CrawInterface V A} {L : LruCache V S} {c c1 : Craw V A S}
    {g : Nat → Option (GetFrame V)} {t : Nat} {f f1 : GetFrame V}
    (ho : Owned c g) (hb : Bound g) (hg : g t = some f)
    (hs : f.step I L c = some (c1, f1)) :
    Bound (Function.update g t (some f1)) := by
  -- an owner stays an owner of the same `customValue` when it steps
  have hown : ∀ t0 f0 (p : Nat) (k : Key), g t0 = some f0 → f0.pc.ownerPath = true →
      f0.value = p → f0.key = k →
      ∃ t2 f2, Function.update g t (some f1) t2 = some f2 ∧ f2.pc.ownerPath = true ∧
        f2.value = p ∧ f2.key = k := by
    intro t0 f0 p k hg0 hp hv hk
    by_cases ht0 : t0 = t
    · subst ht0
      rw [hg] at hg0; cases hg0
      refine ⟨t0, f1, by simp, ?_⟩
      obtain ⟨pc, key, data, err, value, expired⟩ := f
      cases pc <;> simp only [GetFrame.step] at hs <;> (try split at hs) <;> cases hs <;>
        simp_all [GPc.ownerPath]
    · exact ⟨t0, f0, by rw [Function.update_noteq ht0]; exact hg0, hp, hv, hk⟩
  intro t1 f2 hg2 hw
  by_cases ht : t1 = t
  · subst ht
    simp only [Function.update_same, Option.some.injEq] at hg2
    subst hg2
    by_cases hwf : f.pc.waiterPath = true
    · obtain ⟨t0, f0, hg0, hp, hv, hk⟩ := hb t1 f hg hwf
      have hval : f1.value = f.value ∧ f1.key = f.key := by
        obtain ⟨pc, key, data, err, value, expired⟩ := f
        cases pc <;> simp only [GetFrame.step] at hs <;> (try split at hs) <;> cases hs <;>
          simp_all [GPc.waiterPath]
      rw [hval.1, hval.2]
      exact hown t0 f0 _ _ hg0 hp hv hk
    · -- the call enters the waiter branch: it read the registry at `lookup`
      obtain ⟨pc, key, data, err, value, expired⟩ := f
      cases pc <;> simp only [GetFrame.step] at hs <;> (try split at hs) <;> cases hs <;>
        simp_all [GPc.waiterPath]
      rename_i p hp
      obtain ⟨t0, f0, hg0, hfl, hk, hv⟩ := ho key p hp
      exact hown t0 f0 _ _ hg0 (GPc.ownerPath_of_inFlight hfl) hv hk
  · rw [Function.update_noteq ht] at hg2
    obtain ⟨t0, f0, hg0, hp, hv, hk⟩ := hb t1 f2 hg2 hw
    exact hown t0 f0 _ _ hg0 hp hv hk

theorem Fetched.fetchedStep {I : CrawInterface V A} {L : LruCache V S} {c c1 : Craw V A S}
    {g : Nat → Option (GetFrame V)} {t : Nat} {f f1 : GetFrame V}
    {t0 p : Nat} {k : Key} {d : Option V} {e : Option Err}
    (h : Inv c g) (hf : Fetched t0 p k d e c g) (hg : g t = some f)
    (hs : f.step I L c = some (c1, f1)) :
    Fetched t0 p k d e c1 (Function.update g t (some f1)) := by
  obtain ⟨hd, he, f0, hg0, hv, hk, hp⟩ := hf
  have hfresh := h.ownerFresh t0 f0 hg0 (GPc.ownerPath_of_fetched hp)
  by_cases ht : t = t0
  · subst ht
    rw [hg] at hg0; cases hg0
    obtain ⟨pc, key, data, err, value, expired⟩ := f
    cases pc <;> simp only [GetFrame.step] at hs <;> (try split at hs) <;> cases hs <;>
      simp_all [GPc.fetched, Fetched, Craw.log]
    subst hv
    simp
  · have huniq := h.ownerUnique t t0 f f0 hg hg0
    have hp0 := GPc.ownerPath_of_fetched hp
    have hne : t0 ≠ t := fun e => ht e.symm
    obtain ⟨pc, key, data, err, value, expired⟩ := f
    cases pc <;> simp only [GetFrame.step] at hs <;> (try split at hs) <;> cases hs <;>
      simp_all [GPc.ownerPath, Fetched, Craw.log, Function.update_apply]
    all_goals (try split) <;> simp_all


theorem Good.goodStep {I : CrawInterface V A} {L : LruCache V S} {c c1 : Craw V A S}
    {g : Nat → Option (GetFrame V)} {t : Nat} {f f1 : GetFrame V}
    (h : Good c g) (hg : g t = some f) (hs : f.step I L c = some (c1, f1)) :
    Good c1 (Function.update g t (some f1)) :=
  ⟨h.1.invStep hg hs, Owned.ownedStep h.1 h.2.1 hg hs,
    { isOpen := HeapInv.step_isOpen h.1 h.2.2.1 hg hs
      isClosed := HeapInv.step_isClosed h.1 h.2.2.1 hg hs
      result := HeapInv.step_result h.1 h.2.2.1 hg hs },
    Bound.boundStep h.2.1 h.2.2.2 hg hs⟩

/-- Changing the two counters does not affect the invariant. -/
theorem Good.ofCounters {c : Craw V A S} {g : Nat → Option (GetFrame V)} (h : Good c g)
    (n m : Nat) : Good { c with totalAccess := n, staggerAccess := m } g :=
  ⟨h.1.countersIrrelevant n m, h.2.1, ⟨h.2.2.1.isOpen, h.2.2.1.isClosed, h.2.2.1.result⟩, h.2.2.2⟩

theorem Sys.frame_set_getData (c1 : Craw V A S) (threads : List (Thread V)) (t : Nat)
    (th : Thread V) (f1 : GetFrame V) (ht : threads[t]? = some th) :
    Sys.frame { shared := c1, threads := threads.set t (Thread.getData f1) } =
      Function.update (Sys.frame { shared := c1, threads := threads }) t (some f1) := by
  funext t1
  have hlt : t < threads.length := by
    rcases List.getElem?_eq_some_iff.mp ht with ⟨h, -⟩
    exact h
  by_cases h : t1 = t
  · subst h
    simp [Sys.frame, hlt]
  · have h2 : t ≠ t1 := fun e => h e.symm
    simp [Sys.frame, Function.update_noteq h, List.getElem?_set_ne h2]

theorem Sys.frame_set_other (c c1 : Craw V A S) (threads : List (Thread V)) (t : Nat)
    (th th1 : Thread V) (ht : threads[t]? = some th)
    (h0 : ∀ f, th ≠ Thread.getData f) (h1 : ∀ f, th1 ≠ Thread.getData f) :
    Sys.frame { shared := c1, threads := threads.set t th1 } =
      Sys.frame { shared := c, threads := threads } := by
  funext t1
  have hlt : t < threads.length := by
    rcases List.getElem?_eq_some_iff.mp ht with ⟨h, -⟩
    exact h
  by_cases h : t1 = t
  · subst h
    simp only [Sys.frame, List.getElem?_set_self hlt, ht]
    cases th <;> cases th1 <;> simp_all
  · have h2 : t ≠ t1 := fun e => h e.symm
    simp [Sys.frame, List.getElem?_set_ne h2]

theorem Sys.frame_shared (c c1 : Craw V A S) (threads : List (Thread V)) :
    Sys.frame { shared := c1, threads := threads } =
      Sys.frame { shared := c, threads := threads } := rfl

/-- A property of the shared state and the `GetData` frames that every `GetData`
step preserves, and that does not depend on the counters, is preserved by every
scheduler pick. -/
theorem Sys.next_preserves (I : CrawInterface V A) (L : LruCache V S)
    (P : Craw V A S → (Nat → Option (GetFrame V)) → Prop)
    (hstep : ∀ c g t f c1 f1, P c g → g t = some f → GetFrame.step I L c f = some (c1, f1) →
      P c1 (Function.update g t (some f1)))
    (hcnt : ∀ (c : Craw V A S) g n m, P c g →
      P { c with totalAccess := n, staggerAccess := m } g)
    (s : Sys V A S) (t : Nat) (h : P s.shared s.frame) :
    P (s.next I L t).shared (s.next I L t).frame := by
  unfold Sys.next Sys.step
  cases hth : s.threads[t]? with
  | none => simpa using h
  | some th =>
    cases th with
    | getData f =>
      simp only [Thread.step]
      cases hs : f.step I L s.shared with
      | none => simpa using h
      | some r =>
        obtain ⟨c1, f1⟩ := r
        simp only
        rw [Sys.frame_set_getData c1 s.threads t _ f1 hth]
        have hg : s.frame t = some f := by simp [Sys.frame, hth]
        exact hstep _ _ _ _ _ _ h hg hs
    | hitRate f =>
      simp only [Thread.step]
      cases hs : f.stepHit s.shared with
      | none => simpa using h
      | some r =>
        obtain ⟨c1, f1⟩ := r
        simp only
        rw [Sys.frame_set_other s.shared c1 s.threads t _ _ hth (by simp) (by simp)]
        obtain ⟨pc, cu, tot, re⟩ := f
        cases pc <;> simp only [RateFrame.stepHit] at hs <;> cases hs <;> exact h
    | resetHitRate f =>
      simp only [Thread.step]
      cases hs : f.stepReset s.shared with
      | none => simpa using h
      | some r =>
        obtain ⟨c1, f1⟩ := r
        simp only
        rw [Sys.frame_set_other s.shared c1 s.threads t _ _ hth (by simp) (by simp)]
        obtain ⟨pc, cu, tot, re⟩ := f
        cases pc <;> simp only [RateFrame.stepReset] at hs <;> cases hs
        · exact hcnt _ _ s.shared.totalAccess 0 h
        · exact hcnt _ _ 0 s.shared.staggerAccess h
        · exact h

theorem Sys.exec_preserves (I : CrawInterface V A) (L : LruCache V S)
    (P : Craw V A S → (Nat → Option (GetFrame V)) → Prop)
    (hstep : ∀ c g t f c1 f1, P c g → g t = some f → GetFrame.step I L c f = some (c1, f1) →
      P c1 (Function.update g t (some f1)))
    (hcnt : ∀ (c : Craw V A S) g n m, P c g →
      P { c with totalAccess := n, staggerAccess := m } g)
    (sched : List Nat) (s : Sys V A S) (h : P s.shared s.frame) :
    P (s.exec I L sched).shared (s.exec I L sched).frame := by
  induction sched generalizing s with
  | nil => simpa [Sys.exec] using h
  | cons t ts ih =>
    simp only [Sys.exec, List.foldl_cons]
    exact ih (s.next I L t) (Sys.next_preserves I L P hstep hcnt s t h)

/-- Every schedule preserves the invariant. -/
theorem Sys.exec_inv (I : CrawInterface V A) (L : LruCache V S) (sched : List Nat)
    (s : Sys V A S) (h : Good s.shared s.frame) :
    Good (s.exec I L sched).shared (s.exec I L sched).frame :=
  Sys.exec_preserves I L Good (fun _ _ _ _ _ _ h hg hs => Good.goodStep h hg hs)
    (fun _ _ n m h => Good.ofCounters h n m) sched s h

theorem Sys.Initial.frame_pc {s : Sys V A S} (h : s.Initial) (t : Nat) (f : GetFrame V)
    (hf : s.frame t = some f) : f.pc = GPc.checkEnable := by
  obtain ⟨-, -, -, -, hall⟩ := h
  unfold Sys.frame at hf
  cases hth : s.threads[t]? with
  | none => simp [hth] at hf
  | some th =>
    have hmem : th ∈ s.threads := List.mem_iff_getElem?.mpr ⟨t, hth⟩
    have hst := hall th hmem
    cases th with
    | getData f0 =>
      simp [hth] at hf
      subst hf
      simpa [Thread.atStart] using hst
    | hitRate f0 => simp [hth] at hf
    | resetHitRate f0 => simp [hth] at hf

theorem Sys.Initial.inv {s : Sys V A S} (h : s.Initial) : Good s.shared s.frame := by
  have hpc := h.frame_pc
  obtain ⟨-, hmap, -, -, -⟩ := h
  refine ⟨⟨?_, ?_, ?_, ?_, ?_, ?_, ?_, ?_⟩, ?_, ⟨?_, ?_, ?_⟩, ?_⟩
  · intro t f hf hl; rw [hpc t f hf] at hl; simp [GPc.holdsLock] at hl
  · intro t1 t2 f1 f2 hf1 _ hl; rw [hpc t1 f1 hf1] at hl; simp [GPc.holdsLock] at hl
  · intro t f hf hl; rw [hpc t f hf] at hl; simp [GPc.sawAbsent] at hl
  · intro t f hf hl; rw [hpc t f hf] at hl; simp [GPc.inFlight] at hl
  · intro t f hf hl; rw [hpc t f hf] at hl; simp [GPc.ownerPath] at hl
  · intro t1 t2 f1 f2 hf1 _ hl; rw [hpc t1 f1 hf1] at hl; simp [GPc.ownerPath] at hl
  · intro k p hk; rw [hmap k] at hk; simp at hk
  · intro t f hf hl; rw [hpc t f hf] at hl; simp [GPc.waiterPath] at hl
  · intro k p hk; rw [hmap k] at hk; simp at hk
  · intro t f hf hl; rw [hpc t f hf] at hl; simp [GPc.beforeClose] at hl
  · intro t f hf hl; rw [hpc t f hf] at hl; simp [GPc.afterClose] at hl
  · intro t f hf hl; rw [hpc t f hf] at hl; simp [GPc.returnedFetch] at hl
  · intro t f hf hl; rw [hpc t f hf] at hl; simp [GPc.waiterPath] at hl

theorem countP_le_one_of_unique {α : Type} (p : α → Bool) (l : List α)
    (h : ∀ (i j : Nat) (a b : α), l[i]? = some a → l[j]? = some b → p a = true → p b = true → i = j) :
    l.countP p ≤ 1 := by
  induction l with
  | nil => simp
  | cons x xs ih =>
    rw [List.countP_cons]
    by_cases hx : p x = true
    · have hz : xs.countP p = 0 := by
        rw [List.countP_eq_zero]
        intro b hb hpb
        obtain ⟨j, hj⟩ := List.mem_iff_getElem?.mp hb
        have := h 0 (j + 1) x b (by simp) (by simpa using hj) hx hpb
        omega
      simp [hx, hz]
    · have := ih (fun i j a b hi hj ha hb => by
        have := h (i + 1) (j + 1) a b (by simpa using hi) (by simpa using hj) ha hb
        omega)
      simp [hx]; exact this

theorem one_le_countP_of_getElem? {α : Type} (p : α → Bool) (l : List α) (i : Nat) (a : α)
    (hi : l[i]? = some a) (ha : p a = true) : 1 ≤ l.countP p := by
  have hmem : a ∈ l := List.mem_iff_getElem?.mpr ⟨i, hi⟩
  exact List.countP_pos_iff.mpr ⟨a, hmem, ha⟩

theorem Sys.frame_eq_some {s : Sys V A S} {t : Nat} {f : GetFrame V} :
    s.frame t = some f ↔ s.threads[t]? = some (Thread.getData f) := by
  unfold Sys.frame
  cases h : s.threads[t]? with
  | none => simp
  | some th => cases th <;> simp

theorem Thread.inFlightFor_iff {key : Key} {th : Thread V} :
    th.inFlightFor key = true ↔
      ∃ f, th = Thread.getData f ∧ f.pc.inFlight = true ∧ f.key = key := by
  cases th <;> simp [Thread.inFlightFor]

/-! ### Single flight -/

/-- C8: from an initial state (free mutex, empty registry, no goroutine started),
after any schedule of any goroutines, for every key `K` at most one `GetData(K)`
call is between its registry insert (line 94) and its registry delete (line 106),
which covers the whole execution of `CustomGet(K)`.  The registry, a map, holds
at most one pending fetch for `K`; it holds one exactly when one call is in
flight for `K`, and the entry is that call's `customValue`. -/
theorem C8_single_flight (I : CrawInterface V A) (L : LruCache V S) (s0 : Sys V A S)
    (h0 : s0.Initial) (sched : List Nat) (key : Key) :
    (s0.exec I L sched).inFlightCount key ≤ 1 ∧
    ((s0.exec I L sched).inFlightCount key = 1 ↔
      ((s0.exec I L sched).shared.keyMap key).isSome = true) ∧
    (∀ t f, (s0.exec I L sched).frame t = some f → f.pc.inFlight = true → f.key = key →
      (s0.exec I L sched).shared.keyMap key = some f.value) ∧
    (∀ t1 t2 f1 f2, (s0.exec I L sched).frame t1 = some f1 →
      (s0.exec I L sched).frame t2 = some f2 → f1.pc.inFlight = true →
      f2.pc.inFlight = true → f1.key = f2.key → t1 = t2) := by
  obtain ⟨hI, hO, -, -⟩ := Sys.exec_inv I L sched s0 h0.inv
  generalize s0.exec I L sched = s at hI hO
  have huniq : ∀ t1 t2 f1 f2, s.frame t1 = some f1 → s.frame t2 = some f2 →
      f1.pc.inFlight = true → f2.pc.inFlight = true → f1.key = f2.key → t1 = t2 := by
    intro t1 t2 f1 f2 h1 h2 hp1 hp2 hk
    have e1 := hI.registered t1 f1 h1 hp1
    have e2 := hI.registered t2 f2 h2 hp2
    rw [hk, e2] at e1
    exact hI.ownerUnique t1 t2 f1 f2 h1 h2 (GPc.ownerPath_of_inFlight hp1)
      (GPc.ownerPath_of_inFlight hp2) (Option.some.inj e1).symm
  have hle : s.inFlightCount key ≤ 1 := by
    apply countP_le_one_of_unique
    intro i j a b hi hj ha hb
    obtain ⟨f1, rfl, hp1, hk1⟩ := Thread.inFlightFor_iff.mp ha
    obtain ⟨f2, rfl, hp2, hk2⟩ := Thread.inFlightFor_iff.mp hb
    exact huniq i j f1 f2 (Sys.frame_eq_some.mpr hi) (Sys.frame_eq_some.mpr hj) hp1 hp2
      (hk1.trans hk2.symm)
  refine ⟨hle, ⟨?_, ?_⟩, ?_, huniq⟩
  · intro h1
    have hpos : 0 < s.threads.countP (Thread.inFlightFor key) := by
      unfold Sys.inFlightCount at h1; omega
    obtain ⟨th, hmem, hth⟩ := List.countP_pos_iff.mp hpos
    obtain ⟨f, rfl, hp, hk⟩ := Thread.inFlightFor_iff.mp hth
    obtain ⟨t, ht⟩ := List.mem_iff_getElem?.mp hmem
    have := hI.registered t f (Sys.frame_eq_some.mpr ht) hp
    rw [hk] at this
    simp [this]
  · intro h1
    obtain ⟨p, hp⟩ := Option.isSome_iff_exists.mp h1
    obtain ⟨t, f, hg, hfl, hk, -⟩ := hO key p hp
    have : 1 ≤ s.inFlightCount key :=
      one_le_countP_of_getElem? _ _ t _ (Sys.frame_eq_some.mp hg)
        (Thread.inFlightFor_iff.mpr ⟨f, rfl, hfl, hk⟩)
    omega
  · intro t f hg hp hk
    have := hI.registered t f hg hp
    rwa [hk] at this

theorem twoGetters_initial : twoGetters.Initial :=
  ⟨rfl, fun _ => rfl, by decide, by decide, by decide⟩

theorem C8_single_flight_witness :
    (Sys.exec cacheGet mapStore waitingSchedule twoGetters).inFlightCount "k" ≤ 1 ∧
    (Sys.exec cacheGet mapStore waitingSchedule twoGetters).inFlightCount "k" = 1 ∧
    (Sys.exec cacheGet mapStore waitingSchedule twoGetters).shared.keyMap "k" = some 0 :=
  ⟨(C8_single_flight cacheGet mapStore twoGetters
      ⟨rfl, fun _ => rfl, by decide, by decide, by decide⟩ waitingSchedule "k").1,
    by decide, by decide⟩

/-! ### Callers of one pending fetch -/

/-- C1 (amended): from an initial state, after any schedule, the `GetData` calls
that returned through the same pending fetch (its creator at line 109, its
waiters at line 115) returned the identical `(value, error)` pair, the one stored
in that `customValue`.  Every call on the waiter branch is bound to the
`customValue` of a first caller for the same key, and a `customValue` has one
creator only, which is the only call that invokes `CustomGet` for it. -/
theorem C1_same_fetch_same_result (I : CrawInterface V A) (L : LruCache V S)
    (s0 : Sys V A S) (h0 : s0.Initial) (sched : List Nat) :
    (∀ t1 t2 f1 f2, (s0.exec I L sched).frame t1 = some f1 →
      (s0.exec I L sched).frame t2 = some f2 →
      f1.pc.returnedFetch = true → f2.pc.returnedFetch = true → f1.value = f2.value →
      f1.data = f2.data ∧ f1.err = f2.err) ∧
    (∀ t f, (s0.exec I L sched).frame t = some f → f.pc.returnedFetch = true →
      f.data = ((s0.exec I L sched).shared.heap f.value).data ∧
      f.err = ((s0.exec I L sched).shared.heap f.value).err) ∧
    (∀ t f, (s0.exec I L sched).frame t = some f → f.pc.waiterPath = true →
      ∃ t0 f0, (s0.exec I L sched).frame t0 = some f0 ∧ f0.pc.ownerPath = true ∧
        f0.value = f.value ∧ f0.key = f.key) ∧
    (∀ t1 t2 f1 f2, (s0.exec I L sched).frame t1 = some f1 →
      (s0.exec I L sched).frame t2 = some f2 →
      f1.pc.ownerPath = true → f2.pc.ownerPath = true → f1.value = f2.value → t1 = t2) := by
  obtain ⟨hI, -, hH, hB⟩ := Sys.exec_inv I L sched s0 h0.inv
  refine ⟨?_, ?_, hB, hI.ownerUnique⟩
  · intro t1 t2 f1 f2 h1 h2 hp1 hp2 hv
    have e1 := hH.result t1 f1 h1 hp1
    have e2 := hH.result t2 f2 h2 hp2
    rw [hv] at e1
    exact ⟨e1.1.symm.trans e2.1, e1.2.symm.trans e2.2⟩
  · intro t f h1 hp
    have e1 := hH.result t f h1 hp
    exact ⟨e1.1.symm, e1.2.symm⟩

theorem C1_same_fetch_same_result_witness :
    (Sys.exec cacheGet mapStore sharedSchedule twoGetters).frame 0 = some sharedOwnerFrame ∧
    (Sys.exec cacheGet mapStore sharedSchedule twoGetters).frame 1 = some sharedWaiterFrame ∧
    sharedOwnerFrame.data = sharedWaiterFrame.data ∧
    sharedOwnerFrame.err = sharedWaiterFrame.err :=
  ⟨rfl, rfl,
    (C1_same_fetch_same_result cacheGet mapStore twoGetters
      ⟨rfl, fun _ => rfl, by decide, by decide, by decide⟩ sharedSchedule).1
      0 1 sharedOwnerFrame sharedWaiterFrame rfl rfl rfl rfl rfl⟩

/-! ### A failed fetch -/

/-- The step of a first caller at line 99, spelled out. -/
theorem Sys.next_customGet (I : CrawInterface V A) (L : LruCache V S) (s : Sys V A S)
    (t : Nat) (f : GetFrame V) (hf : s.frame t = some f) (hpc : f.pc = GPc.customGet) :
    ((s.next I L t).shared.heap f.value).data = (I.CustomGet s.shared.dispose f.key).1.1 ∧
    ((s.next I L t).shared.heap f.value).err = (I.CustomGet s.shared.dispose f.key).1.2.2 ∧
    (s.next I L t).shared.craw = s.shared.craw ∧
    (s.next I L t).shared.calls = s.shared.calls ++ [Call.customGet f.key] ∧
    ∃ f1, (s.next I L t).frame t = some f1 ∧ f1.value = f.value ∧ f1.key = f.key ∧
      f1.pc = GPc.put := by
  have hth := Sys.frame_eq_some.mp hf
  have hlt : t < s.threads.length := (List.getElem?_eq_some_iff.mp hth).1
  obtain ⟨pc, key, data, err, value, expired⟩ := f
  simp only at hpc
  subst hpc
  simp [Sys.next, Sys.step, hth, Thread.step, GetFrame.step, Craw.log, Sys.frame, hlt]

/-- The step of a first caller at lines 100 to 104 when the fetch failed: nothing
is written. -/
theorem Sys.next_put_failed (I : CrawInterface V A) (L : LruCache V S) (s : Sys V A S)
    (t : Nat) (f : GetFrame V) (hf : s.frame t = some f) (hpc : f.pc = GPc.put)
    (herr : (s.shared.heap f.value).err ≠ none) :
    (s.next I L t).shared = s.shared := by
  have hth := Sys.frame_eq_some.mp hf
  obtain ⟨pc, key, data, err, value, expired⟩ := f
  simp only at hpc herr
  subst hpc
  simp [Sys.next, Sys.step, hth, Thread.step, GetFrame.step, herr]

theorem Fetched.unaffectedByCounters {t0 p : Nat} {k : Key} {d : Option V} {e : Option Err}
    {c : Craw V A S} {g : Nat → Option (GetFrame V)} (h : Fetched t0 p k d e c g)
    (n m : Nat) : Fetched t0 p k d e { c with totalAccess := n, staggerAccess := m } g := h

/-- Once a first caller has fetched `(d, e)`, every later state keeps that pair in
its `customValue`, and the invariant holds there. -/
theorem Sys.exec_fetched (I : CrawInterface V A) (L : LruCache V S) (s : Sys V A S)
    (t0 p : Nat) (k : Key) (d : Option V) (e : Option Err)
    (hG : Good s.shared s.frame) (hF : Fetched t0 p k d e s.shared s.frame)
    (sched : List Nat) :
    Good (s.exec I L sched).shared (s.exec I L sched).frame ∧
      Fetched t0 p k d e (s.exec I L sched).shared (s.exec I L sched).frame :=
  Sys.exec_preserves I L (fun c g => Good c g ∧ Fetched t0 p k d e c g)
    (fun _ _ _ _ _ _ h hg hs => ⟨Good.goodStep h.1 hg hs, Fetched.fetchedStep h.1.1 h.2 hg hs⟩)
    (fun _ _ n m h => ⟨Good.ofCounters h.1 n m, Fetched.unaffectedByCounters h.2 n m⟩) sched s ⟨hG, hF⟩

/-! ### The counters under interleaving -/

theorem sum_map_set {α : Type} (f : α → Nat) (l : List α) (t : Nat) (a b : α)
    (h : l[t]? = some a) : ((l.set t b).map f).sum + f a = (l.map f).sum + f b := by
  induction l generalizing t with
  | nil => simp at h
  | cons x xs ih =>
    cases t with
    | zero =>
      simp at h
      subst h
      simp; omega
    | succ n =>
      simp at h
      have := ih n h
      simp only [List.set_cons_succ, List.map_cons, List.sum_cons]
      omega

theorem sum_map_le_length {α : Type} (f : α → Nat) (hf : ∀ x, f x ≤ 1) (l : List α) :
    (l.map f).sum ≤ l.length := by
  induction l with
  | nil => simp
  | cons x xs ih => have := hf x; simp; omega

theorem GPc.countedStagger_le_countedTotal (pc : GPc) : pc.countedStagger ≤ pc.countedTotal := by
  cases pc <;> simp [GPc.countedStagger, GPc.countedTotal]

theorem Thread.countedTotal_le_one (th : Thread V) : th.countedTotal ≤ 1 := by
  cases th with
  | getData f => cases h : f.pc <;> simp [Thread.countedTotal, GPc.countedTotal, h]
  | hitRate f => simp [Thread.countedTotal]
  | resetHitRate f => simp [Thread.countedTotal]

theorem Thread.countedStagger_le_total (th : Thread V) : th.countedStagger ≤ th.countedTotal := by
  cases th with
  | getData f => exact GPc.countedStagger_le_countedTotal f.pc
  | hitRate f => simp [Thread.countedTotal, Thread.countedStagger]
  | resetHitRate f => simp [Thread.countedTotal, Thread.countedStagger]

theorem sum_map_le_sum_map {α : Type} (f g : α → Nat) (hfg : ∀ x, f x ≤ g x) (l : List α) :
    (l.map f).sum ≤ (l.map g).sum := by
  induction l with
  | nil => simp
  | cons x xs ih => have := hfg x; simp; omega

/-- Effect of one `GetData` step on the counters, away from the `uint64` bound. -/
theorem GetFrame.step_counts {I : CrawInterface V A} {L : LruCache V S} {c c1 : Craw V A S}
    {f f1 : GetFrame V} (hs : f.step I L c = some (c1, f1))
    (hT : f.pc.countedTotal = 0 → c.totalAccess + 1 < u64)
    (hS : f.pc.countedStagger = 0 → c.staggerAccess + 1 < u64) :
    c1.totalAccess + f.pc.countedTotal = c.totalAccess + f1.pc.countedTotal ∧
    c1.staggerAccess + f.pc.countedStagger = c.staggerAccess + f1.pc.countedStagger := by
  obtain ⟨pc, key, data, err, value, expired⟩ := f
  cases pc <;> simp only [GetFrame.step] at hs <;> (try split at hs) <;> cases hs <;>
    simp_all [GPc.countedTotal, GPc.countedStagger, Craw.log, addU64, Nat.mod_eq_of_lt]

theorem Counted.next (I : CrawInterface V A) (L : LruCache V S) (s : Sys V A S) (t : Nat)
    (hc : Counted s) (hn : s.threads.length < u64) :
    Counted (s.next I L t) ∧ (s.next I L t).threads.length = s.threads.length := by
  obtain ⟨hT, hS, hR⟩ := hc
  unfold Sys.next Sys.step
  cases hth : s.threads[t]? with
  | none => exact ⟨⟨hT, hS, hR⟩, rfl⟩
  | some th =>
    have hmem : th ∈ s.threads := List.mem_iff_getElem?.mpr ⟨t, hth⟩
    have hreset : ∀ th1 : Thread V, th1.isReset = false →
        ∀ x ∈ s.threads.set t th1, x.isReset = false := by
      intro th1 h1 x hx
      rcases List.mem_or_eq_of_mem_set hx with h | h
      · exact hR x h
      · rw [h]; exact h1
    cases th with
    | getData f =>
      simp only [Thread.step]
      cases hs : f.step I L s.shared with
      | none => exact ⟨⟨hT, hS, hR⟩, rfl⟩
      | some r =>
        obtain ⟨c1, f1⟩ := r
        simp only [List.length_set, and_true]
        have eT : ((s.threads.set t (Thread.getData f1)).map Thread.countedTotal).sum +
            f.pc.countedTotal =
            (s.threads.map Thread.countedTotal).sum + f1.pc.countedTotal :=
          sum_map_set Thread.countedTotal s.threads t _ (Thread.getData f1) hth
        have eS : ((s.threads.set t (Thread.getData f1)).map Thread.countedStagger).sum +
            f.pc.countedStagger =
            (s.threads.map Thread.countedStagger).sum + f1.pc.countedStagger :=
          sum_map_set Thread.countedStagger s.threads t _ (Thread.getData f1) hth
        -- room below the `uint64` bound: a goroutine not yet counted leaves a free slot
        have bT : ((s.threads.set t (Thread.getData { f with pc := GPc.getEx })).map
            Thread.countedTotal).sum + f.pc.countedTotal =
            (s.threads.map Thread.countedTotal).sum + 1 :=
          sum_map_set Thread.countedTotal s.threads t _
            (Thread.getData { f with pc := GPc.getEx }) hth
        have bS : ((s.threads.set t (Thread.getData { f with pc := GPc.insert })).map
            Thread.countedStagger).sum + f.pc.countedStagger =
            (s.threads.map Thread.countedStagger).sum + 1 :=
          sum_map_set Thread.countedStagger s.threads t _
            (Thread.getData { f with pc := GPc.insert }) hth
        have lT := sum_map_le_length Thread.countedTotal Thread.countedTotal_le_one
          (s.threads.set t (Thread.getData { f with pc := GPc.getEx }))
        have lS := sum_map_le_length Thread.countedStagger
          (fun x => (Thread.countedStagger_le_total x).trans (Thread.countedTotal_le_one x))
          (s.threads.set t (Thread.getData { f with pc := GPc.insert }))
        rw [List.length_set] at lT lS
        have hc := GetFrame.step_counts hs (by intro h0; omega) (by intro h0; omega)
        refine ⟨?_, ?_, hreset _ rfl⟩
        · show c1.totalAccess =
            ((s.threads.set t (Thread.getData f1)).map Thread.countedTotal).sum
          omega
        · show c1.staggerAccess =
            ((s.threads.set t (Thread.getData f1)).map Thread.countedStagger).sum
          omega
    | hitRate f =>
      simp only [Thread.step]
      cases hs : f.stepHit s.shared with
      | none => exact ⟨⟨hT, hS, hR⟩, rfl⟩
      | some r =>
        obtain ⟨c1, f1⟩ := r
        simp only [List.length_set, and_true]
        have eT : ((s.threads.set t (Thread.hitRate f1)).map Thread.countedTotal).sum + 0 =
            (s.threads.map Thread.countedTotal).sum + 0 :=
          sum_map_set Thread.countedTotal s.threads t _ (Thread.hitRate f1) hth
        have eS : ((s.threads.set t (Thread.hitRate f1)).map Thread.countedStagger).sum + 0 =
            (s.threads.map Thread.countedStagger).sum + 0 :=
          sum_map_set Thread.countedStagger s.threads t _ (Thread.hitRate f1) hth
        simp only [Nat.add_zero] at eT eS
        have hc1 : c1 = s.shared := by
          obtain ⟨pc, cu, tot, re⟩ := f
          cases pc <;> simp only [RateFrame.stepHit] at hs <;> cases hs <;> rfl
        subst hc1
        exact ⟨by rw [eT]; exact hT, by rw [eS]; exact hS, hreset _ rfl⟩
    | resetHitRate f =>
      have := hR _ hmem
      simp [Thread.isReset] at this

theorem Counted.exec (I : CrawInterface V A) (L : LruCache V S) (sched : List Nat)
    (s : Sys V A S) (hc : Counted s) (hn : s.threads.length < u64) :
    Counted (s.exec I L sched) := by
  induction sched generalizing s with
  | nil => simpa [Sys.exec] using hc
  | cons t ts ih =>
    simp only [Sys.exec, List.foldl_cons]
    obtain ⟨h1, h2⟩ := Counted.next I L s t hc hn
    exact ih (s.next I L t) h1 (by rw [h2]; exact hn)

theorem Counted.initial (s : Sys V A S) (h0 : s.Initial) (hT : s.shared.totalAccess = 0)
    (hS : s.shared.staggerAccess = 0) (hR : ∀ th ∈ s.threads, th.isReset = false) :
    Counted s := by
  obtain ⟨-, -, -, -, hall⟩ := h0
  have hz : ∀ th ∈ s.threads, Thread.countedTotal th = 0 ∧ Thread.countedStagger th = 0 := by
    intro th hth
    have := hall th hth
    cases th with
    | getData f =>
      simp only [Thread.atStart, decide_eq_true_eq] at this
      simp [Thread.countedTotal, Thread.countedStagger, this, GPc.countedTotal,
        GPc.countedStagger]
    | hitRate f => simp [Thread.countedTotal, Thread.countedStagger]
    | resetHitRate f => simp [Thread.countedTotal, Thread.countedStagger]
  refine ⟨?_, ?_, hR⟩
  · rw [hT]; symm
    apply List.sum_eq_zero
    intro x hx
    obtain ⟨th, hth, rfl⟩ := List.mem_map.mp hx
    exact (hz th hth).1
  · rw [hS]; symm
    apply List.sum_eq_zero
    intro x hx
    obtain ⟨th, hth, rfl⟩ := List.mem_map.mp hx
    exact (hz th hth).2

/-- C9 (amended): starting from both counters at 0, in every state reached by any
interleaving of fewer than `2^64` concurrent `GetData` and `HitRate` calls
(no `ResetHitRate` call taking part), `staggerAccess ≤ totalAccess`: `totalAccess`
is the number of `GetData` calls that have executed line 79 and `staggerAccess`
the number of those that have executed line 91. -/
theorem C9_counters_without_reset (I : CrawInterface V A) (L : LruCache V S)
    (s0 : Sys V A S) (h0 : s0.Initial) (hT : s0.shared.totalAccess = 0)
    (hS : s0.shared.staggerAccess = 0) (hR : ∀ th ∈ s0.threads, th.isReset = false)
    (hn : s0.threads.length < 2 ^ 64) (sched : List Nat) :
    (s0.exec I L sched).shared.staggerAccess ≤ (s0.exec I L sched).shared.totalAccess ∧
    (s0.exec I L sched).shared.totalAccess =
      ((s0.exec I L sched).threads.map Thread.countedTotal).sum ∧
    (s0.exec I L sched).shared.staggerAccess =
      ((s0.exec I L sched).threads.map Thread.countedStagger).sum := by
  obtain ⟨h1, h2, -⟩ := Counted.exec I L sched s0 (Counted.initial s0 h0 hT hS hR) hn
  refine ⟨?_, h1, h2⟩
  rw [h1, h2]
  exact sum_map_le_sum_map _ _ Thread.countedStagger_le_total _

theorem C9_counters_without_reset_witness :
    (Sys.exec cacheGet mapStore hitRateSchedule gettersAndHitRate).shared.staggerAccess ≤
      (Sys.exec cacheGet mapStore hitRateSchedule gettersAndHitRate).shared.totalAccess ∧
    (Sys.exec cacheGet mapStore hitRateSchedule gettersAndHitRate).shared.staggerAccess = 1 ∧
    (Sys.exec cacheGet mapStore hitRateSchedule gettersAndHitRate).shared.totalAccess = 2 :=
  ⟨(C9_counters_without_reset cacheGet mapStore gettersAndHitRate
      ⟨rfl, fun _ => rfl, by decide, by decide, by decide⟩ rfl rfl (by decide) (by decide)
      hitRateSchedule).1,
    by decide, by decide⟩

/-! ### Termination and the release of the waiters -/

theorem GetFrame.frameStep_remaining {I : CrawInterface V A} {L : LruCache V S} {c c1 : Craw V A S}
    {f f1 : GetFrame V} (hs : f.step I L c = some (c1, f1)) :
    f1.pc.remaining < f.pc.remaining := by
  obtain ⟨pc, key, data, err, value, expired⟩ := f
  cases pc <;> simp only [GetFrame.step] at hs <;> (try split at hs) <;> cases hs <;>
    simp [GPc.remaining]

theorem Thread.threadStep_remaining {I : CrawInterface V A} {L : LruCache V S} {c c1 : Craw V A S}
    {th th1 : Thread V} (hs : th.step I L c = some (c1, th1)) :
    th1.remaining < th.remaining := by
  cases th with
  | getData f =>
    simp only [Thread.step] at hs
    cases h : f.step I L c with
    | none => simp [h] at hs
    | some r =>
      obtain ⟨c2, f2⟩ := r
      simp only [h, Option.some.injEq, Prod.mk.injEq] at hs
      obtain ⟨-, rfl⟩ := hs
      exact GetFrame.frameStep_remaining h
  | hitRate f =>
    obtain ⟨pc, cu, tot, re⟩ := f
    cases pc <;> simp only [Thread.step, RateFrame.stepHit] at hs <;> cases hs <;>
      simp [Thread.remaining, RPc.remaining]
  | resetHitRate f =>
    obtain ⟨pc, cu, tot, re⟩ := f
    cases pc <;> simp only [Thread.step, RateFrame.stepReset] at hs <;> cases hs <;>
      simp [Thread.remaining, RPc.remaining]

theorem Sys.step_remaining {I : CrawInterface V A} {L : LruCache V S} {s s1 : Sys V A S}
    {t : Nat} (hs : s.step I L t = some s1) :
    s1.remaining < s.remaining ∧ s1.threads.length = s.threads.length := by
  unfold Sys.step at hs
  cases hth : s.threads[t]? with
  | none => simp [hth] at hs
  | some th =>
    simp only [hth] at hs
    cases h : th.step I L s.shared with
    | none => simp [h] at hs
    | some r =>
      obtain ⟨c1, th1⟩ := r
      simp only [h, Option.some.injEq] at hs
      subst hs
      have := sum_map_set Thread.remaining s.threads t th th1 hth
      have hlt := Thread.threadStep_remaining h
      refine ⟨?_, by simp⟩
      show ((s.threads.set t th1).map Thread.remaining).sum < (s.threads.map Thread.remaining).sum
      omega

theorem Sys.next_of_step {I : CrawInterface V A} {L : LruCache V S} {s s1 : Sys V A S}
    {t : Nat} (hs : s.step I L t = some s1) : s.next I L t = s1 := by
  simp [Sys.next, hs]

/-- A schedule of runnable picks is no longer than the steps that were left. -/
theorem Sys.runnable_length (I : CrawInterface V A) (L : LruCache V S) (sched : List Nat)
    (s : Sys V A S) (h : Sys.runnable I L sched s = true) :
    sched.length + (s.exec I L sched).remaining ≤ s.remaining := by
  induction sched generalizing s with
  | nil => simp [Sys.exec]
  | cons t ts ih =>
    simp only [Sys.runnable] at h
    cases hs : s.step I L t with
    | none => simp [hs] at h
    | some s1 =>
      simp only [hs] at h
      have := ih s1 h
      have h2 := (Sys.step_remaining hs).1
      simp only [Sys.exec, List.foldl_cons, Sys.next_of_step hs, List.length_cons]
      simp only [Sys.exec] at this
      omega

theorem GPc.pcRemaining_le (pc : GPc) : pc.remaining ≤ 15 := by
  cases pc <;> simp [GPc.remaining]

theorem Thread.threadRemaining_le (th : Thread V) : th.remaining ≤ 15 := by
  cases th with
  | getData f => exact GPc.pcRemaining_le f.pc
  | hitRate f => obtain ⟨pc, _, _, _⟩ := f; cases pc <;> simp [Thread.remaining, RPc.remaining]
  | resetHitRate f =>
    obtain ⟨pc, _, _, _⟩ := f; cases pc <;> simp [Thread.remaining, RPc.remaining]

theorem Sys.remaining_le (s : Sys V A S) : s.remaining ≤ 15 * s.threads.length := by
  unfold Sys.remaining
  induction s.threads with
  | nil => simp
  | cons x xs ih =>
    have := Thread.threadRemaining_le x
    simp only [List.map_cons, List.sum_cons, List.length_cons]
    omega

theorem LockOwned.lockStep {I : CrawInterface V A} {L : LruCache V S} {c c1 : Craw V A S}
    {g : Nat → Option (GetFrame V)} {t : Nat} {f f1 : GetFrame V}
    (h : LockOwned c g) (hg : g t = some f) (hs : f.step I L c = some (c1, f1)) :
    LockOwned c1 (Function.update g t (some f1)) := by
  intro hmu
  by_cases hl : f1.pc.holdsLock = true
  · exact ⟨t, f1, by simp, hl⟩
  · have hmu0 : c.mu = true ∧ f.pc.holdsLock = false := by
      obtain ⟨pc, key, data, err, value, expired⟩ := f
      cases pc <;> simp only [GetFrame.step] at hs <;> (try split at hs) <;> cases hs <;>
        simp_all [GPc.holdsLock, Craw.log]
    obtain ⟨t2, f2, hg2, hl2⟩ := h hmu0.1
    have hne : t2 ≠ t := by
      rintro rfl
      rw [hg] at hg2
      cases hg2
      rw [hmu0.2] at hl2
      cases hl2
    exact ⟨t2, f2, by rw [Function.update_noteq hne]; exact hg2, hl2⟩

theorem Waiting.waitStep {I : CrawInterface V A} {L : LruCache V S} {c c1 : Craw V A S}
    {g : Nat → Option (GetFrame V)} {t : Nat} {f f1 : GetFrame V} {t0 p : Nat}
    (h : Waiting t0 p c g) (hg : g t = some f) (hs : f.step I L c = some (c1, f1)) :
    Waiting t0 p c1 (Function.update g t (some f1)) := by
  obtain ⟨f0, hg0, hv, hp⟩ := h
  by_cases ht : t0 = t
  · subst ht
    rw [hg] at hg0
    cases hg0
    refine ⟨f1, by simp, ?_⟩
    obtain ⟨pc, key, data, err, value, expired⟩ := f
    cases pc <;> simp only [GetFrame.step] at hs <;> (try split at hs) <;> cases hs <;>
      simp_all [GPc.waiterPath]
  · exact ⟨f0, by rw [Function.update_noteq ht]; exact hg0, hv, hp⟩

theorem Sys.halted_step {I : CrawInterface V A} {L : LruCache V S} {s : Sys V A S}
    (hh : s.halted I L = true) (t : Nat) : s.step I L t = none := by
  by_cases ht : t < s.threads.length
  · have := List.all_eq_true.mp hh t (List.mem_range.mpr ht)
    simpa using this
  · have : s.threads[t]? = none := List.getElem?_eq_none (by omega)
    simp [Sys.step, this]

theorem Sys.not_halted_step {I : CrawInterface V A} {L : LruCache V S} {s : Sys V A S}
    (hh : s.halted I L = false) : ∃ t s1, s.step I L t = some s1 := by
  by_contra hcon
  have : s.halted I L = true := by
    unfold Sys.halted
    rw [List.all_eq_true]
    intro t _
    cases hst : s.step I L t with
    | none => rfl
    | some s1 => exact absurd ⟨t, s1, hst⟩ hcon
  rw [this] at hh
  cases hh

/-- Deadlock freedom: when no goroutine can move, every call has returned. -/
theorem Sys.halted_finished (I : CrawInterface V A) (L : LruCache V S) (s : Sys V A S)
    (hG : Good s.shared s.frame) (hL : LockOwned s.shared s.frame)
    (hh : s.halted I L = true) : ∀ th ∈ s.threads, th.finished = true := by
  obtain ⟨hI, -, hH, hB⟩ := hG
  have hstep : ∀ t f, s.frame t = some f → f.step I L s.shared = none := by
    intro t f hf
    have h1 := Sys.halted_step hh t
    have hth := Sys.frame_eq_some.mp hf
    simp only [Sys.step, hth, Thread.step] at h1
    cases h2 : f.step I L s.shared with
    | none => rfl
    | some r => simp [h2] at h1
  have hnolock : ∀ t f, s.frame t = some f → f.pc.holdsLock = false := by
    intro t f hf
    have h1 := hstep t f hf
    obtain ⟨pc, key, data, err, value, expired⟩ := f
    cases pc <;> simp only [GetFrame.step] at h1 <;> (try split at h1) <;>
      first | rfl | cases h1
  have hmu : s.shared.mu = false := by
    cases hm : s.shared.mu with
    | false => rfl
    | true =>
      obtain ⟨t, f, hf, hl⟩ := hL hm
      rw [hnolock t f hf] at hl
      cases hl
  have hnb : ∀ t f, s.frame t = some f → f.pc.beforeClose = false := by
    intro t f hf
    have h1 := hstep t f hf
    obtain ⟨pc, key, data, err, value, expired⟩ := f
    cases pc <;> simp only [GetFrame.step, hmu] at h1 <;> (try split at h1) <;>
      simp_all [GPc.beforeClose]
  intro th hmem
  obtain ⟨t, hth⟩ := List.mem_iff_getElem?.mp hmem
  cases th with
  | getData f =>
    have hf : s.frame t = some f := Sys.frame_eq_some.mpr hth
    have h1 := hstep t f hf
    by_cases hw : f.pc = GPc.wait
    · exfalso
      obtain ⟨t0, f0, hf0, hp0, hv0, -⟩ := hB t f hf (by rw [hw]; rfl)
      have hb0 := hnb t0 f0 hf0
      have ha0 : f0.pc.afterClose = true := by
        obtain ⟨pc, key, data, err, value, expired⟩ := f0
        cases pc <;> simp_all [GPc.ownerPath, GPc.beforeClose, GPc.afterClose]
      have hc := hH.isClosed t0 f0 hf0 ha0
      rw [hv0] at hc
      obtain ⟨pc, key, data, err, value, expired⟩ := f
      simp only at hw
      subst hw
      simp [GetFrame.step, hc] at h1
    · obtain ⟨pc, key, data, err, value, expired⟩ := f
      cases pc <;> simp only [GetFrame.step, hmu] at h1 <;> (try split at h1) <;>
        simp_all [Thread.finished, GPc.returned]
  | hitRate f =>
    have h1 := Sys.halted_step hh t
    simp only [Sys.step, hth, Thread.step] at h1
    obtain ⟨pc, cu, tot, re⟩ := f
    cases pc <;> simp only [RateFrame.stepHit] at h1 <;> first | rfl | cases h1
  | resetHitRate f =>
    have h1 := Sys.halted_step hh t
    simp only [Sys.step, hth, Thread.step] at h1
    obtain ⟨pc, cu, tot, re⟩ := f
    cases pc <;> simp only [RateFrame.stepReset] at h1 <;> first | rfl | cases h1

theorem Sys.exec_append (I : CrawInterface V A) (L : LruCache V S) (s : Sys V A S)
    (l1 l2 : List Nat) : s.exec I L (l1 ++ l2) = (s.exec I L l1).exec I L l2 := by
  simp [Sys.exec, List.foldl_append]

theorem Sys.exec_lockOwned (I : CrawInterface V A) (L : LruCache V S) (sched : List Nat)
    (s : Sys V A S) (h : LockOwned s.shared s.frame) :
    LockOwned (s.exec I L sched).shared (s.exec I L sched).frame :=
  Sys.exec_preserves I L LockOwned (fun _ _ _ _ _ _ h hg hs => LockOwned.lockStep h hg hs)
    (fun _ _ _ _ h => h) sched s h

theorem Sys.exec_waiting (I : CrawInterface V A) (L : LruCache V S) (sched : List Nat)
    (s : Sys V A S) (t p : Nat) (h : Waiting t p s.shared s.frame) :
    Waiting t p (s.exec I L sched).shared (s.exec I L sched).frame :=
  Sys.exec_preserves I L (Waiting t p) (fun _ _ _ _ _ _ h hg hs => Waiting.waitStep h hg hs)
    (fun _ _ _ _ h => h) sched s h

/-- Every state has a schedule of runnable picks after which no goroutine can move. -/
theorem Sys.exists_halted (I : CrawInterface V A) (L : LruCache V S) (n : Nat) :
    ∀ s : Sys V A S, s.remaining ≤ n →
      ∃ sched, Sys.runnable I L sched s = true ∧ (s.exec I L sched).halted I L = true := by
  induction n with
  | zero =>
    intro s hs
    cases hh : s.halted I L with
    | true => exact ⟨[], rfl, hh⟩
    | false =>
      obtain ⟨t, s1, hst⟩ := Sys.not_halted_step hh
      have := (Sys.step_remaining hst).1
      omega
  | succ n ih =>
    intro s hs
    cases hh : s.halted I L with
    | true => exact ⟨[], rfl, hh⟩
    | false =>
      obtain ⟨t, s1, hst⟩ := Sys.not_halted_step hh
      have := (Sys.step_remaining hst).1
      obtain ⟨sched, h1, h2⟩ := ih s1 (by omega)
      refine ⟨t :: sched, by simp [Sys.runnable, hst, h1], ?_⟩
      simpa [Sys.exec, Sys.next_of_step hst] using h2

theorem Sys.frame_mem {s : Sys V A S} {t : Nat} {f : GetFrame V} (h : s.frame t = some f) :
    Thread.getData f ∈ s.threads :=
  List.mem_iff_getElem?.mpr ⟨t, Sys.frame_eq_some.mp h⟩

/-- When every call has returned the registry is empty. -/
theorem Sys.finished_registry (s : Sys V A S) (hG : Good s.shared s.frame)
    (hfin : ∀ th ∈ s.threads, th.finished = true) (k : Key) : s.shared.keyMap k = none := by
  cases hk : s.shared.keyMap k with
  | none => rfl
  | some p =>
    obtain ⟨t, f, hf, hfl, -, -⟩ := hG.2.1 k p hk
    have := hfin _ (Sys.frame_mem hf)
    obtain ⟨pc, key, data, err, value, expired⟩ := f
    cases pc <;> simp_all [Thread.finished, GPc.returned, GPc.inFlight]

theorem GPc.doneWaiter_of_returned {pc : GPc} (h1 : pc.waiterPath = true)
    (h2 : pc.returned = true) : pc = GPc.doneWaiter := by
  cases pc <;> simp_all [GPc.waiterPath, GPc.returned]

theorem GPc.doneOwner_of_returned {pc : GPc} (h1 : pc.fetched = true)
    (h2 : pc.returned = true) : pc = GPc.doneOwner := by
  cases pc <;> simp_all [GPc.fetched, GPc.returned]

theorem Sys.Initial.lockOwned {s : Sys V A S} (h : s.Initial) : LockOwned s.shared s.frame := by
  intro hmu
  rw [h.1] at hmu
  cases hmu

/-- C10: (sequential part) on an enabled, quiescent `Craw` with `K` absent from the
store and the registry, if `CustomGet(K)` returns `(d, ttl, e)` with `e` non-nil,
then `GetData(K)` returns `(d, e)`, the only collaborator calls are the store
lookup and `CustomGet` (no `Put`: the store is as the lookup left it), the
registry is as before, without `K`, and a later `GetData(K)` that still misses
the store invokes `CustomGet(K)` again and returns what that call returns.
(Concurrent part) in any interleaving, once a first caller has received
`(d2, ttl2, e2)` with `e2` non-nil from `CustomGet`, every call that returns
through that pending fetch, creator or waiter, returns `(d2, e2)`; the
creator's step at lines 100 to 104 leaves the shared state unchanged; and once
the creator has passed its registry delete the registry no longer holds that
pending fetch.  (Release of the waiters) from every state reached afterwards,
a run that only picks goroutines able to move takes at most 15 steps per
goroutine, and some such run ends in a state where no goroutine can move; in
every state where no goroutine can move all calls have returned, the creator
has returned `(d2, e2)`, the registry is empty, and every call that was waiting
on that pending fetch has returned `(d2, e2)` from line 115. -/
theorem C10_failed_fetch (I : CrawInterface V A) (L : LruCache V S) (c : Craw V A S)
    (key : Key) (d : Option V) (ttl : Duration) (e : Err) (a1 : A)
    (he : c.enable = true) (hmu : c.mu = false) (hk : c.keyMap key = none)
    (hmiss : (L.GetEx c.craw key).1.2 = false)
    (hget : I.CustomGet c.dispose key = ((d, ttl, some e), a1))
    (s0 : Sys V A S) (h0 : s0.Initial) (sched : List Nat) (t : Nat) (f : GetFrame V)
    (d2 : Option V) (ttl2 : Duration) (e2 : Err) (a2 : A)
    (hf : (s0.exec I L sched).frame t = some f) (hpc : f.pc = GPc.customGet)
    (hget2 : I.CustomGet (s0.exec I L sched).shared.dispose f.key = ((d2, ttl2, some e2), a2)) :
    (∃ c1, GetData I L c key = some ((d, some e), c1) ∧
      c1.craw = (L.GetEx c.craw key).2 ∧
      c1.calls = c.calls ++ [Call.cacheGetEx key, Call.customGet key] ∧
      c1.keyMap = c.keyMap ∧ c1.keyMap key = none ∧ c1.dispose = a1 ∧
      ((L.GetEx c1.craw key).1.2 = false →
        ∃ c2, GetData I L c1 key =
            some (((I.CustomGet a1 key).1.1, (I.CustomGet a1 key).1.2.2), c2) ∧
          (c2.calls.drop c1.calls.length).take 2 =
            [Call.cacheGetEx key, Call.customGet key])) ∧
    (∀ sched2 : List Nat,
      (∀ t2 f2, (((s0.exec I L sched).next I L t).exec I L sched2).frame t2 = some f2 →
        f2.pc.returnedFetch = true → f2.value = f.value →
        f2.data = d2 ∧ f2.err = some e2) ∧
      (∀ f2, (((s0.exec I L sched).next I L t).exec I L sched2).frame t = some f2 →
        f2.pc = GPc.put →
        ((((s0.exec I L sched).next I L t).exec I L sched2).next I L t).shared =
          (((s0.exec I L sched).next I L t).exec I L sched2).shared) ∧
      (∀ f2, (((s0.exec I L sched).next I L t).exec I L sched2).frame t = some f2 →
        f2.pc.inFlight = false →
        (((s0.exec I L sched).next I L t).exec I L sched2).shared.keyMap f.key
          ≠ some f.value) ∧
      (∀ sched3 : List Nat,
        Sys.runnable I L sched3 (((s0.exec I L sched).next I L t).exec I L sched2) = true →
        sched3.length ≤ 15 * s0.threads.length) ∧
      (∃ sched3 : List Nat,
        Sys.runnable I L sched3 (((s0.exec I L sched).next I L t).exec I L sched2) = true ∧
        ((((s0.exec I L sched).next I L t).exec I L sched2).exec I L sched3).halted I L = true) ∧
      ((((s0.exec I L sched).next I L t).exec I L sched2).halted I L = true →
        (∀ th ∈ (((s0.exec I L sched).next I L t).exec I L sched2).threads,
          th.finished = true) ∧
        (∃ f3, (((s0.exec I L sched).next I L t).exec I L sched2).frame t = some f3 ∧
          f3.pc = GPc.doneOwner ∧ f3.data = d2 ∧ f3.err = some e2) ∧
        (∀ k, (((s0.exec I L sched).next I L t).exec I L sched2).shared.keyMap k = none)) ∧
      (∀ t2 f2, (((s0.exec I L sched).next I L t).exec I L sched2).frame t2 = some f2 →
        f2.pc.waiterPath = true → f2.value = f.value →
        ∀ sched3 : List Nat,
          ((((s0.exec I L sched).next I L t).exec I L sched2).exec I L sched3).halted I L = true →
          ∃ f3, ((((s0.exec I L sched).next I L t).exec I L sched2).exec I L sched3).frame t2 =
              some f3 ∧
            f3.pc = GPc.doneWaiter ∧ f3.value = f.value ∧ f3.data = d2 ∧ f3.err = some e2)) := by
  constructor
  · obtain ⟨c1, h1, hd, hkm, hcraw, hen, hmu1, -, -, -, hcalls⟩ :=
      getData_miss I L c key he hmiss hmu hk
    simp only [hget] at h1 hd hcraw hcalls
    simp only [reduceCtorEq, if_false, List.append_nil] at hcraw hcalls
    refine ⟨c1, h1, hcraw, hcalls, hkm, by rw [hkm, hk], hd, ?_⟩
    intro hmiss2
    obtain ⟨c2, h2, -, -, -, -, -, -, -, -, hcalls2⟩ :=
      getData_miss I L c1 key hen hmiss2 hmu1 (by rw [hkm, hk])
    rw [hd] at h2
    refine ⟨c2, h2, ?_⟩
    rw [hcalls2, List.append_assoc, List.drop_left]
    simp
  · intro sched2
    have hG0 := Sys.exec_inv I L sched s0 h0.inv
    have hG1 : Good ((s0.exec I L sched).next I L t).shared
        ((s0.exec I L sched).next I L t).frame :=
      Sys.exec_inv I L [t] (s0.exec I L sched) hG0
    have hL1 : LockOwned ((s0.exec I L sched).next I L t).shared
        ((s0.exec I L sched).next I L t).frame :=
      Sys.exec_lockOwned I L [t] (s0.exec I L sched) (Sys.exec_lockOwned I L sched s0 h0.lockOwned)
    obtain ⟨hdat, herr, -, -, f1, hf1, hv1, hk1, hp1⟩ :=
      Sys.next_customGet I L (s0.exec I L sched) t f hf hpc
    rw [hget2] at hdat herr
    have hF1 : Fetched t f.value f.key d2 (some e2) ((s0.exec I L sched).next I L t).shared
        ((s0.exec I L sched).next I L t).frame :=
      ⟨hdat, herr, f1, hf1, hv1, hk1, by rw [hp1]; rfl⟩
    have hlen : ∀ l (s : Sys V A S), (s.exec I L l).threads.length = s.threads.length := by
      intro l
      induction l with
      | nil => intro s; rfl
      | cons x xs ih =>
        intro s
        simp only [Sys.exec, List.foldl_cons]
        have := ih (s.next I L x)
        simp only [Sys.exec] at this
        rw [this]
        unfold Sys.next
        cases hst : s.step I L x with
        | none => rfl
        | some s1 => exact (Sys.step_remaining hst).2
    have hG2 := Sys.exec_fetched I L _ t f.value f.key d2 (some e2) hG1 hF1 sched2
    have hL2 := Sys.exec_lockOwned I L sched2 _ hL1
    obtain ⟨⟨hI, hO, hH, hB⟩, hdat2, herr2, f3, hf3, hv3, hk3, hp3⟩ := hG2
    refine ⟨?_, ?_, ?_, ?_, ?_, ?_, ?_⟩
    · intro t2 f2 hf2 hp2 hv2
      have := hH.result t2 f2 hf2 hp2
      rw [hv2, hdat2, herr2] at this
      exact ⟨this.1.symm, this.2.symm⟩
    · intro f2 hf2 hp2
      rw [hf3] at hf2
      cases hf2
      apply Sys.next_put_failed I L _ t f3 hf3 hp2
      rw [hv3, herr2]
      simp
    · intro f2 hf2 hp2 hkm
      rw [hf3] at hf2
      cases hf2
      obtain ⟨t4, f4, hf4, hfl4, hk4, hv4⟩ := hO f.key f.value hkm
      have := hI.ownerUnique t4 t f4 f3 hf4 hf3 (GPc.ownerPath_of_inFlight hfl4)
        (GPc.ownerPath_of_fetched hp3) (hv4.trans hv3.symm)
      subst this
      rw [hf3] at hf4
      cases hf4
      rw [hp2] at hfl4
      cases hfl4
    · intro sched3 hr
      have h1 := Sys.runnable_length I L sched3 _ hr
      have h2 := Sys.remaining_le (((s0.exec I L sched).next I L t).exec I L sched2)
      have h3 : (((s0.exec I L sched).next I L t).exec I L sched2).threads.length =
          s0.threads.length := by
        rw [hlen sched2, ← hlen sched s0]
        exact hlen [t] (s0.exec I L sched)
      rw [h3] at h2
      omega
    · exact Sys.exists_halted I L _ _ (le_refl _)
    · intro hh
      have hfin := Sys.halted_finished I L _ ⟨hI, hO, hH, hB⟩ hL2 hh
      refine ⟨hfin, ⟨f3, hf3, ?_, ?_⟩, Sys.finished_registry _ ⟨hI, hO, hH, hB⟩ hfin⟩
      · exact GPc.doneOwner_of_returned hp3 (hfin _ (Sys.frame_mem hf3))
      · have hdone := GPc.doneOwner_of_returned hp3 (hfin _ (Sys.frame_mem hf3))
        have := hH.result t f3 hf3 (by rw [hdone]; rfl)
        rw [hv3, hdat2, herr2] at this
        exact ⟨this.1.symm, this.2.symm⟩
    · intro t2 f2 hf2 hw2 hv2 sched3 hh
      have hG3 := Sys.exec_fetched I L _ t f.value f.key d2 (some e2) hG1 hF1 (sched2 ++ sched3)
      rw [Sys.exec_append] at hG3
      have hL3 := Sys.exec_lockOwned I L sched3 _ hL2
      obtain ⟨f4, hf4, hv4, hw4⟩ :=
        Sys.exec_waiting I L sched3 _ t2 f.value ⟨f2, hf2, hv2, hw2⟩
      obtain ⟨hGood3, hdat3, herr3, -⟩ := hG3
      have hfin := Sys.halted_finished I L _ hGood3 hL3 hh
      have hdone := GPc.doneWaiter_of_returned hw4 (hfin _ (Sys.frame_mem hf4))
      have := hGood3.2.2.1.result t2 f4 hf4 (by rw [hdone]; rfl)
      rw [hv4, hdat3, herr3] at this
      exact ⟨f4, hf4, hdone, hv4, this.1.symm, this.2.symm⟩

theorem C10_failed_fetch_witness :
    (∃ c1, GetData offlineSource mapStore (NewCraw offlineSource () emptyStore) "k" =
        some ((none, some "source unavailable"), c1) ∧
      c1.calls = [Call.adapterInit] ++ [Call.cacheGetEx "k", Call.customGet "k"] ∧
      c1.keyMap "k" = none) ∧
    ((Sys.exec offlineSource mapStore waitingSchedule offlineGetters).next
        offlineSource mapStore 0).frame 1 = some offlineBlockedFrame ∧
    Sys.halted offlineSource mapStore
      (((Sys.exec offlineSource mapStore waitingSchedule offlineGetters).next
        offlineSource mapStore 0).exec offlineSource mapStore offlineRest) = true ∧
    (((Sys.exec offlineSource mapStore waitingSchedule offlineGetters).next
        offlineSource mapStore 0).exec offlineSource mapStore offlineRest).frame 1 =
      some offlineWaiterFrame ∧
    (∃ f3, (((Sys.exec offlineSource mapStore waitingSchedule offlineGetters).next
          offlineSource mapStore 0).exec offlineSource mapStore offlineRest).frame 1 = some f3 ∧
      f3.pc = GPc.doneWaiter ∧ f3.value = 0 ∧ f3.data = none ∧
      f3.err = some "source unavailable") ∧
    (∃ f3, (((Sys.exec offlineSource mapStore waitingSchedule offlineGetters).next
          offlineSource mapStore 0).exec offlineSource mapStore offlineRest).frame 0 = some f3 ∧
      f3.pc = GPc.doneOwner ∧ f3.data = none ∧ f3.err = some "source unavailable") := by
  have h := C10_failed_fetch offlineSource mapStore (NewCraw offlineSource () emptyStore) "k"
    none 0 "source unavailable" () rfl rfl rfl rfl rfl
    offlineGetters ⟨rfl, fun _ => rfl, by decide, by decide, by decide⟩ waitingSchedule 0
    offlineOwnerFrame none 0 "source unavailable" () rfl rfl rfl
  obtain ⟨c1, h1, -, h3, -, h5, -⟩ := h.1
  exact ⟨⟨c1, h1, h3, h5⟩, rfl, rfl, rfl,
    (h.2 []).2.2.2.2.2.2 1 offlineBlockedFrame rfl rfl rfl offlineRest rfl,
    ((h.2 offlineRest).2.2.2.2.2.1 rfl).2.1⟩

/-! ### The `float64` arithmetic of the hit rate -/

theorem roundNearestEven_eq (x : ℚ) (hx : 0 < x) :
    roundNearestEven x =
      (nearestEven (x / (2 : ℚ) ^ (Int.log 2 x - 52)) : ℚ) * (2 : ℚ) ^ (Int.log 2 x - 52) := by
  unfold roundNearestEven
  rw [if_neg (not_le.mpr hx)]

theorem nearestEven_le (y : ℚ) : ((nearestEven y : ℤ) : ℚ) ≤ y + 1 / 2 := by
  unfold nearestEven
  have h1 := Int.floor_le y
  have h2 := Int.lt_floor_add_one y
  split_ifs <;> push_cast <;> linarith

theorem nearestEven_ge (y : ℚ) : y - 1 / 2 ≤ ((nearestEven y : ℤ) : ℚ) := by
  unfold nearestEven
  have h1 := Int.floor_le y
  have h2 := Int.lt_floor_add_one y
  split_ifs <;> push_cast <;> linarith

/-- An integer strictly within one half of `y` is the rounding of `y`. -/
theorem nearestEven_eq_of_close (y : ℚ) (m : ℤ) (h1 : (m : ℚ) - 1 / 2 < y)
    (h2 : y < (m : ℚ) + 1 / 2) : nearestEven y = m := by
  have hle := nearestEven_le y
  have hge := nearestEven_ge y
  have a : ((nearestEven y : ℤ) : ℚ) < (m : ℚ) + 1 := by linarith
  have b : (m : ℚ) - 1 < ((nearestEven y : ℤ) : ℚ) := by linarith
  have a1 : nearestEven y < m + 1 := by exact_mod_cast a
  have b1 : m - 1 < nearestEven y := by exact_mod_cast b
  omega

theorem two_zpow_log_le (x : ℚ) (hx : 0 < x) : (2 : ℚ) ^ Int.log 2 x ≤ x := by
  have := Int.zpow_log_le_self (b := 2) (r := x) (by norm_num) hx
  simpa using this

theorem lt_two_zpow_log_succ (x : ℚ) : x < (2 : ℚ) ^ (Int.log 2 x + 1) := by
  have := Int.lt_zpow_succ_log_self (b := 2) (by norm_num) x
  simpa using this

theorem log_two_eq (x : ℚ) (k : ℤ) (hx : 0 < x) (h1 : (2 : ℚ) ^ k ≤ x)
    (h2 : x < (2 : ℚ) ^ (k + 1)) : Int.log 2 x = k := by
  have a : k ≤ Int.log 2 x := by
    apply (Int.zpow_le_iff_le_log (b := 2) (by norm_num) hx).mp
    simpa using h1
  have b : Int.log 2 x < k + 1 := by
    apply (Int.lt_zpow_iff_log_lt (b := 2) (by norm_num) hx).mp
    simpa using h2
  omega

/-- The rounding error is at most `x / 2^53`. -/
theorem roundNearestEven_bounds (x : ℚ) (hx : 0 < x) :
    x * (1 - 1 / 2 ^ 53) ≤ roundNearestEven x ∧ roundNearestEven x ≤ x * (1 + 1 / 2 ^ 53) := by
  rw [roundNearestEven_eq x hx]
  set e : ℤ := Int.log 2 x - 52 with he
  have hpos : (0 : ℚ) < (2 : ℚ) ^ e := by positivity
  have hle := nearestEven_le (x / (2 : ℚ) ^ e)
  have hge := nearestEven_ge (x / (2 : ℚ) ^ e)
  have hlog := two_zpow_log_le x hx
  have hsplit : (2 : ℚ) ^ Int.log 2 x = (2 : ℚ) ^ e * 2 ^ 52 := by
    have : Int.log 2 x = e + 52 := by omega
    rw [this, zpow_add₀ (by norm_num : (2 : ℚ) ≠ 0)]
    norm_num
  rw [hsplit] at hlog
  have hxe : x / (2 : ℚ) ^ e * (2 : ℚ) ^ e = x := by field_simp
  constructor
  · have := mul_le_mul_of_nonneg_right hge hpos.le
    rw [sub_mul, hxe] at this
    nlinarith
  · have := mul_le_mul_of_nonneg_right hle hpos.le
    rw [add_mul, hxe] at this
    nlinarith

/-- A value given with its binade and an integer strictly within half a unit in
the last place. -/
theorem roundNearestEven_eq_of_close (x : ℚ) (e m : ℤ) (hx : 0 < x)
    (hlo : (2 : ℚ) ^ (e + 52) ≤ x) (hhi : x < (2 : ℚ) ^ (e + 52 + 1))
    (h1 : ((m : ℚ) - 1 / 2) * (2 : ℚ) ^ e < x) (h2 : x < ((m : ℚ) + 1 / 2) * (2 : ℚ) ^ e) :
    roundNearestEven x = (m : ℚ) * (2 : ℚ) ^ e := by
  have hlog := log_two_eq x (e + 52) hx hlo hhi
  rw [roundNearestEven_eq x hx, hlog]
  have he : e + 52 - 52 = e := by omega
  rw [he]
  have hpos : (0 : ℚ) < (2 : ℚ) ^ e := by positivity
  rw [nearestEven_eq_of_close (x / (2 : ℚ) ^ e) m]
  · rw [lt_div_iff₀ hpos]; exact h1
  · rw [div_lt_iff₀ hpos]; exact h2


theorem roundNearestEven_pos (x : ℚ) (hx : 0 < x) : 0 < roundNearestEven x := by
  have h := (roundNearestEven_bounds x hx).1
  have : 0 < x * (1 - 1 / 2 ^ 53) := by
    apply mul_pos hx
    norm_num
  linarith

theorem roundNearestEven_zero : roundNearestEven 0 = 0 := by
  simp [roundNearestEven]

/-- Integers below `2^53` are represented exactly. -/
theorem roundNearestEven_natCast (n : ℕ) (hn : n < 2 ^ 53) : roundNearestEven (n : ℚ) = n := by
  rcases Nat.eq_zero_or_pos n with h0 | hpos
  · subst h0; simp [roundNearestEven]
  have hx : (0 : ℚ) < n := by exact_mod_cast hpos
  rw [roundNearestEven_eq _ hx]
  have hlt : Int.log 2 (n : ℚ) < 53 := by
    apply (Int.lt_zpow_iff_log_lt (b := 2) (by norm_num) hx).mp
    have h : (n : ℚ) < 2 ^ 53 := by exact_mod_cast hn
    norm_num at h ⊢
    exact h
  obtain ⟨j, hj⟩ := Int.exists_eq_neg_ofNat (show Int.log 2 (n : ℚ) - 52 ≤ 0 by omega)
  rw [hj]
  have h2 : (2 : ℚ) ^ (-(j : ℤ)) = ((2 : ℚ) ^ j)⁻¹ := by
    rw [zpow_neg, zpow_natCast]
  have hy : (n : ℚ) / (2 : ℚ) ^ (-(j : ℤ)) = ((n * 2 ^ j : ℕ) : ℚ) := by
    rw [h2]; push_cast; field_simp
  rw [hy, nearestEven_eq_of_close _ ((n * 2 ^ j : ℕ) : ℤ) (by push_cast; linarith)
    (by push_cast; linarith), h2]
  push_cast
  field_simp

/-- The error of the whole expression `float64(a) / float64(b) * 100`. -/
theorem rate_bounds (a b : ℕ) (ha : 0 < a) (hb : 0 < b) :
    (a : ℚ) / b * 100 * (1 - 1 / 2 ^ 50) ≤
        f64Mul (f64Div (f64OfUint64 a) (f64OfUint64 b)) 100 ∧
      f64Mul (f64Div (f64OfUint64 a) (f64OfUint64 b)) 100 ≤
        (a : ℚ) / b * 100 * (1 + 1 / 2 ^ 50) := by
  unfold f64Mul f64Div f64OfUint64
  have hA0 : (0 : ℚ) < a := by exact_mod_cast ha
  have hB0 : (0 : ℚ) < b := by exact_mod_cast hb
  obtain ⟨hA1, hA2⟩ := roundNearestEven_bounds (a : ℚ) hA0
  obtain ⟨hB1, hB2⟩ := roundNearestEven_bounds (b : ℚ) hB0
  have hA := roundNearestEven_pos _ hA0
  have hB := roundNearestEven_pos _ hB0
  set A := roundNearestEven (a : ℚ)
  set B := roundNearestEven (b : ℚ)
  have hq0 : 0 < A / B := div_pos hA hB
  obtain ⟨hQ1, hQ2⟩ := roundNearestEven_bounds (A / B) hq0
  have hQ := roundNearestEven_pos _ hq0
  set Q := roundNearestEven (A / B)
  have hr0 : 0 < Q * 100 := by positivity
  obtain ⟨hR1, hR2⟩ := roundNearestEven_bounds (Q * 100) hr0
  set R := roundNearestEven (Q * 100)
  have hx0 : (0 : ℚ) < a / b := div_pos hA0 hB0
  -- quotient of the two converted counters
  have hlo : (0 : ℚ) < 1 - 1 / 2 ^ 53 := by norm_num
  have hhi : (0 : ℚ) < 1 + 1 / 2 ^ 53 := by norm_num
  have hAB2 : A / B ≤ (a : ℚ) / b * ((1 + 1 / 2 ^ 53) / (1 - 1 / 2 ^ 53)) := by
    have : A / B ≤ ((a : ℚ) * (1 + 1 / 2 ^ 53)) / ((b : ℚ) * (1 - 1 / 2 ^ 53)) :=
      div_le_div₀ (by positivity) hA2 (by positivity) hB1
    calc A / B ≤ ((a : ℚ) * (1 + 1 / 2 ^ 53)) / ((b : ℚ) * (1 - 1 / 2 ^ 53)) := this
      _ = (a : ℚ) / b * ((1 + 1 / 2 ^ 53) / (1 - 1 / 2 ^ 53)) := by
        rw [mul_div_mul_comm]
  have hAB1 : (a : ℚ) / b * ((1 - 1 / 2 ^ 53) / (1 + 1 / 2 ^ 53)) ≤ A / B := by
    have : ((a : ℚ) * (1 - 1 / 2 ^ 53)) / ((b : ℚ) * (1 + 1 / 2 ^ 53)) ≤ A / B :=
      div_le_div₀ hA.le hA1 hB hB2
    calc (a : ℚ) / b * ((1 - 1 / 2 ^ 53) / (1 + 1 / 2 ^ 53))
        = ((a : ℚ) * (1 - 1 / 2 ^ 53)) / ((b : ℚ) * (1 + 1 / 2 ^ 53)) := by
          rw [mul_div_mul_comm]
      _ ≤ A / B := this
  constructor
  · calc (a : ℚ) / b * 100 * (1 - 1 / 2 ^ 50)
        ≤ (a : ℚ) / b * 100 *
            ((1 - 1 / 2 ^ 53) / (1 + 1 / 2 ^ 53) * (1 - 1 / 2 ^ 53) * (1 - 1 / 2 ^ 53)) := by
          apply mul_le_mul_of_nonneg_left _ (by positivity)
          norm_num
      _ = (a : ℚ) / b * ((1 - 1 / 2 ^ 53) / (1 + 1 / 2 ^ 53)) * (1 - 1 / 2 ^ 53) * 100 *
            (1 - 1 / 2 ^ 53) := by ring
      _ ≤ A / B * (1 - 1 / 2 ^ 53) * 100 * (1 - 1 / 2 ^ 53) := by
          gcongr
      _ ≤ Q * 100 * (1 - 1 / 2 ^ 53) := by
          gcongr
      _ ≤ R := hR1
  · calc R ≤ Q * 100 * (1 + 1 / 2 ^ 53) := hR2
      _ ≤ A / B * (1 + 1 / 2 ^ 53) * 100 * (1 + 1 / 2 ^ 53) := by
          gcongr
      _ ≤ (a : ℚ) / b * ((1 + 1 / 2 ^ 53) / (1 - 1 / 2 ^ 53)) * (1 + 1 / 2 ^ 53) * 100 *
            (1 + 1 / 2 ^ 53) := by
          gcongr
      _ = (a : ℚ) / b * 100 *
            ((1 + 1 / 2 ^ 53) / (1 - 1 / 2 ^ 53) * (1 + 1 / 2 ^ 53) * (1 + 1 / 2 ^ 53)) := by
          ring
      _ ≤ (a : ℚ) / b * 100 * (1 + 1 / 2 ^ 50) := by
          apply mul_le_mul_of_nonneg_left _ (by positivity)
          norm_num

/-- The eleven rates of the hit-rate sample: a hit ratio of `h / 10` is reported
as exactly `10 * h`. -/
theorem rate_tenths (h : ℕ) (hh : h ≤ 10) :
    roundNearestEven (roundNearestEven ((h : ℚ) / 10) * 100) = 10 * (h : ℚ) := by
  interval_cases h
  · simp [roundNearestEven]
  · have h1 : roundNearestEven (((1 : ℕ) : ℚ) / 10) = (7205759403792794 : ℤ) * (2 : ℚ) ^ (-56 : ℤ) :=
      roundNearestEven_eq_of_close _ (-56) 7205759403792794 (by norm_num) (by norm_num) (by norm_num)
        (by norm_num) (by norm_num)
    rw [h1]
    have h2 := roundNearestEven_eq_of_close ((7205759403792794 : ℤ) * (2 : ℚ) ^ (-56 : ℤ) * 100) (-49)
      5629499534213120 (by norm_num) (by norm_num) (by norm_num) (by norm_num) (by norm_num)
    rw [h2]
    norm_num
  · have h1 : roundNearestEven (((2 : ℕ) : ℚ) / 10) = (7205759403792794 : ℤ) * (2 : ℚ) ^ (-55 : ℤ) :=
      roundNearestEven_eq_of_close _ (-55) 7205759403792794 (by norm_num) (by norm_num) (by norm_num)
        (by norm_num) (by norm_num)
    rw [h1]
    have h2 := roundNearestEven_eq_of_close ((7205759403792794 : ℤ) * (2 : ℚ) ^ (-55 : ℤ) * 100) (-48)
      5629499534213120 (by norm_num) (by norm_num) (by norm_num) (by norm_num) (by norm_num)
    rw [h2]
    norm_num
  · have h1 : roundNearestEven (((3 : ℕ) : ℚ) / 10) = (5404319552844595 : ℤ) * (2 : ℚ) ^ (-54 : ℤ) :=
      roundNearestEven_eq_of_close _ (-54) 5404319552844595 (by norm_num) (by norm_num) (by norm_num)
        (by norm_num) (by norm_num)
    rw [h1]
    have h2 := roundNearestEven_eq_of_close ((5404319552844595 : ℤ) * (2 : ℚ) ^ (-54 : ℤ) * 100) (-48)
      8444249301319680 (by norm_num) (by norm_num) (by norm_num) (by norm_num) (by norm_num)
    rw [h2]
    norm_num
  · have h1 : roundNearestEven (((4 : ℕ) : ℚ) / 10) = (7205759403792794 : ℤ) * (2 : ℚ) ^ (-54 : ℤ) :=
      roundNearestEven_eq_of_close _ (-54) 7205759403792794 (by norm_num) (by norm_num) (by norm_num)
        (by norm_num) (by norm_num)
    rw [h1]
    have h2 := roundNearestEven_eq_of_close ((7205759403792794 : ℤ) * (2 : ℚ) ^ (-54 : ℤ) * 100) (-47)
      5629499534213120 (by norm_num) (by norm_num) (by norm_num) (by norm_num) (by norm_num)
    rw [h2]
    norm_num
  · have h1 : roundNearestEven (((5 : ℕ) : ℚ) / 10) = (4503599627370496 : ℤ) * (2 : ℚ) ^ (-53 : ℤ) :=
      roundNearestEven_eq_of_close _ (-53) 4503599627370496 (by norm_num) (by norm_num) (by norm_num)
        (by norm_num) (by norm_num)
    rw [h1]
    have h2 := roundNearestEven_eq_of_close ((4503599627370496 : ℤ) * (2 : ℚ) ^ (-53 : ℤ) * 100) (-47)
      7036874417766400 (by norm_num) (by norm_num) (by norm_num) (by norm_num) (by norm_num)
    rw [h2]
    norm_num
  · have h1 : roundNearestEven (((6 : ℕ) : ℚ) / 10) = (5404319552844595 : ℤ) * (2 : ℚ) ^ (-53 : ℤ) :=
      roundNearestEven_eq_of_close _ (-53) 5404319552844595 (by norm_num) (by norm_num) (by norm_num)
        (by norm_num) (by norm_num)
    rw [h1]
    have h2 := roundNearestEven_eq_of_close ((5404319552844595 : ℤ) * (2 : ℚ) ^ (-53 : ℤ) * 100) (-47)
      8444249301319680 (by norm_num) (by norm_num) (by norm_num) (by norm_num) (by norm_num)
    rw [h2]
    norm_num
  · have h1 : roundNearestEven (((7 : ℕ) : ℚ) / 10) = (6305039478318694 : ℤ) * (2 : ℚ) ^ (-53 : ℤ) :=
      roundNearestEven_eq_of_close _ (-53) 6305039478318694 (by norm_num) (by norm_num) (by norm_num)
        (by norm_num) (by norm_num)
    rw [h1]
    have h2 := roundNearestEven_eq_of_close ((6305039478318694 : ℤ) * (2 : ℚ) ^ (-53 : ℤ) * 100) (-46)
      4925812092436480 (by norm_num) (by norm_num) (by norm_num) (by norm_num) (by norm_num)
    rw [h2]
    norm_num
  · have h1 : roundNearestEven (((8 : ℕ) : ℚ) / 10) = (7205759403792794 : ℤ) * (2 : ℚ) ^ (-53 : ℤ) :=
      roundNearestEven_eq_of_close _ (-53) 7205759403792794 (by norm_num) (by norm_num) (by norm_num)
        (by norm_num) (by norm_num)
    rw [h1]
    have h2 := roundNearestEven_eq_of_close ((7205759403792794 : ℤ) * (2 : ℚ) ^ (-53 : ℤ) * 100) (-46)
      5629499534213120 (by norm_num) (by norm_num) (by norm_num) (by norm_num) (by norm_num)
    rw [h2]
    norm_num
  · have h1 : roundNearestEven (((9 : ℕ) : ℚ) / 10) = (8106479329266893 : ℤ) * (2 : ℚ) ^ (-53 : ℤ) :=
      roundNearestEven_eq_of_close _ (-53) 8106479329266893 (by norm_num) (by norm_num) (by norm_num)
        (by norm_num) (by norm_num)
    rw [h1]
    have h2 := roundNearestEven_eq_of_close ((8106479329266893 : ℤ) * (2 : ℚ) ^ (-53 : ℤ) * 100) (-46)
      6333186975989760 (by norm_num) (by norm_num) (by norm_num) (by norm_num) (by norm_num)
    rw [h2]
    norm_num
  · have h1 : roundNearestEven (((10 : ℕ) : ℚ) / 10) = (4503599627370496 : ℤ) * (2 : ℚ) ^ (-52 : ℤ) :=
      roundNearestEven_eq_of_close _ (-52) 4503599627370496 (by norm_num) (by norm_num) (by norm_num)
        (by norm_num) (by norm_num)
    rw [h1]
    have h2 := roundNearestEven_eq_of_close ((4503599627370496 : ℤ) * (2 : ℚ) ^ (-52 : ℤ) * 100) (-46)
      7036874417766400 (by norm_num) (by norm_num) (by norm_num) (by norm_num) (by norm_num)
    rw [h2]
    norm_num

/-! ### Sequential runs and the hit rate -/

theorem addU64_add_mod (t m : Nat) : (addU64 t + m) % u64 = (t + (m + 1)) % u64 := by
  unfold addU64
  rw [Nat.add_mod, Nat.mod_mod, ← Nat.add_mod]
  congr 1
  omega

theorem addU64_lt (t : Nat) : addU64 t < u64 :=
  Nat.mod_lt _ (by unfold u64; positivity)

/-- A sequential run returns, and the counters count its `GetData` calls and
their misses (as `uint64`). -/
theorem runOps_counts (I : CrawInterface V A) (L : LruCache V S) (ops : List (SeqOp V))
    (c : Craw V A S) (hq : c.Quiescent) (ht : c.totalAccess < u64)
    (hs : c.staggerAccess < u64) :
    ∃ c1 C, runOps I L ops c = some (c1, ops.countP SeqOp.isGetData, C) ∧
      C ≤ ops.countP SeqOp.isGetData ∧ c1.Quiescent ∧
      c1.totalAccess = (c.totalAccess + ops.countP SeqOp.isGetData) % u64 ∧
      c1.staggerAccess = (c.staggerAccess + C) % u64 := by
  induction ops generalizing c with
  | nil =>
    exact ⟨c, 0, rfl, le_refl _, hq, (Nat.mod_eq_of_lt ht).symm, (Nat.mod_eq_of_lt hs).symm⟩
  | cons op ops ih =>
    obtain ⟨he, hmu, hk⟩ := hq
    cases op with
    | setCraw key data expired =>
      have hq1 : (SetCraw L c key data expired).2.Quiescent := by
        simp [SetCraw, he, Craw.log, Craw.Quiescent, hmu, hk]
      obtain ⟨c1, C, h1, h2, h3, h4, h5⟩ := ih _ hq1
        (by simpa [SetCraw, he, Craw.log] using ht) (by simpa [SetCraw, he, Craw.log] using hs)
      refine ⟨c1, C, ?_, ?_, h3, ?_, ?_⟩
      · simpa [runOps, SeqOp.isGetData] using h1
      · simpa [SeqOp.isGetData] using h2
      · simpa [SeqOp.isGetData, SetCraw, he, Craw.log] using h4
      · simpa [SetCraw, he, Craw.log] using h5
    | getData key =>
      have hcount : (SeqOp.getData key :: ops).countP SeqOp.isGetData =
          ops.countP SeqOp.isGetData + 1 := by
        simp [List.countP_cons, SeqOp.isGetData]
      rw [hcount]
      cases hx : (L.GetEx c.craw key).1.2 with
      | true =>
        have hg := getData_hit I L c key he hx
        obtain ⟨c1, C, h1, h2, h3, h4, h5⟩ :=
          ih { c with
            totalAccess := addU64 c.totalAccess
            craw := (L.GetEx c.craw key).2
            calls := c.calls ++ [Call.cacheGetEx key] } ⟨he, hmu, hk⟩ (addU64_lt _) hs
        simp only at h4 h5
        rw [addU64_add_mod] at h4
        refine ⟨c1, C, ?_, by omega, h3, h4, h5⟩
        simp [runOps, hg, h1, hx]
      | false =>
        obtain ⟨c2, hg, -, hkm, -, hen, hmu2, htot, hst, -, -⟩ :=
          getData_miss I L c key he hx hmu (hk key)
        obtain ⟨c1, C, h1, h2, h3, h4, h5⟩ :=
          ih c2 ⟨hen, hmu2, by intro k; rw [hkm]; exact hk k⟩
            (by rw [htot]; exact addU64_lt _) (by rw [hst]; exact addU64_lt _)
        rw [htot, addU64_add_mod] at h4
        rw [hst, addU64_add_mod] at h5
        refine ⟨c1, C + 1, ?_, by omega, h3, h4, h5⟩
        simp [runOps, hg, h1, hx]

theorem digitChar_toNat (k : Nat) (hk : k < 10) : (Nat.digitChar k).toNat - 48 = k := by
  interval_cases k <;> rfl

theorem toDigitsCore_decimalValue (fuel n : Nat) (ds : List Char) (h : n < fuel) :
    decimalValue (Nat.toDigitsCore 10 fuel n ds) = n * 10 ^ ds.length + decimalValue ds := by
  induction fuel generalizing n ds with
  | zero => omega
  | succ fuel ih =>
    unfold Nat.toDigitsCore
    simp only
    by_cases h0 : n / 10 = 0
    · rw [if_pos h0]
      simp only [decimalValue]
      rw [digitChar_toNat _ (Nat.mod_lt _ (by norm_num))]
      have : n % 10 = n := Nat.mod_eq_of_lt (by omega)
      rw [this]
    · rw [if_neg h0, ih (n / 10) _ (by omega)]
      simp only [decimalValue, List.length_cons]
      rw [digitChar_toNat _ (Nat.mod_lt _ (by norm_num))]
      have hdm := Nat.div_add_mod n 10
      generalize n / 10 = a at hdm ⊢
      generalize n % 10 = b at hdm ⊢
      subst hdm
      ring

theorem decimalValue_repr (n : Nat) : decimalValue (Nat.repr n).data = n := by
  unfold Nat.repr Nat.toDigits
  simp only [List.asString]
  rw [toDigitsCore_decimalValue _ _ _ (by omega)]
  simp [decimalValue]

theorem sampleKey_injective : Function.Injective sampleKey := by
  intro i j h
  unfold sampleKey at h
  have h1 := congrArg String.data h
  simp only [String.data_append] at h1
  have h2 := List.append_cancel_left h1
  have h3 := congrArg decimalValue h2
  simpa [toString, decimalValue_repr] using h3

theorem missCount_add_ten (hit n : Nat) (hh : hit ≤ 10) (hn : n % 10 = 0) :
    missCount hit (n + 10) = missCount hit n + (10 - hit) := by
  have e : ∀ r, r < 10 → (n + r) % 10 = r := by intro r hr; omega
  have e0 : n % 10 = 0 := hn
  simp only [missCount, e 1 (by norm_num), e 2 (by norm_num), e 3 (by norm_num),
    e 4 (by norm_num), e 5 (by norm_num), e 6 (by norm_num), e 7 (by norm_num),
    e 8 (by norm_num), e 9 (by norm_num), e0]
  interval_cases hit <;> simp

theorem missCount_ten_mul (hit q : Nat) (hh : hit ≤ 10) :
    missCount hit (10 * q) = q * (10 - hit) := by
  induction q with
  | zero => simp [missCount]
  | succ q ih =>
    have : 10 * (q + 1) = 10 * q + 10 := by ring
    rw [this, missCount_add_ten hit (10 * q) hh (by omega), ih]
    ring

theorem missCount_le (hit n : Nat) : missCount hit n ≤ n := by
  induction n with
  | zero => simp [missCount]
  | succ n ih => simp only [missCount]; split <;> omega

theorem f64OfUint64_zero : f64OfUint64 0 = 0 := by
  simp [f64OfUint64, roundNearestEven]

theorem rateOf_eq (C M : Nat) (hC : C ≤ M) (hM0 : 0 < M) (hM : M < 2 ^ 64) :
    rateOf C M = f64Mul (f64Div (f64OfUint64 (M - C)) (f64OfUint64 M)) 100 := by
  unfold rateOf
  have hu : u64 = 2 ^ 64 := rfl
  rw [if_neg (by omega)]
  have h1 : C % u64 = C := Nat.mod_eq_of_lt (by omega)
  have h2 : (M + u64 - C) % u64 = M - C := by
    have : M + u64 - C = (M - C) + u64 := by omega
    rw [this, Nat.add_mod_right]
    exact Nat.mod_eq_of_lt (by omega)
  rw [h1, h2]

/-- The rate computed from `C` misses out of `M` accesses is the exact ratio up to a
relative error of `2^-50`. -/
theorem rateOf_bounds (C M : Nat) (hC : C ≤ M) (hM0 : 0 < M) (hM : M < 2 ^ 64) :
    ((M - C : ℕ) : ℚ) / M * 100 * (1 - 1 / 2 ^ 50) ≤ rateOf C M ∧
      rateOf C M ≤ ((M - C : ℕ) : ℚ) / M * 100 * (1 + 1 / 2 ^ 50) := by
  rw [rateOf_eq C M hC hM0 hM]
  rcases Nat.eq_zero_or_pos (M - C) with h0 | hpos
  · rw [h0]
    simp [f64OfUint64, f64Div, f64Mul, roundNearestEven]
  · exact rate_bounds (M - C) M hpos hM0

/-- The rate of `q * hit` hits out of `10 * q` accesses is exactly `10 * hit`. -/
theorem rateOf_tenths (q hit : Nat) (hq : 0 < q) (hh : hit ≤ 10) (hlt : 10 * q < 2 ^ 53) :
    rateOf (q * (10 - hit)) (10 * q) = 10 * (hit : ℚ) := by
  have hC : q * (10 - hit) ≤ 10 * q := by
    have : 10 - hit ≤ 10 := by omega
    nlinarith
  rw [rateOf_eq _ _ hC (by omega) (by omega)]
  have hsub : 10 * q - q * (10 - hit) = q * hit := by
    have : q * (10 - hit) + q * hit = 10 * q := by
      rw [← Nat.mul_add]
      have : 10 - hit + hit = 10 := by omega
      rw [this, Nat.mul_comm]
    omega
  rw [hsub]
  have hqh : q * hit < 2 ^ 53 := by nlinarith
  unfold f64Mul f64Div f64OfUint64
  rw [roundNearestEven_natCast _ hqh, roundNearestEven_natCast _ hlt]
  have hq0 : (q : ℚ) ≠ 0 := by exact_mod_cast hq.ne'
  have : ((q * hit : ℕ) : ℚ) / ((10 * q : ℕ) : ℚ) = (hit : ℚ) / 10 := by
    push_cast
    field_simp
    ring
  rw [this]
  exact rate_tenths hit hh

theorem sampleFill_loop (L : LruCache Val S) (store0 : S) (hit : Nat)
    (hput : ∀ s k d k1, (L.GetEx (L.Put s k d (-1)) k1).1.2 =
      (decide (k1 = k) || (L.GetEx s k1).1.2))
    (hempty : ∀ k, (L.GetEx store0 k).1.2 = false) (n : Nat) :
    ((List.range n).foldl (sampleFill L hit) (NewCraw benchCraw () store0)).Quiescent ∧
    ((List.range n).foldl (sampleFill L hit) (NewCraw benchCraw () store0)).totalAccess = 0 ∧
    ((List.range n).foldl (sampleFill L hit) (NewCraw benchCraw () store0)).staggerAccess = 0 ∧
    ∀ j, (L.GetEx ((List.range n).foldl (sampleFill L hit)
        (NewCraw benchCraw () store0)).craw (sampleKey j)).1.2 =
      decide (j < n ∧ j % 10 < hit) := by
  induction n with
  | zero =>
    refine ⟨⟨rfl, rfl, fun _ => rfl⟩, rfl, rfl, ?_⟩
    intro j
    simpa [NewCraw] using hempty (sampleKey j)
  | succ n ih =>
    rw [List.range_succ, List.foldl_append]
    simp only [List.foldl_cons, List.foldl_nil]
    obtain ⟨⟨he, hmu, hk⟩, ht, hs, hp⟩ := ih
    generalize (List.range n).foldl (sampleFill L hit) (NewCraw benchCraw () store0) = c
      at he hmu hk ht hs hp
    unfold sampleFill
    by_cases hn : n % 10 < hit
    · rw [if_pos hn]
      refine ⟨?_, ?_, ?_, ?_⟩
      · simp [SetCraw, he, Craw.log, Craw.Quiescent, hmu, hk]
      · simpa [SetCraw, he, Craw.log] using ht
      · simpa [SetCraw, he, Craw.log] using hs
      · intro j
        simp only [SetCraw, he, Craw.log]
        simp only [Bool.true_eq_false, if_false]
        rw [hput, hp j]
        by_cases hj : j = n
        · subst hj; simp [hn]
        · have : sampleKey j ≠ sampleKey n := fun e => hj (sampleKey_injective e)
          simp [this]
          have e : decide (j < n) = decide (j < n + 1) := decide_eq_decide.mpr (by omega)
          rw [e]
    · rw [if_neg hn]
      refine ⟨⟨he, hmu, hk⟩, ht, hs, ?_⟩
      intro j
      rw [hp j]
      by_cases hj : j = n
      · subst hj; simp [hn]
      · simp
        have e : decide (j < n) = decide (j < n + 1) := decide_eq_decide.mpr (by omega)
        rw [e]

theorem sampleGet_loop (L : LruCache Val S) (hit total : Nat)
    (hput : ∀ s k d k1, (L.GetEx (L.Put s k d (-1)) k1).1.2 =
      (decide (k1 = k) || (L.GetEx s k1).1.2))
    (hget : ∀ s k k1, (L.GetEx (L.GetEx s k).2 k1).1.2 = (L.GetEx s k1).1.2)
    (c0 : Craw Val Unit S) (hq : c0.Quiescent) (ht : c0.totalAccess = 0)
    (hs : c0.staggerAccess = 0)
    (hp : ∀ j, (L.GetEx c0.craw (sampleKey j)).1.2 = decide (j < total ∧ j % 10 < hit))
    (htot : total < 2 ^ 64) (n : Nat) (hn : n ≤ total) :
    ∃ c, (List.range n).foldl (sampleGet L) (some c0) = some c ∧ c.Quiescent ∧
      c.totalAccess = n ∧ c.staggerAccess = missCount hit n ∧
      ∀ j, (L.GetEx c.craw (sampleKey j)).1.2 =
        decide ((j < total ∧ j % 10 < hit) ∨ j < n) := by
  induction n with
  | zero =>
    refine ⟨c0, rfl, hq, ht, hs, ?_⟩
    intro j
    rw [hp j]
    simp
  | succ n ih =>
    obtain ⟨c, hc, ⟨he, hmu, hk⟩, hct, hcs, hcp⟩ := ih (by omega)
    rw [List.range_succ, List.foldl_append, hc]
    simp only [List.foldl_cons, List.foldl_nil, sampleGet]
    have hu : u64 = 2 ^ 64 := rfl
    have hmc := missCount_le hit n
    have hlook : (L.GetEx c.craw (sampleKey n)).1.2 = decide (n % 10 < hit) := by
      rw [hcp n]
      apply decide_eq_decide.mpr
      constructor
      · rintro (⟨-, h⟩ | h)
        · exact h
        · omega
      · intro h; exact Or.inl ⟨by omega, h⟩
    by_cases hh : n % 10 < hit
    · have hx : (L.GetEx c.craw (sampleKey n)).1.2 = true := by rw [hlook]; simpa using hh
      rw [getData_hit benchCraw L c (sampleKey n) he hx]
      refine ⟨_, rfl, ⟨he, hmu, hk⟩, ?_, ?_, ?_⟩
      · show addU64 c.totalAccess = n + 1
        rw [hct]; unfold addU64; exact Nat.mod_eq_of_lt (by omega)
      · show c.staggerAccess = missCount hit (n + 1)
        rw [hcs]; simp [missCount, hh]
      · intro j
        show (L.GetEx (L.GetEx c.craw (sampleKey n)).2 (sampleKey j)).1.2 = _
        rw [hget, hcp j]
        apply decide_eq_decide.mpr
        constructor
        · rintro (h | h)
          · exact Or.inl h
          · exact Or.inr (by omega)
        · rintro (h | h)
          · exact Or.inl h
          · by_cases hj : j = n
            · subst hj; exact Or.inl ⟨by omega, hh⟩
            · exact Or.inr (by omega)
    · have hx : (L.GetEx c.craw (sampleKey n)).1.2 = false := by rw [hlook]; simpa using hh
      obtain ⟨c2, hg, -, hkm, hcraw, hen, hmu2, htot2, hst2, -, -⟩ :=
        getData_miss benchCraw L c (sampleKey n) he hx hmu (hk _)
      rw [hg]
      refine ⟨c2, rfl, ⟨hen, hmu2, by intro k; rw [hkm]; exact hk k⟩, ?_, ?_, ?_⟩
      · rw [htot2, hct]; unfold addU64; exact Nat.mod_eq_of_lt (by omega)
      · rw [hst2, hcs]; unfold addU64
        rw [Nat.mod_eq_of_lt (by omega)]
        simp [missCount, hh]
      · intro j
        rw [hcraw]
        simp only [benchCraw, if_true]
        rw [hput, hget, hcp j]
        by_cases hj : j = n
        · subst hj; simp
        · have : sampleKey j ≠ sampleKey n := fun e => hj (sampleKey_injective e)
          simp only [this, decide_False, Bool.false_or]
          apply decide_eq_decide.mpr
          constructor
          · rintro (h | h)
            · exact Or.inl h
            · exact Or.inr (by omega)
          · rintro (h | h)
            · exact Or.inl h
            · exact Or.inr (by omega)

/-- The sample of `ExecStatisticsTestGet` reports exactly `10 * hit`. -/
theorem ExecStatisticsTestGet_rate {S2 : Type} (L : LruCache Val S2) (store0 : S2)
    (hput : ∀ s k d k1, (L.GetEx (L.Put s k d (-1)) k1).1.2 =
      (decide (k1 = k) || (L.GetEx s k1).1.2))
    (hget : ∀ s k k1, (L.GetEx (L.GetEx s k).2 k1).1.2 = (L.GetEx s k1).1.2)
    (hempty : ∀ k, (L.GetEx store0 k).1.2 = false)
    (q hit : Nat) (hq0 : 0 < q) (hh : hit ≤ 10) (hlt : 10 * q < 2 ^ 53) :
    ExecStatisticsTestGet L store0 (10 * q) hit = some (10 * (hit : ℚ)) := by
  obtain ⟨hqf, htf, hsf, hpf⟩ := sampleFill_loop L store0 hit hput hempty (10 * q)
  obtain ⟨c, hc, -, hct, hcs, -⟩ :=
    sampleGet_loop L hit (10 * q) hput hget _ hqf htf hsf hpf
      (lt_trans hlt (by norm_num)) (10 * q) (le_refl _)
  unfold ExecStatisticsTestGet
  rw [hc]
  simp only [HitRate, hct, hcs, missCount_ten_mul hit q hh]
  rw [rateOf_tenths q hit hq0 hh hlt]

theorem mapStore_put_lookup (s : Key → Option (Option Val)) (k : Key) (d : Option Val)
    (k1 : Key) :
    (mapStore.GetEx (mapStore.Put s k d (-1)) k1).1.2 =
      (decide (k1 = k) || (mapStore.GetEx s k1).1.2) := by
  simp only [mapStore]
  by_cases h : k1 = k
  · subst h; simp
  · rw [Function.update_noteq h]; simp only [h, decide_False, Bool.false_or]; cases s k1 <;> rfl

theorem mapStore_getEx_lookup (s : Key → Option (Option Val)) (k k1 : Key) :
    (mapStore.GetEx (mapStore.GetEx s k).2 k1).1.2 = (mapStore.GetEx s k1).1.2 := by
  simp only [mapStore]
  cases s k <;> rfl

/-- The value `float64(1) / float64(3) * 100`. -/
theorem rateOf_two_three : rateOf 2 3 = 4691249611844266 / 2 ^ 47 := by
  rw [rateOf_eq 2 3 (by norm_num) (by norm_num) (by norm_num)]
  unfold f64Mul f64Div f64OfUint64
  rw [roundNearestEven_natCast _ (by norm_num), roundNearestEven_natCast _ (by norm_num)]
  have h1 : roundNearestEven (((3 - 2 : ℕ) : ℚ) / ((3 : ℕ) : ℚ)) =
      (6004799503160661 : ℤ) * (2 : ℚ) ^ (-54 : ℤ) :=
    roundNearestEven_eq_of_close _ (-54) 6004799503160661 (by norm_num) (by norm_num)
      (by norm_num) (by norm_num) (by norm_num)
  rw [h1]
  have h2 := roundNearestEven_eq_of_close ((6004799503160661 : ℤ) * (2 : ℚ) ^ (-54 : ℤ) * 100)
    (-47) 4691249611844266 (by norm_num) (by norm_num) (by norm_num) (by norm_num)
    (by norm_num)
  rw [h2]
  norm_num

/-- C4 as stated fails: after three `GetData` calls of which two miss, `HitRate()` is
the `float64` number `4691249611844266 / 2^47` (printed `33.33333333333333`), not
the rational `(3 - 2) / 3 * 100`; and the sample with `total = 0` (a multiple of
10) and `h = 3` reports `0`, not `30`. -/
theorem C4_counterexample :
    (runOps cacheGet mapStore thirdOps (NewCraw cacheGet 0 emptyStore)).map
        (fun r => (r.2, HitRate r.1)) = some ((3, 2), 4691249611844266 / 2 ^ 47) ∧
    (4691249611844266 / 2 ^ 47 : ℚ) ≠ ((3 - 2 : ℕ) : ℚ) / 3 * 100 ∧
    ExecStatisticsTestGet mapStore emptyStore 0 3 = some 0 := by
  refine ⟨?_, by norm_num, ?_⟩
  · obtain ⟨c1, C, h1, -, -, h4, h5⟩ :=
      runOps_counts cacheGet mapStore thirdOps (NewCraw cacheGet 0 emptyStore)
        ⟨rfl, rfl, fun _ => rfl⟩ (by decide) (by decide)
    have hM : thirdOps.countP SeqOp.isGetData = 3 := by decide
    have hC : C = 2 := by
      have h2 : (runOps cacheGet mapStore thirdOps (NewCraw cacheGet 0 emptyStore)).map
          (fun r => r.2.2) = some 2 := by decide
      rw [h1] at h2
      simpa using h2
    subst hC
    rw [hM] at h1 h4
    rw [h1]
    have e4 : c1.totalAccess = 3 := by rw [h4]; decide
    have e5 : c1.staggerAccess = 2 := by rw [h5]; decide
    simp only [Option.map_some', HitRate, e4, e5, rateOf_two_three]
  · simp [ExecStatisticsTestGet, HitRate, rateOf, NewCraw]

/-- C4 (amended): on a fresh enabled `Craw` (quiescent, both counters 0), any
sequential run of `GetData` and `SetCraw` calls returns; with `M < 2^64` the
number of `GetData` calls and `C` the number of those that missed the store,
`totalAccess = M`, `staggerAccess = C ≤ M`, and `HitRate()` is the `float64`
value of `float64(M-C) / float64(M) * 100`: it is `0` when `M = 0`, and otherwise
equals `(M - C) / M * 100` up to a relative error of `2^-50`.  In particular the
sample of `ExecStatisticsTestGet` (adapter `benchCraw`, a store in which a key
put with expiry `-1` stays and which is empty at first), for every positive
`total = 10 * q < 2^53` and every `hit ≤ 10`, reports exactly `10 * hit`. -/
theorem C4_hitRate_after_run (I : CrawInterface V A) (L : LruCache V S) (c : Craw V A S)
    (hq : c.Quiescent) (ht : c.totalAccess = 0) (hs : c.staggerAccess = 0)
    (ops : List (SeqOp V)) (hM : ops.countP SeqOp.isGetData < 2 ^ 64)
    {S2 : Type} (L2 : LruCache Val S2) (store0 : S2)
    (hput : ∀ s k d k1, (L2.GetEx (L2.Put s k d (-1)) k1).1.2 =
      (decide (k1 = k) || (L2.GetEx s k1).1.2))
    (hget : ∀ s k k1, (L2.GetEx (L2.GetEx s k).2 k1).1.2 = (L2.GetEx s k1).1.2)
    (hempty : ∀ k, (L2.GetEx store0 k).1.2 = false)
    (q hit : Nat) (hq0 : 0 < q) (hh : hit ≤ 10) (hlt : 10 * q < 2 ^ 53) :
    (∃ c1 C, runOps I L ops c = some (c1, ops.countP SeqOp.isGetData, C) ∧
      C ≤ ops.countP SeqOp.isGetData ∧
      c1.totalAccess = ops.countP SeqOp.isGetData ∧ c1.staggerAccess = C ∧
      HitRate c1 = rateOf C (ops.countP SeqOp.isGetData) ∧
      (ops.countP SeqOp.isGetData = 0 → HitRate c1 = 0) ∧
      (0 < ops.countP SeqOp.isGetData →
        HitRate c1 =
          f64Mul (f64Div (f64OfUint64 (ops.countP SeqOp.isGetData - C))
            (f64OfUint64 (ops.countP SeqOp.isGetData))) 100 ∧
        ((ops.countP SeqOp.isGetData - C : ℕ) : ℚ) / (ops.countP SeqOp.isGetData : ℕ) * 100 *
            (1 - 1 / 2 ^ 50) ≤ HitRate c1 ∧
        HitRate c1 ≤
          ((ops.countP SeqOp.isGetData - C : ℕ) : ℚ) / (ops.countP SeqOp.isGetData : ℕ) * 100 *
            (1 + 1 / 2 ^ 50))) ∧
    ExecStatisticsTestGet L2 store0 (10 * q) hit = some (10 * (hit : ℚ)) := by
  refine ⟨?_, ExecStatisticsTestGet_rate L2 store0 hput hget hempty q hit hq0 hh hlt⟩
  have hu : u64 = 2 ^ 64 := rfl
  obtain ⟨c1, C, h1, h2, -, h4, h5⟩ :=
    runOps_counts I L ops c hq (by rw [ht, hu]; positivity) (by rw [hs, hu]; positivity)
  generalize ops.countP SeqOp.isGetData = M at *
  rw [ht, Nat.zero_add, Nat.mod_eq_of_lt (by omega)] at h4
  rw [hs, Nat.zero_add, Nat.mod_eq_of_lt (by omega)] at h5
  have hrate : HitRate c1 = rateOf C M := by simp [HitRate, h4, h5]
  refine ⟨c1, C, h1, h2, h4, h5, hrate, ?_, ?_⟩
  · intro h0; rw [hrate, h0]; simp [rateOf]
  · intro hpos
    rw [hrate]
    exact ⟨rateOf_eq C M h2 hpos hM, rateOf_bounds C M h2 hpos hM⟩

theorem C4_hitRate_after_run_witness :
    ExecStatisticsTestGet mapStore emptyStore 10000 3 = some 30 ∧
    (runOps cacheGet mapStore thirdOps (NewCraw cacheGet 0 emptyStore)).isSome = true := by
  have h := C4_hitRate_after_run cacheGet mapStore (NewCraw cacheGet 0 emptyStore)
    ⟨rfl, rfl, fun _ => rfl⟩ rfl rfl thirdOps (by decide) mapStore emptyStore
    mapStore_put_lookup mapStore_getEx_lookup (fun _ => rfl) 1000 3 (by norm_num)
    (by norm_num) (by norm_num)
  obtain ⟨⟨c1, C, h1, -⟩, h2⟩ := h
  refine ⟨?_, by rw [h1]; rfl⟩
  have e : (10 * 1000 : ℕ) = 10000 := by norm_num
  rw [e] at h2
  rw [h2]
  norm_num

/-! ### The rate returned by `HitRate` and `ResetHitRate` -/

/-- With no miss counted the rate is exactly `100`. -/
theorem rateOf_no_miss (t : Nat) (h0 : 0 < t) (ht : t < 2 ^ 64) : rateOf 0 t = 100 := by
  rw [rateOf_eq 0 t (Nat.zero_le _) h0 ht]
  unfold f64Mul f64Div f64OfUint64
  have hpos : 0 < roundNearestEven ((t - 0 : ℕ) : ℚ) :=
    roundNearestEven_pos _ (by simpa using h0)
  simp only [Nat.sub_zero] at hpos ⊢
  rw [div_self hpos.ne']
  have h1 : roundNearestEven (1 : ℚ) = 1 := by
    have := roundNearestEven_natCast 1 (by norm_num)
    simpa using this
  rw [h1]
  have h2 := roundNearestEven_natCast 100 (by norm_num)
  norm_num at h2 ⊢
  exact h2

/-- When every access missed the rate is exactly `0`. -/
theorem rateOf_all_miss (t : Nat) (ht : t < 2 ^ 64) : rateOf t t = 0 := by
  rcases Nat.eq_zero_or_pos t with h0 | hpos
  · subst h0; simp [rateOf]
  rw [rateOf_eq t t (le_refl _) hpos ht]
  simp [f64Mul, f64Div, f64OfUint64, roundNearestEven]

/-- The value `float64(1) / float64(2) * 100`. -/
theorem rateOf_one_two : rateOf 1 2 = 50 := by
  rw [rateOf_eq 1 2 (by norm_num) (by norm_num) (by norm_num)]
  unfold f64Mul f64Div f64OfUint64
  rw [roundNearestEven_natCast _ (by norm_num), roundNearestEven_natCast _ (by norm_num)]
  have h1 : roundNearestEven (((2 - 1 : ℕ) : ℚ) / ((2 : ℕ) : ℚ)) =
      (4503599627370496 : ℤ) * (2 : ℚ) ^ (-53 : ℤ) :=
    roundNearestEven_eq_of_close _ (-53) 4503599627370496 (by norm_num) (by norm_num)
      (by norm_num) (by norm_num) (by norm_num)
  rw [h1]
  have h2 := roundNearestEven_natCast 50 (by norm_num)
  have e : ((4503599627370496 : ℤ) : ℚ) * (2 : ℚ) ^ (-53 : ℤ) * 100 = ((50 : ℕ) : ℚ) := by
    norm_num
  rw [e, h2]
  norm_num

/-- The value computed when `staggerAccess = 2` and `totalAccess = 1`: the `uint64`
subtraction wraps to `2^64 - 1`, which `float64` rounds to `2^64`. -/
theorem rateOf_two_one : rateOf 2 1 = 1844674407370955161600 := by
  have hu : u64 = 2 ^ 64 := rfl
  have e0 : (1 + u64 - 2 % u64) % u64 = 18446744073709551615 := by
    rw [hu]; norm_num
  unfold rateOf
  rw [if_neg (by norm_num), e0]
  unfold f64Mul f64Div f64OfUint64
  have h1 : roundNearestEven ((18446744073709551615 : ℕ) : ℚ) =
      (4503599627370496 : ℤ) * (2 : ℚ) ^ (12 : ℤ) := by
    rw [roundNearestEven_eq_of_close _ 11 9007199254740992 (by norm_num) (by norm_num)
      (by norm_num) (by norm_num) (by norm_num)]
    norm_num
  have h2 : roundNearestEven ((1 : ℕ) : ℚ) = ((1 : ℕ) : ℚ) :=
    roundNearestEven_natCast 1 (by norm_num)
  rw [h1, h2]
  have h3 : roundNearestEven ((4503599627370496 : ℤ) * (2 : ℚ) ^ (12 : ℤ) / ((1 : ℕ) : ℚ)) =
      (4503599627370496 : ℤ) * (2 : ℚ) ^ (12 : ℤ) :=
    roundNearestEven_eq_of_close _ 12 4503599627370496 (by norm_num) (by norm_num)
      (by norm_num) (by norm_num) (by norm_num)
  rw [h3]
  have h4 : roundNearestEven ((4503599627370496 : ℤ) * (2 : ℚ) ^ (12 : ℤ) * 100) =
      (7036874417766400 : ℤ) * (2 : ℚ) ^ (18 : ℤ) :=
    roundNearestEven_eq_of_close _ 18 7036874417766400 (by norm_num) (by norm_num)
      (by norm_num) (by norm_num) (by norm_num)
  rw [h4]
  norm_num

/-- C5 as stated fails.  The counter state `totalAccess = 1`, `staggerAccess = 2` is
reached by three calls that have all returned; there `ResetHitRate` and `HitRate`
return `1844674407370955161600`, not `(1 - 2) / 1 * 100`.  And in the state
`totalAccess = 3`, `staggerAccess = 2` they return the `float64` number
`4691249611844266 / 2^47`, not `(3 - 2) / 3 * 100`. -/
theorem C5_counterexample :
    (Sys.exec cacheGet mapStore skewSchedule skewedGetters).shared.totalAccess = 1 ∧
    (Sys.exec cacheGet mapStore skewSchedule skewedGetters).shared.staggerAccess = 2 ∧
    (Sys.exec cacheGet mapStore skewSchedule skewedGetters).threads.map Thread.finished =
      [true, true, true] ∧
    (ResetHitRate (Sys.exec cacheGet mapStore skewSchedule skewedGetters).shared).1 =
      1844674407370955161600 ∧
    HitRate (Sys.exec cacheGet mapStore skewSchedule skewedGetters).shared =
      1844674407370955161600 ∧
    (1844674407370955161600 : ℚ) ≠ ((1 : ℚ) - 2) / 1 * 100 ∧
    (ResetHitRate (countersCraw 3 2)).1 = 4691249611844266 / 2 ^ 47 ∧
    HitRate (countersCraw 3 2) = 4691249611844266 / 2 ^ 47 ∧
    (4691249611844266 / 2 ^ 47 : ℚ) ≠ ((3 : ℚ) - 2) / 3 * 100 := by
  have e1 : (Sys.exec cacheGet mapStore skewSchedule skewedGetters).shared.totalAccess = 1 := by
    decide
  have e2 : (Sys.exec cacheGet mapStore skewSchedule skewedGetters).shared.staggerAccess = 2 := by
    decide
  refine ⟨e1, e2, by decide, ?_, ?_, by norm_num, rateOf_two_three, rateOf_two_three,
    by norm_num⟩
  · simp only [ResetHitRate, e1, e2, rateOf_two_one]
  · simp only [HitRate, e1, e2, rateOf_two_one]

/-- C5 (amended): in every counter state `ResetHitRate` returns exactly what `HitRate`
returns there, namely `0` when `totalAccess` is `0` and otherwise the `float64` value
of `float64(total-custom)/float64(total)*100` with a `uint64` subtraction.  When
`0 < t`, `m ≤ t` and `t < 2^64` that value is `(t - m) / t * 100` up to a relative
error of `2^-50`; it is exactly `100` when `m = 0` and exactly `0` when `m = t`.
`ResetHitRate` sets both counters to `0` and leaves everything else alone, and
`HitRate` called right afterwards returns `0`.  The same holds for the step-by-step
execution of the two calls (loads, swaps, computation). -/
theorem C5_resetHitRate_returns_prior_rate (c : Craw V A S) :
    (ResetHitRate c).1 = HitRate c ∧
    HitRate c = (if c.totalAccess = 0 then 0 else
        f64Mul (f64Div (f64OfUint64 ((c.totalAccess + u64 - c.staggerAccess % u64) % u64))
          (f64OfUint64 c.totalAccess)) 100) ∧
    (c.totalAccess = 0 → (ResetHitRate c).1 = 0) ∧
    (0 < c.totalAccess → c.staggerAccess ≤ c.totalAccess → c.totalAccess < 2 ^ 64 →
      ((c.totalAccess - c.staggerAccess : ℕ) : ℚ) / (c.totalAccess : ℕ) * 100 *
          (1 - 1 / 2 ^ 50) ≤ (ResetHitRate c).1 ∧
      (ResetHitRate c).1 ≤
        ((c.totalAccess - c.staggerAccess : ℕ) : ℚ) / (c.totalAccess : ℕ) * 100 *
          (1 + 1 / 2 ^ 50)) ∧
    (0 < c.totalAccess → c.totalAccess < 2 ^ 64 → c.staggerAccess = 0 →
      (ResetHitRate c).1 = 100) ∧
    (c.totalAccess < 2 ^ 64 → c.staggerAccess = c.totalAccess → (ResetHitRate c).1 = 0) ∧
    (ResetHitRate c).2.totalAccess = 0 ∧
    (ResetHitRate c).2.staggerAccess = 0 ∧
    (ResetHitRate c).2 = { c with staggerAccess := 0, totalAccess := 0 } ∧
    HitRate (ResetHitRate c).2 = 0 ∧
    (RateFrame.run RateFrame.stepReset 4 c RateFrame.init).2.result =
      (RateFrame.run RateFrame.stepHit 4 c RateFrame.init (V := V) (A := A) (S := S)).2.result ∧
    (RateFrame.run RateFrame.stepReset 4 c RateFrame.init).2.result = (ResetHitRate c).1 ∧
    (RateFrame.run RateFrame.stepReset 4 c RateFrame.init).1 = (ResetHitRate c).2 ∧
    (RateFrame.run RateFrame.stepHit 4
      (RateFrame.run RateFrame.stepReset 4 c RateFrame.init).1 RateFrame.init).2.result = 0 := by
  refine ⟨rfl, rfl, ?_, ?_, ?_, ?_, rfl, rfl, rfl, ?_, ?_, ?_, ?_, ?_⟩
  · intro h; simp [ResetHitRate, rateOf, h]
  · intro h0 hle hlt
    exact rateOf_bounds c.staggerAccess c.totalAccess hle h0 hlt
  · intro h0 hlt hm
    simp only [ResetHitRate, hm]
    exact rateOf_no_miss c.totalAccess h0 hlt
  · intro hlt hm
    simp only [ResetHitRate, hm]
    exact rateOf_all_miss c.totalAccess hlt
  · simp [HitRate, ResetHitRate, rateOf]
  · rw [resetHitRate_run, hitRate_run]; simp [ResetHitRate, HitRate]
  · rw [resetHitRate_run]
  · rw [resetHitRate_run]
  · rw [resetHitRate_run, hitRate_run]; simp [HitRate, ResetHitRate, rateOf]

theorem C5_resetHitRate_returns_prior_rate_witness :
    (ResetHitRate (countersCraw 2 1)).1 = HitRate (countersCraw 2 1) ∧
    HitRate (countersCraw 2 1) = 50 ∧
    ((2 - 1 : ℕ) : ℚ) / (2 : ℕ) * 100 * (1 - 1 / 2 ^ 50) ≤ (ResetHitRate (countersCraw 2 1)).1 ∧
    (ResetHitRate (countersCraw 2 1)).1 ≤ ((2 - 1 : ℕ) : ℚ) / (2 : ℕ) * 100 * (1 + 1 / 2 ^ 50) ∧
    (ResetHitRate (countersCraw 2 1)).2.totalAccess = 0 ∧
    (ResetHitRate (countersCraw 2 1)).2.staggerAccess = 0 ∧
    HitRate (ResetHitRate (countersCraw 2 1)).2 = 0 :=
  ⟨(C5_resetHitRate_returns_prior_rate (countersCraw 2 1)).1, rateOf_one_two,
    ((C5_resetHitRate_returns_prior_rate (countersCraw 2 1)).2.2.2.1
      (by decide) (by decide) (by decide)).1,
    ((C5_resetHitRate_returns_prior_rate (countersCraw 2 1)).2.2.2.1
      (by decide) (by decide) (by decide)).2,
    rfl, rfl,
    (C5_resetHitRate_returns_prior_rate (countersCraw 2 1)).2.2.2.2.2.2.2.2.2.1⟩

/-! ### The operations on a disabled `Craw` -/

/-- On a disabled `Craw` every operation with an error result returns the destroyed
error and leaves the state as it was. -/
theorem Op.run_disabled (I : CrawInterface V A) (L : LruCache V S) (c : Craw V A S)
    (h : c.enable = false) (op : Op V) (hop : op.hasErrorResult = true) :
    op.run I L c = some (some destroyedErr, c) := by
  cases op <;>
    simp_all [Op.run, Op.hasErrorResult, getData_disabled, UpdateData, SetData, SetCraw,
      DeleteData, IsExist, ClearAll, ClearPrefixKeys]

/-- C2 (amended): `Destroy` disables any `Craw`, and a `NewCraw` whose adapter `Init`
failed is disabled.  On a disabled `Craw` (in particular after `Destroy` or the
failed `Init`) each of `GetData`, `UpdateData`, `SetData`, `SetCraw`, `DeleteData`,
`IsExist`, `ClearAll` and `ClearPrefixKeys` returns the destroyed error and leaves
the whole state, the log of collaborator invocations included, as it was.
`HitRate` and `ResetHitRate` have no error result and no enable check: they invoke
neither collaborator; `HitRate` changes nothing and still returns the rate computed
from the two counters; `ResetHitRate` still returns that rate and sets both
counters to `0`, changing nothing else.  The rate is `0` when `totalAccess = 0`,
and for `m ≤ t`, `0 < t < 2^64` it is `(t - m) / t * 100` up to a relative error
of `2^-50`. -/
theorem C2_disabled_operations (I : CrawInterface V A) (L : LruCache V S)
    (c : Craw V A S) (h : c.enable = false) :
    (∀ c0 : Craw V A S, (Destroy I L c0).enable = false) ∧
    (∀ a0 s0, (I.Init a0).1 ≠ none → (NewCraw I a0 s0 : Craw V A S).enable = false) ∧
    (∀ op : Op V, op.hasErrorResult = true → op.run I L c = some (some destroyedErr, c)) ∧
    (∀ key, GetData I L c key = some ((none, some destroyedErr), c)) ∧
    (∀ key, UpdateData I L c key = ((none, some destroyedErr), c)) ∧
    (∀ key, IsExist L c key = ((false, some destroyedErr), c)) ∧
    Op.run I L c Op.hitRate = some (none, c) ∧
    (∃ c1, Op.run I L c Op.resetHitRate = some (none, c1) ∧
      c1.calls = c.calls ∧ c1.craw = c.craw ∧ c1.dispose = c.dispose ∧
      c1.keyMap = c.keyMap ∧ c1.enable = false) ∧
    (∀ key data, SetData I L c key data = (some destroyedErr, c)) ∧
    (∀ key data expired, SetCraw L c key data expired = (some destroyedErr, c)) ∧
    (∀ key delay, DeleteData L c key delay = (some destroyedErr, c)) ∧
    ClearAll L c = (some destroyedErr, c) ∧
    (∀ pre, ClearPrefixKeys L c pre = (some destroyedErr, c)) ∧
    (∀ (c0 : Craw V A S) (op : Op V), op.hasErrorResult = true →
      op.run I L (Destroy I L c0) = some (some destroyedErr, Destroy I L c0)) ∧
    (∀ a0 (s0 : S) (op : Op V), (I.Init a0).1 ≠ none → op.hasErrorResult = true →
      op.run I L (NewCraw I a0 s0) = some (some destroyedErr, NewCraw I a0 s0)) ∧
    HitRate c = rateOf c.staggerAccess c.totalAccess ∧
    ResetHitRate c =
      (rateOf c.staggerAccess c.totalAccess, { c with staggerAccess := 0, totalAccess := 0 }) ∧
    RateFrame.run RateFrame.stepHit 4 c RateFrame.init =
      (c, ⟨RPc.done, c.staggerAccess, c.totalAccess, rateOf c.staggerAccess c.totalAccess⟩) ∧
    RateFrame.run RateFrame.stepReset 4 c RateFrame.init =
      ({ c with staggerAccess := 0, totalAccess := 0 },
        ⟨RPc.done, c.staggerAccess, c.totalAccess, rateOf c.staggerAccess c.totalAccess⟩) ∧
    (c.totalAccess = 0 → HitRate c = 0 ∧ (ResetHitRate c).1 = 0) ∧
    (0 < c.totalAccess → c.staggerAccess ≤ c.totalAccess → c.totalAccess < 2 ^ 64 →
      ((c.totalAccess - c.staggerAccess : ℕ) : ℚ) / (c.totalAccess : ℕ) * 100 *
          (1 - 1 / 2 ^ 50) ≤ HitRate c ∧
      HitRate c ≤
        ((c.totalAccess - c.staggerAccess : ℕ) : ℚ) / (c.totalAccess : ℕ) * 100 *
          (1 + 1 / 2 ^ 50) ∧
      (ResetHitRate c).1 = HitRate c) := by
  have hnew : ∀ a0 (s0 : S), (I.Init a0).1 ≠ none →
      (NewCraw I a0 s0 : Craw V A S).enable = false := by
    intro a0 s0 hinit
    cases hi : (I.Init a0).1 with
    | none => exact absurd hi hinit
    | some e => simp [NewCraw, hi]
  refine ⟨fun _ => rfl, hnew, Op.run_disabled I L c h, ?_, ?_, ?_, rfl,
    ⟨_, rfl, rfl, rfl, rfl, rfl, h⟩, ?_, ?_, ?_, ?_, ?_, ?_, ?_, rfl, rfl, ?_, ?_, ?_, ?_⟩
  · intro key; exact getData_disabled I L c key h
  · intro key; simp [UpdateData, h]
  · intro key; simp [IsExist, h]
  · intro key data; simp [SetData, h]
  · intro key data expired; simp [SetCraw, h]
  · intro key delay; simp [DeleteData, h]
  · simp [ClearAll, h]
  · intro pre; simp [ClearPrefixKeys, h]
  · intro c0 op hop; exact Op.run_disabled I L _ rfl op hop
  · intro a0 s0 op hinit hop; exact Op.run_disabled I L _ (hnew a0 s0 hinit) op hop
  · rw [hitRate_run]; rfl
  · rw [resetHitRate_run]; rfl
  · intro h0; simp [HitRate, ResetHitRate, rateOf, h0]
  · intro h0 hle hlt
    exact ⟨(rateOf_bounds c.staggerAccess c.totalAccess hle h0 hlt).1,
      (rateOf_bounds c.staggerAccess c.totalAccess hle h0 hlt).2, rfl⟩

theorem C2_disabled_operations_witness :
    destroyedCraw.enable = false ∧
    GetData cacheGet mapStore destroyedCraw "k" =
      some ((none, some destroyedErr), destroyedCraw) ∧
    Op.run cacheGet mapStore destroyedCraw (Op.setData "k" (some (Val.int 7))) =
      some (some destroyedErr, destroyedCraw) ∧
    Op.run cacheGet mapStore destroyedCraw Op.hitRate = some (none, destroyedCraw) ∧
    HitRate destroyedCraw = 50 ∧
    ((2 - 1 : ℕ) : ℚ) / (2 : ℕ) * 100 * (1 - 1 / 2 ^ 50) ≤ HitRate destroyedCraw ∧
    ResetHitRate destroyedCraw =
      (rateOf 1 2, { destroyedCraw with staggerAccess := 0, totalAccess := 0 }) ∧
    (Destroy cacheGet mapStore (NewCraw cacheGet 0 emptyStore)).enable = false :=
  ⟨rfl,
    (C2_disabled_operations cacheGet mapStore destroyedCraw rfl).2.2.2.1 "k",
    (C2_disabled_operations cacheGet mapStore destroyedCraw rfl).2.2.1
      (Op.setData "k" (some (Val.int 7))) rfl,
    (C2_disabled_operations cacheGet mapStore destroyedCraw rfl).2.2.2.2.2.2.1,
    rateOf_one_two,
    ((C2_disabled_operations cacheGet mapStore destroyedCraw rfl).2.2.2.2.2.2.2.2.2.2.2.2.2.2.2.2.2.2.2.2
      (by decide) (by decide) (by decide)).1,
    (C2_disabled_operations cacheGet mapStore destroyedCraw rfl).2.2.2.2.2.2.2.2.2.2.2.2.2.2.2.2.1,
    (C2_disabled_operations cacheGet mapStore destroyedCraw rfl).1
      (NewCraw cacheGet 0 emptyStore)⟩

end CrawModel
